import Mathlib

/-!
# On-demand object iterator (`object_iterator-inl.h`)

A shallow embedding of `simdjson::ondemand::object_iterator` and of the
`simdjson_result<object_iterator>` adaptor.  The iterator code is embedded over
an arbitrary cursor (`cursor_ops`), because the cursor class `value_iterator`
is declared outside `object_iterator-inl.h`; a token-level cursor modelled from
the specification (`json_cursor`) instantiates it for the statements that speak
about well-formed objects.
-/

namespace simdjson

/-! ## Error codes and results -/

/-- Modelled from the spec: the `error_code` enumeration is declared outside
`object_iterator-inl.h`.  The file names `SUCCESS`, `NO_SUCH_FIELD` and
`TAPE_ERROR`; `INCORRECT_TYPE` stands for the spec's key-type mismatch and
`CAPACITY` for any unrelated upstream error. -/
inductive error_code where
  | SUCCESS
  | CAPACITY
  | TAPE_ERROR
  | INCORRECT_TYPE
  | NO_SUCH_FIELD
  deriving DecidableEq, Repr

/-- The raw bytes of a JSON key; `actual_key == key` is a byte-for-byte comparison. -/
abbrev raw_json_string := List Nat

/-- Modelled from the spec: `simdjson_result<T>` is a pair of a value (`first`) and an
error code (`second`), declared outside `object_iterator-inl.h`; the constructor
from an error code stores a default value, `({}, error)` (line 129). -/
structure simdjson_result (α : Type) where
  first : α
  second : error_code
  deriving DecidableEq, Repr

/-- The accessor `error()` of the result base reads the member `second`. -/
def simdjson_result.error {α : Type} (r : simdjson_result α) : error_code := r.second

/-- Converting constructor from an error code: `({}, error)`. -/
def simdjson_result.of_error {α : Type} [Inhabited α] (e : error_code) : simdjson_result α :=
  ⟨default, e⟩

/-- Converting constructor from a value: `(value, SUCCESS)`. -/
def simdjson_result.of_value {α : Type} (v : α) : simdjson_result α :=
  ⟨v, error_code.SUCCESS⟩

/-! ## The cursor interface consumed by the iterator -/

/-- The operations of the shared cursor (`value_iterator`) that
`object_iterator-inl.h` calls, over an arbitrary cursor state `σ`; `φ` is the
type of a started field.  Each mutating operation returns its result together
with the cursor state it leaves. -/
structure cursor_ops (σ φ : Type) where
  error : σ → error_code
  is_open : σ → Bool
  abandon : σ → σ
  finish_child : σ → error_code × σ
  has_next_field : σ → simdjson_result Bool × σ
  field_key : σ → simdjson_result raw_json_string × σ
  field_value : σ → error_code × σ
  skip_child : σ → error_code × σ
  field_start : σ → simdjson_result φ × σ

/-- The mutating cursor operations, as recorded in the call log. -/
inductive cursor_call where
  | abandon
  | finish_child
  | has_next_field
  | field_key
  | field_value
  | skip_child
  | field_start
  deriving DecidableEq, Repr

/-- A cursor state together with the log of the mutating operations issued on
it so far (oldest first).  The log is ghost state: no operation reads it. -/
structure value_iterator (σ : Type) where
  state : σ
  calls : List cursor_call
  deriving DecidableEq, Repr

namespace value_iterator

variable {σ φ : Type}

def error (C : cursor_ops σ φ) (it : value_iterator σ) : error_code :=
  C.error it.state

def is_open (C : cursor_ops σ φ) (it : value_iterator σ) : Bool :=
  C.is_open it.state

def abandon (C : cursor_ops σ φ) (it : value_iterator σ) : value_iterator σ :=
  ⟨C.abandon it.state, it.calls ++ [cursor_call.abandon]⟩

def finish_child (C : cursor_ops σ φ) (it : value_iterator σ) :
    error_code × value_iterator σ :=
  ((C.finish_child it.state).1,
    ⟨(C.finish_child it.state).2, it.calls ++ [cursor_call.finish_child]⟩)

def has_next_field (C : cursor_ops σ φ) (it : value_iterator σ) :
    simdjson_result Bool × value_iterator σ :=
  ((C.has_next_field it.state).1,
    ⟨(C.has_next_field it.state).2, it.calls ++ [cursor_call.has_next_field]⟩)

def field_key (C : cursor_ops σ φ) (it : value_iterator σ) :
    simdjson_result raw_json_string × value_iterator σ :=
  ((C.field_key it.state).1,
    ⟨(C.field_key it.state).2, it.calls ++ [cursor_call.field_key]⟩)

def field_value (C : cursor_ops σ φ) (it : value_iterator σ) :
    error_code × value_iterator σ :=
  ((C.field_value it.state).1,
    ⟨(C.field_value it.state).2, it.calls ++ [cursor_call.field_value]⟩)

def skip_child (C : cursor_ops σ φ) (it : value_iterator σ) :
    error_code × value_iterator σ :=
  ((C.skip_child it.state).1,
    ⟨(C.skip_child it.state).2, it.calls ++ [cursor_call.skip_child]⟩)

/-- The call `field::start(iter)`. -/
def field_start (C : cursor_ops σ φ) (it : value_iterator σ) :
    simdjson_result φ × value_iterator σ :=
  ((C.field_start it.state).1,
    ⟨(C.field_start it.state).2, it.calls ++ [cursor_call.field_start]⟩)

end value_iterator

/-! ## `object_iterator` -/

/-- The iterator: the cursor and the flag `at_start`. -/
structure object_iterator (σ : Type) where
  iter : value_iterator σ
  at_start : Bool
  deriving DecidableEq, Repr

namespace object_iterator

variable {σ φ : Type}

/-- The constructor `object_iterator(const value_iterator &_iter)` (lines 9-12). -/
def ctor (_iter : value_iterator σ) : object_iterator σ :=
  { iter := _iter, at_start := true }

/-- The dereference `operator*` (lines 14-22). -/
def operator_star [Inhabited φ] (C : cursor_ops σ φ) (self : object_iterator σ) :
    simdjson_result φ × object_iterator σ :=
  let error := self.iter.error C
  if error ≠ error_code.SUCCESS then
    (simdjson_result.of_error error, { self with iter := self.iter.abandon C })
  else
    let r := self.iter.field_start C
    if r.1.error ≠ error_code.SUCCESS then
      (r.1, { self with iter := r.2.abandon C })
    else
      (r.1, { self with iter := r.2 })

/-- The comparison `operator!=` (lines 26-28); the other iterator is ignored. -/
def operator_ne (C : cursor_ops σ φ) (self _other : object_iterator σ) : Bool :=
  self.iter.is_open C

/-- The comparison `operator==` (lines 23-25). -/
def operator_eq (C : cursor_ops σ φ) (self other : object_iterator σ) : Bool :=
  !(operator_ne C self other)

/-- The increment `operator++` (lines 29-40). -/
def operator_inc (C : cursor_ops σ φ) (self : object_iterator σ) : object_iterator σ :=
  if !self.iter.is_open C then self
  else
    let f := self.iter.finish_child C
    if f.1 ≠ error_code.SUCCESS then { self with iter := f.2 }
    else
      let n := f.2.has_next_field C
      if n.1.error ≠ error_code.SUCCESS then { self with iter := n.2 }
      else { self with iter := n.2 }

/-- The scan loop `while (has_value) { ... }` of `find_field_raw` (lines 96-113).
The first argument bounds the number of loop iterations; `none` means the bound
was reached with the loop still running. -/
def find_field_raw_loop (C : cursor_ops σ φ) (key : raw_json_string) :
    Nat → Bool → object_iterator σ → Option (error_code × object_iterator σ)
  | _, false, self => some (error_code.NO_SUCH_FIELD, self)
  | 0, true, _ => none
  | fuel + 1, true, self =>
    let k := self.iter.field_key C
    if k.1.error ≠ error_code.SUCCESS then
      some (k.1.error, { self with iter := k.2.abandon C })
    else
      let v := k.2.field_value C
      if v.1 ≠ error_code.SUCCESS then
        some (v.1, { self with iter := v.2.abandon C })
      else if k.1.first = key then
        some (error_code.SUCCESS, { self with iter := v.2 })
      else
        let s := v.2.skip_child C
        -- SIMDJSON_TRY: return the error as it is
        if s.1 ≠ error_code.SUCCESS then some (s.1, { self with iter := s.2 })
        else
          let n := s.2.has_next_field C
          if n.1.error ≠ error_code.SUCCESS then
            some (n.1.error, { self with iter := n.2.abandon C })
          else
            find_field_raw_loop C key fuel n.1.first { self with iter := n.2 }

/-- The lookup `find_field_raw` (lines 83-114). -/
def find_field_raw (C : cursor_ops σ φ) (fuel : Nat) (self : object_iterator σ)
    (key : raw_json_string) : Option (error_code × object_iterator σ) :=
  if !self.iter.is_open C then some (error_code.NO_SUCH_FIELD, self)
  else if self.at_start then
    find_field_raw_loop C key fuel true { self with at_start := false }
  else
    let f := self.iter.finish_child C
    if f.1 ≠ error_code.SUCCESS then
      some (f.1, { iter := f.2.abandon C, at_start := self.at_start })
    else
      let n := f.2.has_next_field C
      if n.1.error ≠ error_code.SUCCESS then
        some (n.1.error, { iter := n.2.abandon C, at_start := self.at_start })
      else
        find_field_raw_loop C key fuel n.1.first { iter := n.2, at_start := self.at_start }

end object_iterator

/-! ## `simdjson_result<object_iterator>` -/

namespace simdjson_result

variable {σ φ : Type}

/-- The dereference of the adaptor (lines 133-136): `second = SUCCESS` is executed
before `error()` is evaluated for the return value. -/
def operator_star [Inhabited φ] (C : cursor_ops σ φ)
    (self : simdjson_result (object_iterator σ)) :
    simdjson_result φ × simdjson_result (object_iterator σ) :=
  if self.error ≠ error_code.SUCCESS then
    let self1 : simdjson_result (object_iterator σ) :=
      { self with second := error_code.SUCCESS }
    (simdjson_result.of_error self1.error, self1)
  else
    let r := self.first.operator_star C
    (r.1, { self with first := r.2 })

/-- The comparison `operator==` of the adaptor (lines 138-141). -/
def operator_eq (C : cursor_ops σ φ)
    (self other : simdjson_result (object_iterator σ)) : Bool :=
  if self.error ≠ error_code.SUCCESS then true
  else object_iterator.operator_eq C self.first other.first

/-- The comparison `operator!=` of the adaptor (lines 143-146). -/
def operator_ne (C : cursor_ops σ φ)
    (self other : simdjson_result (object_iterator σ)) : Bool :=
  if self.error ≠ error_code.SUCCESS then false
  else object_iterator.operator_ne C self.first other.first

/-- The increment `operator++` of the adaptor (lines 148-152). -/
def operator_inc (C : cursor_ops σ φ)
    (self : simdjson_result (object_iterator σ)) : simdjson_result (object_iterator σ) :=
  if self.error ≠ error_code.SUCCESS then self
  else { self with first := self.first.operator_inc C }

end simdjson_result

/-! ## A token-level cursor -/

/-- Modelled from the spec: the structural tokens the cursor walks over (the
tokenizer is outside `object_iterator-inl.h`).  A string token carries its raw
bytes; every other scalar (number, `true`, `false`, `null`) is one opaque token. -/
inductive token where
  | lbrace
  | rbrace
  | lbracket
  | rbracket
  | colon
  | comma
  | string (s : raw_json_string)
  | scalar (n : Nat)
  deriving DecidableEq, Repr

/-- Modelled from the spec: the shared cursor of sections 2, 3 and 6 ("a single
shared, mutable, depth-tracked position in the input stream"): the remaining
tokens, the nesting depth of the position, the depth of the object the iterator
walks (`iter_depth`) and the pending error.  The class `value_iterator` is
declared outside `object_iterator-inl.h`. -/
structure json_cursor where
  tokens : List token
  depth : Int
  iter_depth : Int
  error : error_code
  deriving DecidableEq, Repr

namespace json_cursor

/-- Modelled from the spec: the scanning part of a skip.  Every opening bracket
goes one level down, every closing bracket one level up, and the scan stops as
soon as the depth is back at `parent` ("skip forward until cursor depth ==
iterator depth", section 4.3).  The flag is `false` when the input ends first. -/
def skip_loop (parent : Int) : List token → Int → Bool × List token × Int
  | [], d => (false, [], d)
  | token.lbrace :: ts, d => skip_loop parent ts (d + 1)
  | token.lbracket :: ts, d => skip_loop parent ts (d + 1)
  | token.rbrace :: ts, d =>
    if d - 1 ≤ parent then (true, ts, d - 1) else skip_loop parent ts (d - 1)
  | token.rbracket :: ts, d =>
    if d - 1 ≤ parent then (true, ts, d - 1) else skip_loop parent ts (d - 1)
  | token.colon :: ts, d => skip_loop parent ts d
  | token.comma :: ts, d => skip_loop parent ts d
  | token.string _ :: ts, d => skip_loop parent ts d
  | token.scalar _ :: ts, d => skip_loop parent ts d

/-- Whether the cursor stands at the key of a field: a string followed by a colon. -/
def at_key : List token → Bool
  | token.string _ :: token.colon :: _ => true
  | _ => false

/-- Modelled from the spec: skipping whatever is open below `parent`
(`finish_child` and `skip_child` of section 6: "skip forward past whatever value
is currently open at a deeper level, restoring position to" the depth of the
iterator).  Nothing is done when the cursor is already at `parent`.  Otherwise the
first token tells where the cursor was left.  At the key of a field the cursor
is inside an object that a caller has opened (`start_object` and `has_next_field`
leave the depth of that object at a key), so no value is pending and the scan
goes on at this level.  At a value, the level was entered when the colon before
it was consumed (`field_value`), so the first token does not go down again: a
scalar or a closing bracket ends that level, an opening bracket keeps it. -/
def skip (parent : Int) (ts : List token) (d : Int) : Bool × List token × Int :=
  if d ≤ parent then (true, ts, d)
  else if at_key ts then skip_loop parent ts d
  else
    match ts with
    | [] => (false, [], d)
    | token.lbrace :: ts1 => skip_loop parent ts1 d
    | token.lbracket :: ts1 => skip_loop parent ts1 d
    | token.colon :: ts1 => skip_loop parent ts1 d
    | token.comma :: ts1 => skip_loop parent ts1 d
    | token.rbrace :: ts1 =>
      if d - 1 ≤ parent then (true, ts1, d - 1) else skip_loop parent ts1 (d - 1)
    | token.rbracket :: ts1 =>
      if d - 1 ≤ parent then (true, ts1, d - 1) else skip_loop parent ts1 (d - 1)
    | token.string _ :: ts1 =>
      if d - 1 ≤ parent then (true, ts1, d - 1) else skip_loop parent ts1 (d - 1)
    | token.scalar _ :: ts1 =>
      if d - 1 ≤ parent then (true, ts1, d - 1) else skip_loop parent ts1 (d - 1)

/-- Modelled from the spec: `is_open()` is "false once the cursor has been
abandoned or has structurally closed"; the terminal state is "cursor depth <
iterator depth" (section 4.3). -/
def is_open (c : json_cursor) : Bool := decide (c.iter_depth ≤ c.depth)

/-- Modelled from the spec: `abandon()` "releases the cursor from further
field-level operations; idempotent"; the source comments describe it as
decrementing the depth into the terminal state.  The pending error is kept. -/
def abandon (c : json_cursor) : json_cursor :=
  { c with depth := c.iter_depth - 1 }

/-- Modelled from the spec: a failing operation records its error on the cursor
("cursor now carries the error", section 4.2). -/
def report_error (c : json_cursor) (e : error_code) : json_cursor :=
  { c with error := e }

/-- Modelled from the spec: `finish_child()` skips "forward past whatever value is
currently open at a deeper level, restoring position to" the depth of the iterator. -/
def finish_child (c : json_cursor) : error_code × json_cursor :=
  let r := skip c.iter_depth c.tokens c.depth
  if r.1 then (error_code.SUCCESS, { c with tokens := r.2.1, depth := r.2.2 })
  else
    (error_code.TAPE_ERROR,
      report_error { c with tokens := r.2.1, depth := r.2.2 } error_code.TAPE_ERROR)

/-- Modelled from the spec: `skip_child()` "fully skips an unread value located at
the current depth". -/
def skip_child (c : json_cursor) : error_code × json_cursor :=
  let r := skip c.iter_depth c.tokens c.depth
  if r.1 then (error_code.SUCCESS, { c with tokens := r.2.1, depth := r.2.2 })
  else
    (error_code.TAPE_ERROR,
      report_error { c with tokens := r.2.1, depth := r.2.2 } error_code.TAPE_ERROR)

/-- Modelled from the spec: `has_next_field()` "consumes a separator (`,` or the
closing brace) and reports whether another field follows; a missing separator is
reported as a structural error, not a boolean false".  The closing brace moves
the cursor above the object. -/
def has_next_field (c : json_cursor) : simdjson_result Bool × json_cursor :=
  match c.tokens with
  | token.rbrace :: ts =>
    (simdjson_result.of_value false, { c with tokens := ts, depth := c.iter_depth - 1 })
  | token.comma :: ts => (simdjson_result.of_value true, { c with tokens := ts })
  | _ :: ts =>
    (simdjson_result.of_error error_code.TAPE_ERROR,
      report_error { c with tokens := ts } error_code.TAPE_ERROR)
  | [] => (simdjson_result.of_error error_code.TAPE_ERROR, report_error c error_code.TAPE_ERROR)

/-- Modelled from the spec: `field_key()` "reads and returns the next field's raw
key; fails if the key is not a JSON string" (the spec's key-type mismatch). -/
def field_key (c : json_cursor) : simdjson_result raw_json_string × json_cursor :=
  match c.tokens with
  | token.string s :: ts => (simdjson_result.of_value s, { c with tokens := ts })
  | _ :: ts =>
    (simdjson_result.of_error error_code.INCORRECT_TYPE,
      report_error { c with tokens := ts } error_code.INCORRECT_TYPE)
  | [] =>
    (simdjson_result.of_error error_code.INCORRECT_TYPE,
      report_error c error_code.INCORRECT_TYPE)

/-- Modelled from the spec: `field_value()` "positions the cursor at the value
following the key (consumes the colon); fails if the colon is missing".  The
value is one level below the object. -/
def field_value (c : json_cursor) : error_code × json_cursor :=
  match c.tokens with
  | token.colon :: ts =>
    (error_code.SUCCESS, { c with tokens := ts, depth := c.iter_depth + 1 })
  | _ :: ts =>
    (error_code.TAPE_ERROR, report_error { c with tokens := ts } error_code.TAPE_ERROR)
  | [] => (error_code.TAPE_ERROR, report_error c error_code.TAPE_ERROR)

end json_cursor

/-- Modelled from the spec: a field is "one key/value pair of a JSON object, read
lazily": the key read by `field_key`; the value is read through the shared cursor,
which `field_value` has positioned at it.  The class `field` is declared outside
`object_iterator-inl.h`. -/
structure field where
  key : raw_json_string
  deriving DecidableEq, Repr

instance : Inhabited field := ⟨⟨[]⟩⟩

/-- Modelled from the spec: `field::start` "attempt to start reading a field at
the current position; that attempt fails when the key is not a string or the
value is structurally invalid": the key is read, then the colon. -/
def json_cursor.field_start (c : json_cursor) : simdjson_result field × json_cursor :=
  let k := c.field_key
  if k.1.error ≠ error_code.SUCCESS then (simdjson_result.of_error k.1.error, k.2)
  else
    let v := k.2.field_value
    if v.1 ≠ error_code.SUCCESS then (simdjson_result.of_error v.1, v.2)
    else (simdjson_result.of_value ⟨k.1.first⟩, v.2)

/-- Modelled from the spec: opening an object.  The cursor stands at a value at
depth `iter_depth`; anything but `{` is a type error, and for an empty object the
closing brace is consumed at once, which leaves the cursor closed (the terminal
state is "closing brace consumed", section 4.3). -/
def json_cursor.start_object (c : json_cursor) : simdjson_result Bool × json_cursor :=
  match c.tokens with
  | token.lbrace :: token.rbrace :: ts =>
    (simdjson_result.of_value false, { c with tokens := ts, depth := c.iter_depth - 1 })
  | token.lbrace :: ts => (simdjson_result.of_value true, { c with tokens := ts })
  | _ :: ts => (simdjson_result.of_error error_code.INCORRECT_TYPE, { c with tokens := ts })
  | [] => (simdjson_result.of_error error_code.INCORRECT_TYPE, c)

/-- The token-level cursor as an instance of the interface the iterator consumes. -/
def json_ops : cursor_ops json_cursor field where
  error := json_cursor.error
  is_open := json_cursor.is_open
  abandon := json_cursor.abandon
  finish_child := json_cursor.finish_child
  has_next_field := json_cursor.has_next_field
  field_key := json_cursor.field_key
  field_value := json_cursor.field_value
  skip_child := json_cursor.skip_child
  field_start := json_cursor.field_start

/-! ## Well-formed objects -/

/-- A JSON value. -/
inductive json_value where
  | scalar (n : Nat)
  | string (s : raw_json_string)
  | array (elements : List json_value)
  | object (fields : List (raw_json_string × json_value))

mutual
/-- The tokens of a value. -/
def json_value.tokens : json_value → List token
  | json_value.scalar n => [token.scalar n]
  | json_value.string s => [token.string s]
  | json_value.array xs => token.lbracket :: (elements_tokens xs ++ [token.rbracket])
  | json_value.object fs => token.lbrace :: (fields_tokens fs ++ [token.rbrace])
/-- The tokens of the elements of an array, separated by commas. -/
def elements_tokens : List json_value → List token
  | [] => []
  | x :: xs => x.tokens ++ more_elements_tokens xs
/-- The tokens of the elements that follow an element: each preceded by a comma. -/
def more_elements_tokens : List json_value → List token
  | [] => []
  | x :: xs => token.comma :: (x.tokens ++ more_elements_tokens xs)
/-- The tokens of the fields of an object, separated by commas. -/
def fields_tokens : List (raw_json_string × json_value) → List token
  | [] => []
  | f :: fs => token.string f.1 :: token.colon :: (f.2.tokens ++ more_fields_tokens fs)
/-- The tokens of the fields that follow a field: each preceded by a comma. -/
def more_fields_tokens : List (raw_json_string × json_value) → List token
  | [] => []
  | f :: fs =>
    token.comma :: token.string f.1 :: token.colon :: (f.2.tokens ++ more_fields_tokens fs)
end

/-- Where the cursor stands in a well-formed object. -/
inductive position where
  /-- At the key of a field (just past the opening brace or a comma); the fields after it follow. -/
  | key (f : raw_json_string × json_value) (rest : List (raw_json_string × json_value))
  /-- At the unread value of a field whose key and colon were consumed. -/
  | value (v : json_value) (rest : List (raw_json_string × json_value))
  /-- After a completely read value, before the comma or the closing brace. -/
  | next (rest : List (raw_json_string × json_value))
  /-- The closing brace is consumed. -/
  | finished

namespace position

/-- The fields whose key the cursor has not passed yet. -/
def unscanned : position → List (raw_json_string × json_value)
  | key f rest => f :: rest
  | value _ rest => rest
  | next rest => rest
  | finished => []

/-- The cursor at a position of an object at depth `d`, followed by the tokens `outer`. -/
def cursor (d : Int) (outer : List token) : position → json_cursor
  | key f rest =>
    { tokens := fields_tokens (f :: rest) ++ token.rbrace :: outer,
      depth := d, iter_depth := d, error := error_code.SUCCESS }
  | value v rest =>
    { tokens := v.tokens ++ (more_fields_tokens rest ++ token.rbrace :: outer),
      depth := d + 1, iter_depth := d, error := error_code.SUCCESS }
  | next rest =>
    { tokens := more_fields_tokens rest ++ token.rbrace :: outer,
      depth := d, iter_depth := d, error := error_code.SUCCESS }
  | finished =>
    { tokens := outer, depth := d - 1, iter_depth := d, error := error_code.SUCCESS }

/-- The value of `at_start` in the live states of the source comments: `true` in
the start state, `false` once a value was handed out. -/
def start_flag : position → Bool
  | key _ _ => true
  | _ => false

/-- The calls `find_field_raw` issues before it reads the first key. -/
def entry_calls : position → List cursor_call
  | key _ _ => []
  | value _ _ => [cursor_call.finish_child, cursor_call.has_next_field]
  | next _ => [cursor_call.finish_child, cursor_call.has_next_field]
  | finished => []

/-- Whether the closing brace is consumed. -/
def is_finished : position → Bool
  | finished => true
  | _ => false

/-- The position from which the fields `fs` remain to be read. -/
def of_fields : List (raw_json_string × json_value) → position
  | [] => finished
  | f :: fs => key f fs

end position

/-- The cursor standing at an object with the fields `fs` at depth `d`, before its
opening brace. -/
def object_cursor (d : Int) (outer : List token) (fs : List (raw_json_string × json_value)) :
    json_cursor :=
  { tokens := (json_value.object fs).tokens ++ outer,
    depth := d, iter_depth := d, error := error_code.SUCCESS }

/-- A freshly constructed iterator over the object `fs`: the object is opened and
the iterator is constructed from the cursor. -/
def fresh (d : Int) (outer : List token) (fs : List (raw_json_string × json_value)) :
    object_iterator json_cursor :=
  object_iterator.ctor ⟨(object_cursor d outer fs).start_object.2, []⟩

/-- The caller reads the value the cursor stands at completely, through the value
handle of the field: the shared cursor ends after the value, back at the depth of
the object.  This is not a call of the iterator, so it is not logged. -/
def caller_reads_value (it : object_iterator json_cursor) : object_iterator json_cursor :=
  { it with iter := ⟨it.iter.state.skip_child.2, it.iter.calls⟩ }

/-! ## Iteration and lookup sequences -/

/-- The loop `while (it != end) { yield *it; ++it; }`: the results yielded and the
iterator the loop ends with.  The first argument bounds the number of executions
of the body; `none` means the bound was reached with the loop still running. -/
def iterate {σ φ : Type} [Inhabited φ] (C : cursor_ops σ φ) (end_it : object_iterator σ) :
    Nat → object_iterator σ → Option (List (simdjson_result φ) × object_iterator σ)
  | 0, it => if it.operator_ne C end_it then none else some ([], it)
  | fuel + 1, it =>
    if it.operator_ne C end_it then
      (iterate C end_it fuel ((it.operator_star C).2.operator_inc C)).map
        (fun r => ((it.operator_star C).1 :: r.1, r.2))
    else some ([], it)

/-- A sequence of lookups on one iterator; the flag of a lookup says whether the
caller reads the matched value completely before the next lookup.  The result
holds the error code of every lookup and the iterator after the last one. -/
def lookups (fuel : Nat) :
    List (raw_json_string × Bool) → object_iterator json_cursor →
      Option (List error_code × object_iterator json_cursor)
  | [], it => some ([], it)
  | q :: qs, it =>
    match object_iterator.find_field_raw json_ops fuel it q.1 with
    | none => none
    | some r =>
      (lookups fuel qs
        (if r.1 = error_code.SUCCESS ∧ q.2 = true then caller_reads_value r.2 else r.2)).map
        (fun t => (r.1 :: t.1, t.2))

/-- The first field with the key `k`: its value and the fields after it. -/
def lookup_from (k : raw_json_string) :
    List (raw_json_string × json_value) →
      Option (json_value × List (raw_json_string × json_value))
  | [] => none
  | f :: fs => if f.1 = k then some (f.2, fs) else lookup_from k fs

/-- The fields left unscanned by a lookup of `k`: those after the first field with
the key `k`, none when there is no such field. -/
def drop_through (k : raw_json_string) (fs : List (raw_json_string × json_value)) :
    List (raw_json_string × json_value) :=
  match lookup_from k fs with
  | some r => r.2
  | none => []

/-- The error code of a lookup of `k` over the unscanned fields `fs`. -/
def lookup_code (k : raw_json_string) (fs : List (raw_json_string × json_value)) : error_code :=
  match lookup_from k fs with
  | some _ => error_code.SUCCESS
  | none => error_code.NO_SUCH_FIELD

/-- The position a lookup of `k` over the unscanned fields `fs` ends at: the unread
value of the first match, or finished. -/
def position_after_lookup (k : raw_json_string) (fs : List (raw_json_string × json_value)) :
    position :=
  match lookup_from k fs with
  | some r => position.value r.1 r.2
  | none => position.finished

/-- The fields left unscanned by a sequence of lookups. -/
def unscanned_after :
    List (raw_json_string × json_value) → List raw_json_string →
      List (raw_json_string × json_value)
  | fs, [] => fs
  | fs, k :: ks => unscanned_after (drop_through k fs) ks

/-- The cursor calls of a scan for `k` over the fields `fs`, from the key of the
first of them. -/
def scan_calls (k : raw_json_string) : List (raw_json_string × json_value) → List cursor_call
  | [] => []
  | f :: fs =>
    if f.1 = k then [cursor_call.field_key, cursor_call.field_value]
    else
      [cursor_call.field_key, cursor_call.field_value, cursor_call.skip_child,
        cursor_call.has_next_field] ++ scan_calls k fs

/-- The outcome of a scan for `k` over the fields `fs` of an object at depth `d`,
after the calls `log`: at the value of the first match, or finished. -/
def scan_result (d : Int) (outer : List token) (k : raw_json_string) (log : List cursor_call)
    (fs : List (raw_json_string × json_value)) : error_code × object_iterator json_cursor :=
  match lookup_from k fs with
  | some r =>
    (error_code.SUCCESS,
      ⟨⟨(position.value r.1 r.2).cursor d outer, log ++ scan_calls k fs⟩, false⟩)
  | none =>
    (error_code.NO_SUCH_FIELD,
      ⟨⟨position.finished.cursor d outer, log ++ scan_calls k fs⟩, false⟩)

/-- The cursor calls of the loop `while (it != end) { *it; ++it; }` over `fs`. -/
def iterate_calls : List (raw_json_string × json_value) → List cursor_call
  | [] => []
  | _ :: fs =>
    [cursor_call.field_start, cursor_call.finish_child, cursor_call.has_next_field] ++
      iterate_calls fs

/-- The iterator stands at the position `p` of an object at depth `d`: the cursor
is the one of `p`, with no pending error, and `at_start` is as in the live states
of the source comments (any value once the cursor is closed). -/
def at_position (d : Int) (outer : List token) (it : object_iterator json_cursor)
    (p : position) : Prop :=
  it.iter.state = p.cursor d outer ∧ (it.at_start = p.start_flag ∨ p = position.finished)

/-- The change of the nesting level that a token brings: one level down at an
opening bracket, one level up at a closing bracket. -/
def token.delta : token → Int
  | token.lbrace => 1
  | token.lbracket => 1
  | token.rbrace => -1
  | token.rbracket => -1
  | _ => 0

/-- The number of brackets opened and not closed in a list of tokens. -/
def nesting : List token → Int
  | [] => 0
  | t :: ts => t.delta + nesting ts

/-- Whether an unread value is ahead (1).  Nothing is pending (0) at the key of a
field, at a colon, at a separator, at a closing bracket and at the end. -/
def pending (ts : List token) : Int :=
  if json_cursor.at_key ts then 0
  else
    match ts with
    | token.scalar _ :: _ => 1
    | token.string _ :: _ => 1
    | token.lbrace :: _ => 1
    | token.lbracket :: _ => 1
    | _ => 0

/-- Modelled from the spec: a handle on the shared cursor that works at the depth
`D` ("exactly one cursor instance backs all iterators/values derived from one
object; it is never copied, only referenced", section 2).  The iterator of an
object and the handle of a nested value see the same tokens, depth and error and
differ in the depth they work at. -/
def json_cursor.handle (D : Int) (c : json_cursor) : json_cursor :=
  { c with iter_depth := D }

/-- Modelled from the spec: the shared cursor while a caller reads a value that was
handed out for an object at depth `d`, through the value handle: the tokens `pre`
of the value are read, the tokens `suf` of the value and the tokens `tail` after
it are ahead.  The depth is the one the cursor operations leave: the depth of the
object, plus one level for every bracket of the value that is open, plus one level
while an unread value is ahead (`field_value` goes one level down; `start_object`
and `has_next_field` leave the depth of the opened object at a key; the lemmas
`start_object_reading`, `start_empty_object_reading`, `field_key_reading`,
`field_value_reading`, `skip_child_reading`, `has_next_field_reading` and
`closing_brace_reading` show that these operations, applied through a handle,
lead from one cursor of this family to the next).  With `pre` empty this is the
cursor `field_value` leaves (`reading_cursor_at_value`), with `suf` empty the
cursor after a completely read value (`reading_cursor_at_next`). -/
def reading_cursor (d : Int) (pre suf tail : List token) : json_cursor :=
  { tokens := suf ++ tail, depth := d + nesting pre + pending suf, iter_depth := d,
    error := error_code.SUCCESS }

/-- The iterator is in a live state over a well-formed object at depth `d` whose
fields `fs` are not scanned yet.  Either it stands at the key of the first of them
with `at_start` set (the start state, also kept by the loop `*it; ++it`), or
`at_start` is false and the cursor is at, in or after a value `v` that was handed
out: the caller has read the tokens `pre` of `v` (none, any part or all of them),
and the separator before `fs` follows the value. -/
def live_over (d : Int) (outer : List token) (it : object_iterator json_cursor)
    (fs : List (raw_json_string × json_value)) : Prop :=
  (it.at_start = true ∧
    ∃ f rest, fs = f :: rest ∧ it.iter.state = (position.key f rest).cursor d outer) ∨
  (it.at_start = false ∧
    ∃ (v : json_value) (pre suf : List token), v.tokens = pre ++ suf ∧
      it.iter.state = reading_cursor d pre suf (more_fields_tokens fs ++ token.rbrace :: outer))

/-! ## The cursor contract -/

/-- Modelled from the spec: the part of the interface contract of the cursor (section 6
and section 4.2) that the error path of the iterator relies on.  `abandon` closes
the cursor and keeps its pending error; a failing `finish_child` or
`has_next_field` records its error on the cursor ("cursor now carries the
error"); neither closes an open cursor when it fails, and a successful
`finish_child` leaves an open cursor open. -/
structure cursor_contract {σ φ : Type} (C : cursor_ops σ φ) : Prop where
  abandon_closes : ∀ s, C.is_open (C.abandon s) = false
  abandon_keeps_error : ∀ s, C.error (C.abandon s) = C.error s
  finish_child_records : ∀ s, (C.finish_child s).1 ≠ error_code.SUCCESS →
    C.error (C.finish_child s).2 = (C.finish_child s).1
  has_next_field_records : ∀ s, (C.has_next_field s).1.error ≠ error_code.SUCCESS →
    C.error (C.has_next_field s).2 = (C.has_next_field s).1.error
  finish_child_open : ∀ s, C.is_open s = true → C.is_open (C.finish_child s).2 = true
  has_next_field_open : ∀ s, C.is_open s = true →
    (C.has_next_field s).1.error ≠ error_code.SUCCESS → C.is_open (C.has_next_field s).2 = true

/-! ## Sample inputs -/

/-- The bytes of the key `"a"`. -/
def key_a : raw_json_string := [97]

/-- The bytes of the key `"b"`. -/
def key_b : raw_json_string := [98]

/-- The bytes of the key `"c"`. -/
def key_c : raw_json_string := [99]

/-- The fields of `{"a":1,"b":2}`. -/
def fields_ab : List (raw_json_string × json_value) :=
  [(key_a, json_value.scalar 1), (key_b, json_value.scalar 2)]

/-- The fields of `{"a":1,"b":2,"a":3}`. -/
def fields_aba : List (raw_json_string × json_value) :=
  [(key_a, json_value.scalar 1), (key_b, json_value.scalar 2), (key_a, json_value.scalar 3)]

/-- The fields of `{"a":[1,{"c":2}],"b":2}`. -/
def fields_nested : List (raw_json_string × json_value) :=
  [(key_a, json_value.array [json_value.scalar 1,
      json_value.object [(key_c, json_value.scalar 2)]]),
    (key_b, json_value.scalar 2)]

/-- The iterator over `{"a":1,"b":2}` after `find_field_raw("a")` on a freshly
constructed iterator: at the unread value `1`. -/
def iterator_after_find_a : object_iterator json_cursor :=
  ⟨⟨(position.value (json_value.scalar 1) [(key_b, json_value.scalar 2)]).cursor 1 [],
    [cursor_call.field_key, cursor_call.field_value]⟩, false⟩

/-- The iterator over `{"a":1,"b":2,"a":3}` after `find_field_raw("b")` on a freshly
constructed iterator: at the unread value `2`. -/
def iterator_after_find_b : object_iterator json_cursor :=
  ⟨⟨(position.value (json_value.scalar 2) [(key_a, json_value.scalar 3)]).cursor 1 [],
    [cursor_call.field_key, cursor_call.field_value, cursor_call.skip_child,
      cursor_call.has_next_field, cursor_call.field_key, cursor_call.field_value]⟩, false⟩

/-- The bytes of the key `"e"`. -/
def key_e : raw_json_string := [101]

/-- The object `{"c":2,"e":3}`. -/
def nested_object : json_value :=
  json_value.object [(key_c, json_value.scalar 2), (key_e, json_value.scalar 3)]

/-- The shared cursor over `{"a":{"c":2,"e":3},"b":2}` when the value of `"a"` was
handed out and the caller has opened it with `start_object`, through a handle at
the depth of the value: the cursor is at the key `"c"`, at the depth of the
nested object. -/
def cursor_at_nested_key : json_cursor :=
  (json_cursor.start_object
    (((position.value nested_object [(key_b, json_value.scalar 2)]).cursor 1 []).handle
      2)).2.handle 1

/-- The shared cursor over `{"a":{"c":2,"e":3},"b":2}` when the caller has opened the
value of `"a"`, read its field `"c"` with `field_key`, `field_value` and
`skip_child`, and consumed the comma with `has_next_field`: the cursor is at the
key `"e"`. -/
def cursor_at_second_nested_key : json_cursor :=
  (json_cursor.has_next_field
    (json_cursor.skip_child
      (json_cursor.field_value
        (json_cursor.field_key (cursor_at_nested_key.handle 2)).2).2).2).2.handle 1

/-- The iterator over `{"a":{"c":2,"e":3},"b":2}` after `find_field_raw("a")` when the
caller has opened the nested object: at its key `"c"`. -/
def iterator_at_nested_key : object_iterator json_cursor :=
  ⟨⟨cursor_at_nested_key, [cursor_call.field_key, cursor_call.field_value]⟩, false⟩

/-- The iterator over `{"a":{"c":2,"e":3},"b":2}` after `find_field_raw("a")` when the
caller has read the first field of the nested object: at its key `"e"`. -/
def iterator_at_second_nested_key : object_iterator json_cursor :=
  ⟨⟨cursor_at_second_nested_key, [cursor_call.field_key, cursor_call.field_value]⟩, false⟩

/-- An iterator constructed over the tokens `ts` that follow an opening brace,
for an object at depth 1. -/
def iterator_over (ts : List token) : object_iterator json_cursor :=
  object_iterator.ctor
    ⟨{ tokens := ts, depth := 1, iter_depth := 1, error := error_code.SUCCESS }, []⟩

/-- The tokens of `{"a":1 "b":2}` after the opening brace: the comma is missing. -/
def tokens_missing_comma : List token :=
  [token.string key_a, token.colon, token.scalar 1,
    token.string key_b, token.colon, token.scalar 2, token.rbrace]

/-- The tokens of the truncated document `{"a":[1` after the opening brace. -/
def tokens_unclosed_array : List token :=
  [token.string key_a, token.colon, token.lbracket, token.scalar 1]

/-- The iterator over `{"a":1 "b":2}` after `*it; ++it; *it`: the missing comma was
found by `++it` and yielded, and the cursor abandoned, by the second `*it`. -/
def iterator_after_missing_comma : object_iterator json_cursor :=
  (object_iterator.operator_star json_ops
    (object_iterator.operator_inc json_ops
      (object_iterator.operator_star json_ops (iterator_over tokens_missing_comma)).2)).2

/-- A `simdjson_result<object_iterator>` constructed from the error code `e`:
`({}, e)`, where the default iterator has an empty cursor. -/
def chained_error (e : error_code) : simdjson_result (object_iterator json_cursor) :=
  ⟨⟨⟨{ tokens := [], depth := 0, iter_depth := 0, error := error_code.SUCCESS }, []⟩, false⟩, e⟩

/-- A sequence of dereferences (`true`) and increments (`false`) applied to an
iterator, as the loop `*it; ++it` issues them. -/
def loop_steps {σ φ : Type} [Inhabited φ] (C : cursor_ops σ φ) :
    List Bool → object_iterator σ → object_iterator σ
  | [], it => it
  | true :: ops, it => loop_steps C ops (it.operator_star C).2
  | false :: ops, it => loop_steps C ops (it.operator_inc C)

/-- The cursor just past the opening brace of an object at depth `d` whose first
field `k1 : v1` is followed, with no comma in between, by a second key `k2`; the
tokens `rest` follow that key. -/
def missing_comma_cursor (d : Int) (k1 : raw_json_string) (v1 : json_value)
    (k2 : raw_json_string) (rest : List token) : json_cursor :=
  { tokens := token.string k1 :: token.colon :: (v1.tokens ++ token.string k2 :: rest),
    depth := d, iter_depth := d, error := error_code.SUCCESS }

/-- The cursor after `has_next_field` has found the key `k2` where a separator was
expected: the token is consumed and TAPE_ERROR is pending. -/
def missing_comma_pending (d : Int) (rest : List token) : json_cursor :=
  { tokens := rest, depth := d, iter_depth := d, error := error_code.TAPE_ERROR }

/-- The calls of a lookup for `m` fields whose key does not match: `field_key`,
`field_value`, `skip_child`, `has_next_field` for each of them. -/
def skipped_fields_calls : Nat → List cursor_call
  | 0 => []
  | m + 1 =>
    [cursor_call.field_key, cursor_call.field_value, cursor_call.skip_child,
      cursor_call.has_next_field] ++ skipped_fields_calls m

/-- The call sequence of a lookup as the specification describes it: nothing before
the first key if `at_start` is true, otherwise `finish_child` then
`has_next_field`; then the calls for `m` fields whose key does not match; then
`field_key` and `field_value` for the matching field, if there is one. -/
def lookup_calls (at_start : Bool) (m : Nat) (matched : Bool) : List cursor_call :=
  (if at_start then [] else [cursor_call.finish_child, cursor_call.has_next_field]) ++
    skipped_fields_calls m ++
    (if matched then [cursor_call.field_key, cursor_call.field_value] else [])

/-- Modelled from the spec: NO_SUCH_FIELD is the negative result of the lookup
itself ("not a structural error, a negative result", section 7): no operation of
the cursor reports it. -/
def cursor_never_reports_no_such_field {σ φ : Type} (C : cursor_ops σ φ) : Prop :=
  ∀ s, (C.finish_child s).1 ≠ error_code.NO_SUCH_FIELD ∧
    (C.has_next_field s).1.error ≠ error_code.NO_SUCH_FIELD ∧
    (C.field_key s).1.error ≠ error_code.NO_SUCH_FIELD ∧
    (C.field_value s).1 ≠ error_code.NO_SUCH_FIELD ∧
    (C.skip_child s).1 ≠ error_code.NO_SUCH_FIELD

/-- The number of colon tokens in an input. -/
def colons : List token → Nat
  | [] => 0
  | token.colon :: ts => colons ts + 1
  | _ :: ts => colons ts

/-- The tokens of `{"a":1,}` after the opening brace: one field and a trailing comma. -/
def tokens_trailing_comma : List token :=
  [token.string key_a, token.colon, token.scalar 1, token.comma, token.rbrace]

/-- The nesting level, starting from `D`, stays above `p` at every token of the list. -/
def stays_above (p : Int) : List token → Int → Prop
  | [], _ => True
  | t :: ts, D => p < D + t.delta ∧ stays_above p ts (D + t.delta)

/-- The cursor after the lookup has passed a field whose key does not match: after
`field_key`, `field_value`, `skip_child` and `has_next_field`, in that order. -/
def pass_field {σ φ : Type} (C : cursor_ops σ φ) (s : σ) : σ :=
  (C.has_next_field (C.skip_child (C.field_value (C.field_key s).2).2).2).2

/-- The cursor after the lookup has passed `i` fields from the state `s`. -/
def pass_fields {σ φ : Type} (C : cursor_ops σ φ) : Nat → σ → σ
  | 0, s => s
  | i + 1, s => pass_fields C i (pass_field C s)

/-- The key that `field_key` reads after `i` fields were passed from the state `s`:
the key of the field number `i` that the lookup reaches. -/
def scanned_key {σ φ : Type} (C : cursor_ops σ φ) (s : σ) (i : Nat) : raw_json_string :=
  (C.field_key (pass_fields C i s)).1.first

/-- The cursor at which a lookup reads its first key: the cursor of the iterator if
`at_start` is true, otherwise the cursor after `finish_child` and `has_next_field`. -/
def object_iterator.scan_start {σ φ : Type} (C : cursor_ops σ φ) (self : object_iterator σ) :
    σ :=
  if self.at_start then self.iter.state
  else (C.has_next_field (C.finish_child self.iter.state).2).2

/-- Whether the tokens `ts`, read inside a bracket from the nesting level `L`, end
with the bracket that closes this bracket: the level stays above 0 before the
last token, which is a closing bracket at level 1. -/
def closes : List token → Int → Bool
  | [], _ => false
  | t :: ts, L =>
    if ts.isEmpty then decide (L = 1 ∧ t.delta = -1)
    else decide (0 < L + t.delta) && closes ts (L + t.delta)

/-- Whether the tokens are one value as a skip sees it: a scalar, a string, or an
opening bracket with the bracket that closes it as the last token.  What stands
between the brackets is not looked at: every well-formed value is balanced
(`balanced_value`), and so is a value with a defect between its brackets. -/
def balanced : List token → Bool
  | [token.scalar _] => true
  | [token.string _] => true
  | token.lbrace :: ts => closes ts 1
  | token.lbracket :: ts => closes ts 1
  | _ => false

/-- Whether the nesting level, starting from `L`, stays above 0 at every token. -/
def stays_open : List token → Int → Bool
  | [], _ => true
  | t :: ts, L => decide (0 < L + t.delta) && stays_open ts (L + t.delta)

/-- Whether the tokens are a value that the end of the input cuts off: nothing at
all, or an opening bracket followed by tokens that do not close it. -/
def cut_off : List token → Bool
  | [] => true
  | token.lbrace :: ts => stays_open ts 1
  | token.lbracket :: ts => stays_open ts 1
  | _ => false

/-- The tokens of the fields that follow a field, each preceded by a comma; a field
is given by its key and the tokens of its value. -/
def more_raw_fields_tokens : List (raw_json_string × List token) → List token
  | [] => []
  | f :: fs =>
    token.comma :: token.string f.1 :: token.colon :: (f.2 ++ more_raw_fields_tokens fs)

/-- The tokens of fields that are given by their keys and the tokens of their
values, separated by commas. -/
def raw_fields_tokens : List (raw_json_string × List token) → List token
  | [] => []
  | f :: fs => token.string f.1 :: token.colon :: (f.2 ++ more_raw_fields_tokens fs)

/-- The key and the tokens of the value of every field of a well-formed object. -/
def raw_fields (fs : List (raw_json_string × json_value)) :
    List (raw_json_string × List token) :=
  fs.map (fun f => (f.1, f.2.tokens))

/-- Whether the tokens `rest`, which follow the fields `fs` of an object, do not go
on with a further field.  After a field, a comma followed by a key and a colon
would start one, and a colon is no separator at all; when there is no field yet,
a key and a colon would start the first one. -/
def ends_fields : List (raw_json_string × List token) → List token → Bool
  | [], rest => !json_cursor.at_key rest
  | _ :: _, token.colon :: _ => false
  | _ :: _, token.comma :: rest => !json_cursor.at_key rest
  | _ :: _, _ => true

/-- The number of executions of the loop body that yield an error after the fields:
none when the closing brace follows them, one otherwise. -/
def error_steps : List token → Nat
  | token.rbrace :: _ => 0
  | _ => 1

/-- The number of iterations that the scan loop of a lookup starts after the
fields: one when a comma follows them, and one when there is no field and no
closing brace either. -/
def extra_iterations : List (raw_json_string × List token) → List token → Nat
  | [], token.rbrace :: _ => 0
  | [], _ => 1
  | _ :: _, token.comma :: _ => 1
  | _ :: _, _ => 0

/-- The cursor standing at an object at depth `d` that starts with the fields `fs`,
separated by commas; the tokens `rest` follow them.  With balanced values and a
closing brace first in `rest` the iterator finds the object complete; otherwise
`rest` holds a defect. -/
def fields_cursor (d : Int) (fs : List (raw_json_string × List token)) (rest : List token) :
    json_cursor :=
  { tokens := token.lbrace :: (raw_fields_tokens fs ++ rest), depth := d, iter_depth := d,
    error := error_code.SUCCESS }

/-- A freshly constructed iterator over the object of `fields_cursor`. -/
def fresh_then (d : Int) (fs : List (raw_json_string × List token)) (rest : List token) :
    object_iterator json_cursor :=
  object_iterator.ctor ⟨(fields_cursor d fs rest).start_object.2, []⟩

/-- The tokens after the opening brace of the object `{"a":}` inside the document
`{"o":{"a":},"b":1,"c":2}`: one field, whose value is missing; the rest of the
enclosing object follows. -/
def tokens_missing_value : List token :=
  [token.string key_a, token.colon, token.rbrace, token.comma, token.string key_b,
    token.colon, token.scalar 1, token.comma, token.string key_c, token.colon, token.scalar 2,
    token.rbrace]

/-- The object `{"x":1,"y":2,"z":3}`. -/
def object_xyz : json_value :=
  json_value.object
    [([120], json_value.scalar 1), ([121], json_value.scalar 2), ([122], json_value.scalar 3)]

/-! ## Skipping a well-formed value -/

mutual
theorem skip_loop_value (p : Int) :
    ∀ (v : json_value) (rest : List token) (d : Int), p < d →
      json_cursor.skip_loop p (v.tokens ++ rest) d = json_cursor.skip_loop p rest d
  | .scalar n, rest, d, _ => by simp [json_value.tokens, json_cursor.skip_loop]
  | .string s, rest, d, _ => by simp [json_value.tokens, json_cursor.skip_loop]
  | .array xs, rest, d, h => by
    have h1 : p < d + 1 := by omega
    have h2 : ¬ (d ≤ p) := by omega
    simp only [json_value.tokens, List.cons_append, List.append_assoc]
    simp only [json_cursor.skip_loop]
    rw [skip_loop_elements p xs _ (d + 1) h1]
    simp [json_cursor.skip_loop, h2]
  | .object fs, rest, d, h => by
    have h1 : p < d + 1 := by omega
    have h2 : ¬ (d ≤ p) := by omega
    simp only [json_value.tokens, List.cons_append, List.append_assoc]
    simp only [json_cursor.skip_loop]
    rw [skip_loop_fields p fs _ (d + 1) h1]
    simp [json_cursor.skip_loop, h2]
theorem skip_loop_elements (p : Int) :
    ∀ (xs : List json_value) (rest : List token) (d : Int), p < d →
      json_cursor.skip_loop p (elements_tokens xs ++ rest) d = json_cursor.skip_loop p rest d
  | [], rest, d, _ => by simp [elements_tokens]
  | x :: xs, rest, d, h => by
    simp only [elements_tokens, List.append_assoc]
    rw [skip_loop_value p x _ d h, skip_loop_more_elements p xs rest d h]
theorem skip_loop_more_elements (p : Int) :
    ∀ (xs : List json_value) (rest : List token) (d : Int), p < d →
      json_cursor.skip_loop p (more_elements_tokens xs ++ rest) d = json_cursor.skip_loop p rest d
  | [], rest, d, _ => by simp [more_elements_tokens]
  | x :: xs, rest, d, h => by
    simp only [more_elements_tokens, List.cons_append, List.append_assoc]
    simp only [json_cursor.skip_loop]
    rw [skip_loop_value p x _ d h, skip_loop_more_elements p xs rest d h]
theorem skip_loop_fields (p : Int) :
    ∀ (fs : List (raw_json_string × json_value)) (rest : List token) (d : Int), p < d →
      json_cursor.skip_loop p (fields_tokens fs ++ rest) d = json_cursor.skip_loop p rest d
  | [], rest, d, _ => by simp [fields_tokens]
  | f :: fs, rest, d, h => by
    simp only [fields_tokens, List.cons_append, List.append_assoc]
    simp only [json_cursor.skip_loop]
    rw [skip_loop_value p f.2 _ d h, skip_loop_more_fields p fs rest d h]
theorem skip_loop_more_fields (p : Int) :
    ∀ (fs : List (raw_json_string × json_value)) (rest : List token) (d : Int), p < d →
      json_cursor.skip_loop p (more_fields_tokens fs ++ rest) d = json_cursor.skip_loop p rest d
  | [], rest, d, _ => by simp [more_fields_tokens]
  | f :: fs, rest, d, h => by
    simp only [more_fields_tokens, List.cons_append, List.append_assoc]
    simp only [json_cursor.skip_loop]
    rw [skip_loop_value p f.2 _ d h, skip_loop_more_fields p fs rest d h]
end

theorem at_key_value (v : json_value) (rest : List token)
    (h : ∀ s, v = json_value.string s → json_cursor.at_key (token.string s :: rest) = false) :
    json_cursor.at_key (v.tokens ++ rest) = false := by
  cases v with
  | scalar n => simp [json_value.tokens, json_cursor.at_key]
  | string s => simpa [json_value.tokens] using h s rfl
  | array xs => simp [json_value.tokens, json_cursor.at_key]
  | object fs => simp [json_value.tokens, json_cursor.at_key]

theorem at_key_value_in_object (v : json_value) (rest : List (raw_json_string × json_value))
    (outer : List token) :
    json_cursor.at_key (v.tokens ++ (more_fields_tokens rest ++ token.rbrace :: outer)) = false := by
  apply at_key_value
  intro s _
  cases rest <;> simp [more_fields_tokens, json_cursor.at_key]

theorem skip_value (p : Int) (v : json_value) (rest : List token)
    (hk : json_cursor.at_key (v.tokens ++ rest) = false) :
    json_cursor.skip p (v.tokens ++ rest) (p + 1) = (true, rest, p) := by
  have h0 : ¬ (p + 1 ≤ p) := by omega
  have h1 : p < p + 1 := by omega
  unfold json_cursor.skip
  rw [if_neg h0, hk]
  cases v with
  | scalar n => simp [json_value.tokens]
  | string s => simp [json_value.tokens]
  | array xs =>
    simp only [json_value.tokens, List.cons_append, List.append_assoc]
    rw [skip_loop_elements p xs _ (p + 1) h1]
    simp [json_cursor.skip_loop]
  | object fs =>
    simp only [json_value.tokens, List.cons_append, List.append_assoc]
    rw [skip_loop_fields p fs _ (p + 1) h1]
    simp [json_cursor.skip_loop]

/-! ### The cursor operations at the positions of a well-formed object -/

theorem field_key_at_key (d : Int) (outer : List token) (f : raw_json_string × json_value)
    (rest : List (raw_json_string × json_value)) :
    json_cursor.field_key ((position.key f rest).cursor d outer) =
      (simdjson_result.of_value f.1,
        { tokens := token.colon ::
            (f.2.tokens ++ (more_fields_tokens rest ++ token.rbrace :: outer)),
          depth := d, iter_depth := d, error := error_code.SUCCESS }) := by
  simp [position.cursor, fields_tokens, json_cursor.field_key]

theorem field_value_after_key (d : Int) (outer : List token) (v : json_value)
    (rest : List (raw_json_string × json_value)) :
    json_cursor.field_value
        { tokens := token.colon :: (v.tokens ++ (more_fields_tokens rest ++ token.rbrace :: outer)),
          depth := d, iter_depth := d, error := error_code.SUCCESS } =
      (error_code.SUCCESS, (position.value v rest).cursor d outer) := by
  simp [position.cursor, json_cursor.field_value]

theorem field_start_at_key (d : Int) (outer : List token) (f : raw_json_string × json_value)
    (rest : List (raw_json_string × json_value)) :
    json_cursor.field_start ((position.key f rest).cursor d outer) =
      (simdjson_result.of_value ⟨f.1⟩, (position.value f.2 rest).cursor d outer) := by
  simp [json_cursor.field_start, field_key_at_key, field_value_after_key,
    simdjson_result.of_value, simdjson_result.error]

theorem skip_child_at_value (d : Int) (outer : List token) (v : json_value)
    (rest : List (raw_json_string × json_value)) :
    json_cursor.skip_child ((position.value v rest).cursor d outer) =
      (error_code.SUCCESS, (position.next rest).cursor d outer) := by
  simp [position.cursor, json_cursor.skip_child,
    skip_value d v _ (at_key_value_in_object v rest outer)]

theorem finish_child_at_value (d : Int) (outer : List token) (v : json_value)
    (rest : List (raw_json_string × json_value)) :
    json_cursor.finish_child ((position.value v rest).cursor d outer) =
      (error_code.SUCCESS, (position.next rest).cursor d outer) := by
  simp [position.cursor, json_cursor.finish_child,
    skip_value d v _ (at_key_value_in_object v rest outer)]

theorem finish_child_at_next (d : Int) (outer : List token)
    (rest : List (raw_json_string × json_value)) :
    json_cursor.finish_child ((position.next rest).cursor d outer) =
      (error_code.SUCCESS, (position.next rest).cursor d outer) := by
  simp [position.cursor, json_cursor.finish_child, json_cursor.skip]

theorem has_next_field_at_next (d : Int) (outer : List token)
    (rest : List (raw_json_string × json_value)) :
    json_cursor.has_next_field ((position.next rest).cursor d outer) =
      (simdjson_result.of_value (!rest.isEmpty), (position.of_fields rest).cursor d outer) := by
  cases rest with
  | nil => simp [position.cursor, position.of_fields, more_fields_tokens, json_cursor.has_next_field]
  | cons f fs =>
    simp [position.cursor, position.of_fields, more_fields_tokens, fields_tokens,
      json_cursor.has_next_field]

theorem is_open_cursor (d : Int) (outer : List token) (p : position) :
    json_cursor.is_open (p.cursor d outer) = !p.is_finished := by
  cases p <;> simp [position.cursor, json_cursor.is_open, position.is_finished]

theorem fresh_eq (d : Int) (outer : List token) (fs : List (raw_json_string × json_value)) :
    fresh d outer fs = ⟨⟨(position.of_fields fs).cursor d outer, []⟩, true⟩ := by
  cases fs with
  | nil =>
    simp [fresh, object_cursor, object_iterator.ctor, json_cursor.start_object,
      json_value.tokens, fields_tokens, position.of_fields, position.cursor]
  | cons f fs =>
    simp [fresh, object_cursor, object_iterator.ctor, json_cursor.start_object,
      json_value.tokens, fields_tokens, position.of_fields, position.cursor]

theorem of_fields_cons (f : raw_json_string × json_value)
    (fs : List (raw_json_string × json_value)) :
    position.of_fields (f :: fs) = position.key f fs := rfl

theorem of_fields_nil : position.of_fields [] = position.finished := rfl

/-! ### The scan loop over a well-formed object -/

theorem find_field_raw_loop_fields (d : Int) (outer : List token) (k : raw_json_string) :
    ∀ (fs : List (raw_json_string × json_value)) (fuel : Nat) (log : List cursor_call),
      fs.length ≤ fuel →
      object_iterator.find_field_raw_loop json_ops k fuel (!fs.isEmpty)
          ⟨⟨(position.of_fields fs).cursor d outer, log⟩, false⟩ =
        some (scan_result d outer k log fs)
  | [], fuel, log, _ => by
    cases fuel <;>
      simp [object_iterator.find_field_raw_loop, scan_result, lookup_from, scan_calls,
        of_fields_nil]
  | f :: fs, 0, log, h => by simp at h
  | f :: fs, fuel + 1, log, h => by
    have hlen : fs.length ≤ fuel := by simpa using h
    have ih := find_field_raw_loop_fields d outer k fs fuel
      (log ++ [cursor_call.field_key, cursor_call.field_value, cursor_call.skip_child,
        cursor_call.has_next_field]) hlen
    by_cases hk : f.1 = k
    · simp [object_iterator.find_field_raw_loop, of_fields_cons, value_iterator.field_key,
        value_iterator.field_value, json_ops, field_key_at_key, field_value_after_key,
        simdjson_result.of_value, simdjson_result.error, scan_result, lookup_from, scan_calls, hk]
    · simp [object_iterator.find_field_raw_loop, of_fields_cons, value_iterator.field_key,
        value_iterator.field_value, value_iterator.skip_child, value_iterator.has_next_field,
        json_ops, field_key_at_key, field_value_after_key, skip_child_at_value,
        has_next_field_at_next,
        simdjson_result.of_value, simdjson_result.error, scan_result, lookup_from, scan_calls, hk]
      simpa [json_ops, scan_result] using ih

theorem find_field_raw_at_position (d : Int) (outer : List token) (k : raw_json_string)
    (p : position) (fuel : Nat) (log : List cursor_call) (h : p.unscanned.length ≤ fuel) :
    object_iterator.find_field_raw json_ops fuel ⟨⟨p.cursor d outer, log⟩, p.start_flag⟩ k =
      some (scan_result d outer k (log ++ p.entry_calls) p.unscanned) := by
  cases p with
  | key f rest =>
    have hl := find_field_raw_loop_fields d outer k (f :: rest) fuel log h
    have ho : json_cursor.is_open ((position.key f rest).cursor d outer) = true := by
      simp [is_open_cursor, position.is_finished]
    simp only [of_fields_cons, List.isEmpty_cons, Bool.not_false] at hl
    simp [object_iterator.find_field_raw, value_iterator.is_open, json_ops, ho,
      position.start_flag, position.entry_calls, position.unscanned]
    simpa [json_ops] using hl
  | value v rest =>
    have hl := find_field_raw_loop_fields d outer k rest fuel
      (log ++ [cursor_call.finish_child, cursor_call.has_next_field]) h
    have ho : json_cursor.is_open ((position.value v rest).cursor d outer) = true := by
      simp [is_open_cursor, position.is_finished]
    simp [object_iterator.find_field_raw, value_iterator.is_open, json_ops, ho,
      position.start_flag, position.entry_calls, position.unscanned,
      value_iterator.finish_child, value_iterator.has_next_field, finish_child_at_value,
      has_next_field_at_next, simdjson_result.of_value, simdjson_result.error]
    simpa [json_ops] using hl
  | next rest =>
    have hl := find_field_raw_loop_fields d outer k rest fuel
      (log ++ [cursor_call.finish_child, cursor_call.has_next_field]) h
    have ho : json_cursor.is_open ((position.next rest).cursor d outer) = true := by
      simp [is_open_cursor, position.is_finished]
    simp [object_iterator.find_field_raw, value_iterator.is_open, json_ops, ho,
      position.start_flag, position.entry_calls, position.unscanned,
      value_iterator.finish_child, value_iterator.has_next_field, finish_child_at_next,
      has_next_field_at_next, simdjson_result.of_value, simdjson_result.error]
    simpa [json_ops] using hl
  | finished =>
    have ho : json_cursor.is_open (position.finished.cursor d outer) = false := by
      simp [is_open_cursor, position.is_finished]
    simp [object_iterator.find_field_raw, value_iterator.is_open, json_ops, ho,
      position.start_flag, position.entry_calls, position.unscanned, scan_result, lookup_from,
      scan_calls]

theorem find_field_raw_finished (d : Int) (outer : List token) (k : raw_json_string)
    (fuel : Nat) (log : List cursor_call) (b : Bool) :
    object_iterator.find_field_raw json_ops fuel ⟨⟨position.finished.cursor d outer, log⟩, b⟩ k =
      some (error_code.NO_SUCH_FIELD, ⟨⟨position.finished.cursor d outer, log⟩, b⟩) := by
  have ho : json_cursor.is_open (position.finished.cursor d outer) = false := by
    simp [is_open_cursor, position.is_finished]
  simp [object_iterator.find_field_raw, value_iterator.is_open, json_ops, ho]

/-! ### The iteration loop over a well-formed object -/

theorem iterate_fields (d : Int) (outer : List token) (end_it : object_iterator json_cursor) :
    ∀ (fs : List (raw_json_string × json_value)) (fuel : Nat) (log : List cursor_call),
      fs.length ≤ fuel →
      iterate json_ops end_it fuel ⟨⟨(position.of_fields fs).cursor d outer, log⟩, true⟩ =
        some (fs.map (fun f => simdjson_result.of_value (field.mk f.1)),
          ⟨⟨position.finished.cursor d outer, log ++ iterate_calls fs⟩, true⟩)
  | [], fuel, log, _ => by
    have ho : json_cursor.is_open (position.finished.cursor d outer) = false := by
      simp [is_open_cursor, position.is_finished]
    cases fuel <;>
      simp [iterate, object_iterator.operator_ne, value_iterator.is_open, json_ops, ho,
        of_fields_nil, iterate_calls]
  | f :: fs, 0, log, h => by simp at h
  | f :: fs, fuel + 1, log, h => by
    have hlen : fs.length ≤ fuel := by simpa using h
    have ih := iterate_fields d outer end_it fs fuel
      (log ++ [cursor_call.field_start, cursor_call.finish_child, cursor_call.has_next_field]) hlen
    have ho : json_cursor.is_open ((position.key f fs).cursor d outer) = true := by
      simp [is_open_cursor, position.is_finished]
    have hv : json_cursor.is_open ((position.value f.2 fs).cursor d outer) = true := by
      simp [is_open_cursor, position.is_finished]
    have he : ((position.key f fs).cursor d outer).error = error_code.SUCCESS := rfl
    simp [iterate, object_iterator.operator_ne, object_iterator.operator_star,
      object_iterator.operator_inc, value_iterator.is_open, value_iterator.error,
      value_iterator.field_start, value_iterator.finish_child, value_iterator.has_next_field,
      json_ops, ho, hv, he, of_fields_cons, field_start_at_key, finish_child_at_value,
      has_next_field_at_next, simdjson_result.of_value, simdjson_result.error, iterate_calls]
    simp [json_ops, simdjson_result.of_value] at ih
    rw [ih]

/-! ### The token-level cursor meets the contract -/

theorem skip_loop_depth (p : Int) :
    ∀ (ts : List token) (d : Int), p < d → p ≤ (json_cursor.skip_loop p ts d).2.2
  | [], d, h => by simp [json_cursor.skip_loop]; omega
  | token.lbrace :: ts, d, h => by
    simp only [json_cursor.skip_loop]
    exact skip_loop_depth p ts (d + 1) (by omega)
  | token.lbracket :: ts, d, h => by
    simp only [json_cursor.skip_loop]
    exact skip_loop_depth p ts (d + 1) (by omega)
  | token.rbrace :: ts, d, h => by
    simp only [json_cursor.skip_loop]
    split
    · simp; omega
    · exact skip_loop_depth p ts (d - 1) (by omega)
  | token.rbracket :: ts, d, h => by
    simp only [json_cursor.skip_loop]
    split
    · simp; omega
    · exact skip_loop_depth p ts (d - 1) (by omega)
  | token.colon :: ts, d, h => by
    simp only [json_cursor.skip_loop]
    exact skip_loop_depth p ts d h
  | token.comma :: ts, d, h => by
    simp only [json_cursor.skip_loop]
    exact skip_loop_depth p ts d h
  | token.string _ :: ts, d, h => by
    simp only [json_cursor.skip_loop]
    exact skip_loop_depth p ts d h
  | token.scalar _ :: ts, d, h => by
    simp only [json_cursor.skip_loop]
    exact skip_loop_depth p ts d h

theorem skip_depth (p : Int) (ts : List token) (d : Int) (h : p ≤ d) :
    p ≤ (json_cursor.skip p ts d).2.2 := by
  unfold json_cursor.skip
  split
  · simpa using h
  · rename_i hd
    have hlt : p < d := by omega
    split
    · exact skip_loop_depth p ts d hlt
    · cases ts with
      | nil => simpa using h
      | cons t ts1 =>
        cases t <;> simp only []
        case lbrace => exact skip_loop_depth p ts1 d hlt
        case lbracket => exact skip_loop_depth p ts1 d hlt
        case colon => exact skip_loop_depth p ts1 d hlt
        case comma => exact skip_loop_depth p ts1 d hlt
        case rbrace =>
          split
          · simp; omega
          · exact skip_loop_depth p ts1 (d - 1) (by omega)
        case rbracket =>
          split
          · simp; omega
          · exact skip_loop_depth p ts1 (d - 1) (by omega)
        case string =>
          split
          · simp; omega
          · exact skip_loop_depth p ts1 (d - 1) (by omega)
        case scalar =>
          split
          · simp; omega
          · exact skip_loop_depth p ts1 (d - 1) (by omega)

theorem json_ops_contract : cursor_contract json_ops where
  abandon_closes := by
    intro s
    simp [json_ops, json_cursor.abandon, json_cursor.is_open]
  abandon_keeps_error := by
    intro s
    simp [json_ops, json_cursor.abandon]
  finish_child_records := by
    intro s h
    simp only [json_ops, json_cursor.finish_child] at h ⊢
    split at h
    · simp at h
    · rename_i hr
      simp [hr, json_cursor.report_error]
  has_next_field_records := by
    intro s h
    simp only [json_ops, json_cursor.has_next_field] at h ⊢
    split <;> simp_all [simdjson_result.of_value, simdjson_result.of_error,
      simdjson_result.error, json_cursor.report_error]
  finish_child_open := by
    intro s h
    have hd : s.iter_depth ≤ s.depth := by simpa [json_ops, json_cursor.is_open] using h
    have := skip_depth s.iter_depth s.tokens s.depth hd
    simp only [json_ops, json_cursor.finish_child]
    split <;> simpa [json_cursor.is_open, json_cursor.report_error] using this
  has_next_field_open := by
    intro s h he
    have hd : s.iter_depth ≤ s.depth := by simpa [json_ops, json_cursor.is_open] using h
    simp only [json_ops, json_cursor.has_next_field] at he ⊢
    split <;> simp_all [simdjson_result.of_value, simdjson_result.of_error,
      simdjson_result.error, json_cursor.report_error, json_cursor.is_open]

/-! ### Finishing a value that is read in part -/

theorem nesting_append : ∀ (a b : List token), nesting (a ++ b) = nesting a + nesting b
  | [], b => by simp [nesting]
  | t :: a, b => by simp [nesting, nesting_append a b, add_assoc]

theorem stays_above_append (p : Int) :
    ∀ (a b : List token) (D : Int),
      stays_above p (a ++ b) D ↔ stays_above p a D ∧ stays_above p b (D + nesting a)
  | [], b, D => by simp [stays_above, nesting]
  | t :: a, b, D => by
    rw [List.cons_append]
    simp only [stays_above, nesting, stays_above_append p a b, and_assoc, add_assoc]

theorem stays_above_end (p : Int) :
    ∀ (a : List token) (D : Int), p < D → stays_above p a D → p < D + nesting a
  | [], D, h, _ => by simpa [nesting] using h
  | t :: a, D, _, h => by
    have := stays_above_end p a (D + t.delta) h.1 h.2
    simp only [nesting]
    omega

theorem skip_loop_stays_above (p : Int) (rest : List token) :
    ∀ (pre : List token) (D : Int), stays_above p pre D →
      json_cursor.skip_loop p (pre ++ rest) D = json_cursor.skip_loop p rest (D + nesting pre)
  | [], D, _ => by simp [nesting]
  | t :: pre, D, h => by
    obtain ⟨h1, h2⟩ := h
    have ih := skip_loop_stays_above p rest pre (D + t.delta) h2
    rw [List.cons_append]
    cases t <;>
      simp only [token.delta, json_cursor.skip_loop, nesting] at h1 ih ⊢
    case lbrace => rw [ih]; congr 1; omega
    case lbracket => rw [ih]; congr 1; omega
    case rbrace =>
      have hn : ¬ (D - 1 ≤ p) := by omega
      rw [if_neg hn]
      have e1 : D - 1 = D + -1 := by omega
      rw [e1, ih]; congr 1; omega
    case rbracket =>
      have hn : ¬ (D - 1 ≤ p) := by omega
      rw [if_neg hn]
      have e1 : D - 1 = D + -1 := by omega
      rw [e1, ih]; congr 1; omega
    case colon =>
      have e1 : D + 0 = D := by omega
      rw [e1] at ih
      rw [ih]; congr 1; omega
    case comma =>
      have e1 : D + 0 = D := by omega
      rw [e1] at ih
      rw [ih]; congr 1; omega
    case string =>
      have e1 : D + 0 = D := by omega
      rw [e1] at ih
      rw [ih]; congr 1; omega
    case scalar =>
      have e1 : D + 0 = D := by omega
      rw [e1] at ih
      rw [ih]; congr 1; omega

mutual
theorem value_stays_above (p : Int) :
    ∀ (v : json_value) (D : Int), p < D →
      stays_above p v.tokens D ∧ nesting v.tokens = 0
  | json_value.scalar n, D, h => by
    simp [json_value.tokens, stays_above, nesting, token.delta, h]
  | json_value.string s, D, h => by
    simp [json_value.tokens, stays_above, nesting, token.delta, h]
  | json_value.array xs, D, h => by
    obtain ⟨h1, h2⟩ := elements_stay_above p xs (D + 1) (by omega)
    simp only [json_value.tokens, stays_above, nesting, token.delta, stays_above_append,
      nesting_append, h1, h2]
    refine ⟨⟨by omega, trivial, by omega, trivial⟩, by omega⟩
  | json_value.object fs, D, h => by
    obtain ⟨h1, h2⟩ := fields_stay_above p fs (D + 1) (by omega)
    simp only [json_value.tokens, stays_above, nesting, token.delta, stays_above_append,
      nesting_append, h1, h2]
    refine ⟨⟨by omega, trivial, by omega, trivial⟩, by omega⟩
theorem elements_stay_above (p : Int) :
    ∀ (xs : List json_value) (D : Int), p < D →
      stays_above p (elements_tokens xs) D ∧ nesting (elements_tokens xs) = 0
  | [], D, _ => by simp [elements_tokens, stays_above, nesting]
  | x :: xs, D, h => by
    obtain ⟨h1, h2⟩ := value_stays_above p x D h
    obtain ⟨h3, h4⟩ := more_elements_stay_above p xs D h
    simp only [elements_tokens, stays_above_append, nesting_append, h1, h2, h4, add_zero]
    exact ⟨⟨trivial, h3⟩, trivial⟩
theorem more_elements_stay_above (p : Int) :
    ∀ (xs : List json_value) (D : Int), p < D →
      stays_above p (more_elements_tokens xs) D ∧ nesting (more_elements_tokens xs) = 0
  | [], D, _ => by simp [more_elements_tokens, stays_above, nesting]
  | x :: xs, D, h => by
    obtain ⟨h1, h2⟩ := value_stays_above p x D h
    obtain ⟨h3, h4⟩ := more_elements_stay_above p xs D h
    simp only [more_elements_tokens, stays_above, nesting, token.delta, stays_above_append,
      nesting_append, h1, h2, h4, add_zero]
    exact ⟨⟨by omega, trivial, h3⟩, trivial⟩
theorem fields_stay_above (p : Int) :
    ∀ (fs : List (raw_json_string × json_value)) (D : Int), p < D →
      stays_above p (fields_tokens fs) D ∧ nesting (fields_tokens fs) = 0
  | [], D, _ => by simp [fields_tokens, stays_above, nesting]
  | f :: fs, D, h => by
    obtain ⟨h1, h2⟩ := value_stays_above p f.2 D h
    obtain ⟨h3, h4⟩ := more_fields_stay_above p fs D h
    simp only [fields_tokens, stays_above, nesting, token.delta, stays_above_append,
      nesting_append, h1, h2, h4, add_zero]
    exact ⟨⟨by omega, by omega, trivial, h3⟩, trivial⟩
theorem more_fields_stay_above (p : Int) :
    ∀ (fs : List (raw_json_string × json_value)) (D : Int), p < D →
      stays_above p (more_fields_tokens fs) D ∧ nesting (more_fields_tokens fs) = 0
  | [], D, _ => by simp [more_fields_tokens, stays_above, nesting]
  | f :: fs, D, h => by
    obtain ⟨h1, h2⟩ := value_stays_above p f.2 D h
    obtain ⟨h3, h4⟩ := more_fields_stay_above p fs D h
    simp only [more_fields_tokens, stays_above, nesting, token.delta, stays_above_append,
      nesting_append, h1, h2, h4, add_zero]
    exact ⟨⟨by omega, by omega, by omega, trivial, h3⟩, trivial⟩
end

theorem at_key_before_close (suf1 tail : List token) (c : token)
    (hc : c = token.rbracket ∨ c = token.rbrace) :
    json_cursor.at_key ((suf1 ++ [c]) ++ tail) = json_cursor.at_key (suf1 ++ [c]) := by
  cases suf1 with
  | nil => rcases hc with rfl | rfl <;> simp [json_cursor.at_key]
  | cons t1 s1 =>
    cases s1 with
    | nil => rcases hc with rfl | rfl <;> cases t1 <;> simp [json_cursor.at_key]
    | cons t2 s2 => cases t1 <;> cases t2 <;> simp [json_cursor.at_key]

theorem pending_nonneg (suf : List token) : 0 ≤ pending suf := by
  unfold pending
  split
  · exact le_refl _
  · split <;> simp

theorem pending_value (v : json_value) : pending v.tokens = 1 := by
  cases v <;> simp [json_value.tokens, pending, json_cursor.at_key]

theorem skip_inside (p : Int) (tail : List token) :
    ∀ (suf : List token) (L : Int), suf ≠ [] → p < L →
      json_cursor.at_key (suf ++ tail) = json_cursor.at_key suf →
      json_cursor.skip p (suf ++ tail) (L + pending suf) =
        json_cursor.skip_loop p (suf ++ tail) L
  | [], _, h, _, _ => absurd rfl h
  | t :: suf, L, _, hL, hk => by
    cases hkey : json_cursor.at_key (t :: suf) with
    | true =>
      have h0 : ¬ (L + 0 ≤ p) := by omega
      rw [hkey] at hk
      simp only [pending, hkey, if_true, json_cursor.skip, hk]
      rw [if_neg h0]
      simp
    | false =>
      rw [hkey] at hk
      unfold json_cursor.skip
      rw [hk]
      simp only [pending, hkey]
      rw [List.cons_append]
      cases t <;> simp only [json_cursor.skip_loop, Bool.false_eq_true, if_false]
      case lbrace =>
        rw [if_neg (by omega)]
      case lbracket =>
        rw [if_neg (by omega)]
      case rbrace =>
        rw [if_neg (by omega)]
        simp
      case rbracket =>
        rw [if_neg (by omega)]
        simp
      case colon =>
        rw [if_neg (by omega)]
        simp
      case comma =>
        rw [if_neg (by omega)]
        simp
      case string =>
        rw [if_neg (by omega)]
        simp
        intro h
        omega
      case scalar =>
        rw [if_neg (by omega)]
        simp
        intro h
        omega

theorem split_before_last {α : Type} (pre suf inner : List α) (c : α)
    (h : pre ++ suf = inner ++ [c]) (hs : suf ≠ []) :
    ∃ suf1, suf = suf1 ++ [c] ∧ inner = pre ++ suf1 := by
  rcases List.append_eq_append_iff.mp h with ⟨a, h1, h2⟩ | ⟨b, h1, h2⟩
  · exact ⟨a, h2, h1⟩
  · -- `[c] = b ++ suf` with `suf` not empty: `b` is empty
    cases b with
    | nil =>
      refine ⟨[], ?_, ?_⟩
      · simpa using h2.symm
      · simpa using h1.symm
    | cons x b =>
      have hlen := congrArg List.length h2
      simp only [List.length_cons, List.length_nil, List.length_append] at hlen
      have : suf.length = 0 := by omega
      exact absurd (List.length_eq_zero.mp this) hs

theorem skip_loop_container (d : Int) (inner tail pre1 suf : List token) (c : token)
    (hc : c = token.rbracket ∨ c = token.rbrace)
    (hin : stays_above d inner (d + 1)) (hn : nesting inner = 0)
    (hsplit : pre1 ++ suf = inner ++ [c]) (hs : suf ≠ []) :
    json_cursor.skip d (suf ++ tail) (d + (1 + nesting pre1) + pending suf) =
      (true, tail, d) := by
  obtain ⟨suf1, rfl, rfl⟩ := split_before_last pre1 suf inner c hsplit hs
  have hpre : stays_above d pre1 (d + 1) := ((stays_above_append d pre1 suf1 (d + 1)).mp hin).1
  have hsuf : stays_above d suf1 (d + 1 + nesting pre1) :=
    ((stays_above_append d pre1 suf1 (d + 1)).mp hin).2
  have hL : d < d + 1 + nesting pre1 := stays_above_end d pre1 (d + 1) (by omega) hpre
  have e1 : d + (1 + nesting pre1) = d + 1 + nesting pre1 := by omega
  rw [e1, skip_inside d tail (suf1 ++ [c]) (d + 1 + nesting pre1) hs hL
      (at_key_before_close suf1 tail c hc), List.append_assoc,
    skip_loop_stays_above d ([c] ++ tail) suf1 (d + 1 + nesting pre1) hsuf]
  have hz : d + 1 + nesting pre1 + nesting suf1 = d + 1 := by
    rw [nesting_append] at hn
    omega
  rw [hz]
  rcases hc with rfl | rfl <;> simp [json_cursor.skip_loop]

theorem skip_reading (d : Int) (v : json_value) (pre suf tail : List token)
    (hsplit : v.tokens = pre ++ suf) (hk : json_cursor.at_key (v.tokens ++ tail) = false) :
    json_cursor.skip d (suf ++ tail) (d + nesting pre + pending suf) = (true, tail, d) := by
  by_cases hs : suf = []
  · subst hs
    have hn : nesting pre = 0 := by
      have := (value_stays_above d v (d + 1) (by omega)).2
      rw [hsplit] at this
      simpa using this
    simp [json_cursor.skip, hn, pending, json_cursor.at_key]
  · cases pre with
    | nil =>
      have hv : suf = v.tokens := by simpa using hsplit.symm
      subst hv
      rw [pending_value]
      simpa [nesting] using skip_value d v tail hk
    | cons t pre1 =>
      cases v with
      | scalar n =>
        simp only [json_value.tokens, List.cons_append, List.cons.injEq] at hsplit
        have := hsplit.2
        simp at this
        exact absurd this.2 hs
      | string s =>
        simp only [json_value.tokens, List.cons_append, List.cons.injEq] at hsplit
        have := hsplit.2
        simp at this
        exact absurd this.2 hs
      | array xs =>
        simp only [json_value.tokens, List.cons_append, List.cons.injEq] at hsplit
        obtain ⟨rfl, h2⟩ := hsplit
        obtain ⟨h3, h4⟩ := elements_stay_above d xs (d + 1) (by omega)
        simpa [nesting, token.delta] using
          skip_loop_container d (elements_tokens xs) tail pre1 suf token.rbracket
            (Or.inl rfl) h3 h4 h2.symm hs
      | object fs =>
        simp only [json_value.tokens, List.cons_append, List.cons.injEq] at hsplit
        obtain ⟨rfl, h2⟩ := hsplit
        obtain ⟨h3, h4⟩ := fields_stay_above d fs (d + 1) (by omega)
        simpa [nesting, token.delta] using
          skip_loop_container d (fields_tokens fs) tail pre1 suf token.rbrace
            (Or.inr rfl) h3 h4 h2.symm hs

theorem finish_child_reading (d : Int) (v : json_value) (pre suf tail : List token)
    (hsplit : v.tokens = pre ++ suf) (hk : json_cursor.at_key (v.tokens ++ tail) = false) :
    json_cursor.finish_child (reading_cursor d pre suf tail) =
      (error_code.SUCCESS,
        { tokens := tail, depth := d, iter_depth := d, error := error_code.SUCCESS }) := by
  simp [json_cursor.finish_child, reading_cursor, skip_reading d v pre suf tail hsplit hk]

theorem reading_cursor_open (d : Int) (v : json_value) (pre suf tail : List token)
    (hsplit : v.tokens = pre ++ suf) : (reading_cursor d pre suf tail).is_open = true := by
  have h1 := (value_stays_above (d - 1) v d (by omega)).1
  rw [hsplit] at h1
  have h2 := ((stays_above_append (d - 1) pre suf d).mp h1).1
  have h3 := stays_above_end (d - 1) pre d (by omega) h2
  have h4 := pending_nonneg suf
  simp only [reading_cursor, json_cursor.is_open, decide_eq_true_eq]
  omega

theorem reading_cursor_at_value (d : Int) (v : json_value)
    (rest : List (raw_json_string × json_value)) (outer : List token) :
    reading_cursor d [] v.tokens (more_fields_tokens rest ++ token.rbrace :: outer) =
      (position.value v rest).cursor d outer := by
  simp [reading_cursor, position.cursor, pending_value, nesting]

theorem reading_cursor_at_next (d : Int) (v : json_value)
    (rest : List (raw_json_string × json_value)) (outer : List token) :
    reading_cursor d v.tokens [] (more_fields_tokens rest ++ token.rbrace :: outer) =
      (position.next rest).cursor d outer := by
  have hn := (value_stays_above d v (d + 1) (by omega)).2
  simp [reading_cursor, position.cursor, pending, json_cursor.at_key, hn]

theorem finish_child_live (d : Int) (outer : List token) (st : json_cursor)
    (fs : List (raw_json_string × json_value)) (v : json_value) (pre suf : List token)
    (hsplit : v.tokens = pre ++ suf)
    (hst : st = reading_cursor d pre suf (more_fields_tokens fs ++ token.rbrace :: outer)) :
    json_cursor.is_open st = true ∧
    json_cursor.finish_child st = (error_code.SUCCESS, (position.next fs).cursor d outer) := by
  subst hst
  exact ⟨reading_cursor_open d v pre suf _ hsplit,
    finish_child_reading d v pre suf _ hsplit (at_key_value_in_object v fs outer)⟩

/-! ### The operations of a value handle keep the cursor in the family -/

theorem start_object_reading (d D : Int) (pre suf tail : List token)
    (h : json_cursor.at_key suf = true) :
    json_cursor.start_object ((reading_cursor d pre (token.lbrace :: suf) tail).handle D) =
      (simdjson_result.of_value true,
        (reading_cursor d (pre ++ [token.lbrace]) suf tail).handle D) := by
  match suf, h with
  | token.string s :: token.colon :: suf2, _ =>
    simp [json_cursor.start_object, reading_cursor, json_cursor.handle, pending,
      json_cursor.at_key, nesting_append, nesting, token.delta]
    omega

theorem start_empty_object_reading (d : Int) (pre suf tail : List token)
    (h : pending suf = 0) :
    json_cursor.start_object
        ((reading_cursor d pre (token.lbrace :: token.rbrace :: suf) tail).handle
          (d + nesting pre + 1)) =
      (simdjson_result.of_value false,
        (reading_cursor d (pre ++ [token.lbrace, token.rbrace]) suf tail).handle
          (d + nesting pre + 1)) := by
  simp [json_cursor.start_object, reading_cursor, json_cursor.handle, h, nesting_append,
    nesting, token.delta]

theorem field_key_reading (d D : Int) (pre suf tail : List token) (k : raw_json_string) :
    json_cursor.field_key
        ((reading_cursor d pre (token.string k :: token.colon :: suf) tail).handle D) =
      (simdjson_result.of_value k,
        (reading_cursor d (pre ++ [token.string k]) (token.colon :: suf) tail).handle D) := by
  simp [json_cursor.field_key, reading_cursor, json_cursor.handle, pending,
    json_cursor.at_key, nesting_append, nesting, token.delta]

theorem field_value_reading (d : Int) (pre suf tail : List token) (h : pending suf = 1) :
    json_cursor.field_value
        ((reading_cursor d pre (token.colon :: suf) tail).handle (d + nesting pre)) =
      (error_code.SUCCESS,
        (reading_cursor d (pre ++ [token.colon]) suf tail).handle (d + nesting pre)) := by
  simp [json_cursor.field_value, reading_cursor, json_cursor.handle, h, nesting_append,
    nesting, token.delta]

theorem skip_child_reading (d : Int) (w : json_value) (pre suf tail : List token)
    (hk : json_cursor.at_key (w.tokens ++ (suf ++ tail)) = false) (h : pending suf = 0) :
    json_cursor.skip_child
        ((reading_cursor d pre (w.tokens ++ suf) tail).handle (d + nesting pre)) =
      (error_code.SUCCESS,
        (reading_cursor d (pre ++ w.tokens) suf tail).handle (d + nesting pre)) := by
  have hn := (value_stays_above d w (d + 1) (by omega)).2
  have hp : pending (w.tokens ++ suf) = 1 := by
    cases w <;> simp [json_value.tokens, pending, json_cursor.at_key] at hk ⊢
    case string s =>
      cases suf with
      | nil => simp [json_cursor.at_key]
      | cons t ts => cases t <;> simp [json_cursor.at_key] at hk ⊢
  simp [json_cursor.skip_child, reading_cursor, json_cursor.handle, hp, h, nesting_append, hn,
    skip_value (d + nesting pre) w (suf ++ tail) hk]

theorem has_next_field_reading (d D : Int) (pre suf tail : List token)
    (h : json_cursor.at_key suf = true) :
    json_cursor.has_next_field ((reading_cursor d pre (token.comma :: suf) tail).handle D) =
      (simdjson_result.of_value true,
        (reading_cursor d (pre ++ [token.comma]) suf tail).handle D) := by
  have h1 : pending suf = 0 := by simp [pending, h]
  have h2 : pending (token.comma :: suf) = 0 := by simp [pending, json_cursor.at_key]
  simp [json_cursor.has_next_field, reading_cursor, json_cursor.handle, h1, h2,
    nesting_append, nesting, token.delta]

theorem closing_brace_reading (d : Int) (pre suf tail : List token) (h : pending suf = 0) :
    json_cursor.has_next_field
        ((reading_cursor d pre (token.rbrace :: suf) tail).handle (d + nesting pre)) =
      (simdjson_result.of_value false,
        (reading_cursor d (pre ++ [token.rbrace]) suf tail).handle (d + nesting pre)) := by
  simp [json_cursor.has_next_field, reading_cursor, json_cursor.handle, h,
    nesting_append, nesting, token.delta]
  omega

/-! ### Properties of the first match -/

theorem lookup_from_none (k : raw_json_string) :
    ∀ (fs : List (raw_json_string × json_value)),
      lookup_from k fs = none ↔ ∀ f ∈ fs, f.1 ≠ k
  | [] => by simp [lookup_from]
  | f :: fs => by
    by_cases hk : f.1 = k
    · simp [lookup_from, hk]
    · simp [lookup_from, hk, lookup_from_none k fs]

theorem lookup_from_some (k : raw_json_string) :
    ∀ (fs : List (raw_json_string × json_value))
      (r : json_value × List (raw_json_string × json_value)),
      lookup_from k fs = some r →
      ∃ pre cs, fs = pre ++ (k, r.1) :: r.2 ∧ (∀ f ∈ pre, f.1 ≠ k) ∧
        scan_calls k fs = cs ++ [cursor_call.field_key, cursor_call.field_value] ∧
        cursor_call.abandon ∉ cs ∧ cs.count cursor_call.skip_child = pre.length ∧
        cs.count cursor_call.field_key = pre.length
  | [], r, h => by simp [lookup_from] at h
  | f :: fs, r, h => by
    by_cases hk : f.1 = k
    · simp only [lookup_from, hk, if_true, Option.some.injEq] at h
      refine ⟨[], [], ?_, ?_, ?_, ?_, ?_, ?_⟩
      · subst h; subst hk; simp
      · simp
      · simp [scan_calls, hk]
      · simp
      · simp
      · simp
    · simp only [lookup_from, hk, if_false] at h
      obtain ⟨pre, cs, h1, h2, h3, h4, h5, h6⟩ := lookup_from_some k fs r h
      refine ⟨f :: pre,
        [cursor_call.field_key, cursor_call.field_value, cursor_call.skip_child,
          cursor_call.has_next_field] ++ cs, ?_, ?_, ?_, ?_, ?_, ?_⟩
      · simp [h1]
      · intro g hg
        rcases List.mem_cons.mp hg with rfl | hg
        · exact hk
        · exact h2 g hg
      · simp [scan_calls, hk, h3]
      · simp [h4]
      · simp [List.count_cons, h5]
      · simp [List.count_cons, h6]

theorem scan_calls_none (k : raw_json_string) :
    ∀ (fs : List (raw_json_string × json_value)), lookup_from k fs = none →
      (scan_calls k fs).count cursor_call.field_key = fs.length ∧
      cursor_call.abandon ∉ scan_calls k fs
  | [], _ => by simp [scan_calls]
  | f :: fs, h => by
    by_cases hk : f.1 = k
    · simp [lookup_from, hk] at h
    · simp only [lookup_from, hk, if_false] at h
      have ih := scan_calls_none k fs h
      simp [scan_calls, hk, List.count_cons, ih.1, ih.2]

theorem lookup_from_length (k : raw_json_string) :
    ∀ (fs : List (raw_json_string × json_value))
      (r : json_value × List (raw_json_string × json_value)),
      lookup_from k fs = some r → r.2.length ≤ fs.length
  | [], r, h => by simp [lookup_from] at h
  | f :: fs, r, h => by
    by_cases hk : f.1 = k
    · simp only [lookup_from, hk, if_true, Option.some.injEq] at h
      subst h; simp
    · simp only [lookup_from, hk, if_false] at h
      have := lookup_from_length k fs r h
      simp; omega

theorem drop_through_length (k : raw_json_string) (fs : List (raw_json_string × json_value)) :
    (drop_through k fs).length ≤ fs.length := by
  unfold drop_through
  cases h : lookup_from k fs with
  | none => simp
  | some r => simpa using lookup_from_length k fs r h

theorem lookup_from_of_mem (k : raw_json_string) (v : json_value)
    (tail : List (raw_json_string × json_value)) :
    ∀ (pre : List (raw_json_string × json_value)),
      ∃ r pre1, lookup_from k (pre ++ (k, v) :: tail) = some r ∧ r.2 = pre1 ++ tail
  | [] => ⟨(v, tail), [], by simp [lookup_from], by simp⟩
  | f :: pre => by
    by_cases hk : f.1 = k
    · exact ⟨(f.2, pre ++ (k, v) :: tail), pre ++ [(k, v)], by simp [lookup_from, hk], by simp⟩
    · obtain ⟨r, pre1, h1, h2⟩ := lookup_from_of_mem k v tail pre
      exact ⟨r, pre1, by simp [lookup_from, hk, h1], h2⟩

/-! ### One lookup from a position -/

theorem unscanned_after_lookup (k : raw_json_string) (fs : List (raw_json_string × json_value)) :
    (position_after_lookup k fs).unscanned = drop_through k fs := by
  unfold position_after_lookup drop_through
  cases lookup_from k fs <;> simp [position.unscanned]

theorem find_field_raw_step (d : Int) (outer : List token) (k : raw_json_string)
    (it : object_iterator json_cursor) (p : position) (fuel : Nat)
    (hp : at_position d outer it p) (h : p.unscanned.length ≤ fuel) :
    ∃ it1, object_iterator.find_field_raw json_ops fuel it k =
        some (lookup_code k p.unscanned, it1) ∧
      at_position d outer it1 (position_after_lookup k p.unscanned) ∧
      it1.iter.calls = it.iter.calls ++ (p.entry_calls ++ scan_calls k p.unscanned) := by
  obtain ⟨⟨st, log⟩, b⟩ := it
  obtain ⟨hst, hb⟩ := hp
  simp only at hst hb
  subst hst
  rcases hb with hb | hb
  · subst hb
    refine ⟨(scan_result d outer k (log ++ p.entry_calls) p.unscanned).2, ?_, ?_, ?_⟩
    · rw [find_field_raw_at_position d outer k p fuel log h]
      unfold scan_result lookup_code
      cases lookup_from k p.unscanned <;> rfl
    · unfold scan_result position_after_lookup at_position
      cases lookup_from k p.unscanned <;> simp [position.start_flag]
    · unfold scan_result
      cases lookup_from k p.unscanned <;> simp
  · subst hb
    refine ⟨⟨⟨position.finished.cursor d outer, log⟩, b⟩, ?_, ?_, ?_⟩
    · rw [find_field_raw_finished]
      simp [lookup_code, lookup_from, position.unscanned]
    · simp [at_position, position_after_lookup, lookup_from, position.unscanned]
    · simp [position.entry_calls, scan_calls, position.unscanned]

theorem caller_reads_value_at_value (d : Int) (outer : List token)
    (it : object_iterator json_cursor) (v : json_value)
    (rest : List (raw_json_string × json_value))
    (hp : at_position d outer it (position.value v rest)) :
    at_position d outer (caller_reads_value it) (position.next rest) ∧
      (caller_reads_value it).iter.calls = it.iter.calls := by
  obtain ⟨hst, hb⟩ := hp
  refine ⟨⟨?_, ?_⟩, rfl⟩
  · simp [caller_reads_value, hst, skip_child_at_value]
  · rcases hb with hb | hb
    · left; simpa [caller_reads_value, position.start_flag] using hb
    · cases hb

theorem fresh_at_position (d : Int) (outer : List token)
    (fs : List (raw_json_string × json_value)) :
    at_position d outer (fresh d outer fs) (position.of_fields fs) ∧
      (position.of_fields fs).unscanned = fs ∧ (fresh d outer fs).iter.calls = [] := by
  rw [fresh_eq]
  cases fs <;> simp [at_position, position.of_fields, position.start_flag, position.unscanned]

/-! ### Sequences of lookups -/

theorem lookups_at_position (d : Int) (outer : List token) (fuel : Nat) :
    ∀ (qs : List (raw_json_string × Bool)) (it : object_iterator json_cursor) (p : position),
      at_position d outer it p → p.unscanned.length ≤ fuel →
      ∃ es it1 p1, lookups fuel qs it = some (es, it1) ∧ at_position d outer it1 p1 ∧
        p1.unscanned = unscanned_after p.unscanned (qs.map Prod.fst)
  | [], it, p, hp, _ => ⟨[], it, p, rfl, hp, rfl⟩
  | q :: qs, it, p, hp, h => by
    obtain ⟨it1, h1, h2, _⟩ := find_field_raw_step d outer q.1 it p fuel hp h
    have hlen : (position_after_lookup q.1 p.unscanned).unscanned.length ≤ fuel := by
      rw [unscanned_after_lookup]
      exact le_trans (drop_through_length q.1 p.unscanned) h
    by_cases hc : lookup_code q.1 p.unscanned = error_code.SUCCESS ∧ q.2 = true
    · -- the caller reads the matched value
      cases hl : lookup_from q.1 p.unscanned with
      | none => simp [lookup_code, hl] at hc
      | some r =>
        have h2v : at_position d outer it1 (position.value r.1 r.2) := by
          simpa [position_after_lookup, hl] using h2
        have h3 := (caller_reads_value_at_value d outer it1 r.1 r.2 h2v).1
        have hpos : position_after_lookup q.1 p.unscanned = position.value r.1 r.2 := by
          simp [position_after_lookup, hl]
        have hdrop : drop_through q.1 p.unscanned = r.2 := by
          simp [drop_through, hl]
        have hlen3 : (position.next r.2).unscanned.length ≤ fuel := by
          rw [hpos] at hlen
          exact hlen
        obtain ⟨es, it2, p2, h4, h5, h6⟩ :=
          lookups_at_position d outer fuel qs (caller_reads_value it1) (position.next r.2) h3 hlen3
        refine ⟨lookup_code q.1 p.unscanned :: es, it2, p2, ?_, h5, ?_⟩
        · simp [lookups, h1, hc, h4]
        · show p2.unscanned = unscanned_after (drop_through q.1 p.unscanned) (qs.map Prod.fst)
          rw [hdrop]
          exact h6
    · obtain ⟨es, it2, p2, h4, h5, h6⟩ :=
        lookups_at_position d outer fuel qs it1 (position_after_lookup q.1 p.unscanned) h2 hlen
      refine ⟨lookup_code q.1 p.unscanned :: es, it2, p2, ?_, h5, ?_⟩
      · simp [lookups, h1, hc, h4]
      · show p2.unscanned = unscanned_after (drop_through q.1 p.unscanned) (qs.map Prod.fst)
        rw [← unscanned_after_lookup]
        exact h6

theorem unscanned_after_length :
    ∀ (qs : List raw_json_string) (fs : List (raw_json_string × json_value)),
      (unscanned_after fs qs).length ≤ fs.length
  | [], fs => by simp [unscanned_after]
  | q :: qs, fs =>
    le_trans (unscanned_after_length qs (drop_through q fs)) (drop_through_length q fs)

theorem find_field_raw_after_value (d : Int) (outer : List token) (k : raw_json_string)
    (it : object_iterator json_cursor) (fs : List (raw_json_string × json_value)) (fuel : Nat)
    (hs : it.at_start = false) (ho : it.iter.is_open json_ops = true)
    (hf : json_cursor.finish_child it.iter.state =
      (error_code.SUCCESS, (position.next fs).cursor d outer))
    (h : fs.length ≤ fuel) :
    object_iterator.find_field_raw json_ops fuel it k =
      some (scan_result d outer k
        (it.iter.calls ++ [cursor_call.finish_child, cursor_call.has_next_field]) fs) := by
  obtain ⟨⟨st, log⟩, b⟩ := it
  simp only at hs hf
  subst hs
  have ho1 : json_cursor.is_open st = true := ho
  have hl := find_field_raw_loop_fields d outer k fs fuel
    (log ++ [cursor_call.finish_child, cursor_call.has_next_field]) h
  simp [object_iterator.find_field_raw, value_iterator.is_open, json_ops, ho1,
    value_iterator.finish_child, value_iterator.has_next_field, hf,
    has_next_field_at_next, simdjson_result.of_value, simdjson_result.error]
  simpa [json_ops] using hl

/-! ### An iterator with a pending error -/

theorem pending_error_yielded_once {σ φ : Type} [Inhabited φ] (C : cursor_ops σ φ)
    (habandon : ∀ s, C.is_open (C.abandon s) = false) (it end_it : object_iterator σ)
    (E : error_code) (ho : C.is_open it.iter.state = true) (he : C.error it.iter.state = E)
    (hE : E ≠ error_code.SUCCESS) :
    it.operator_star C =
        (simdjson_result.of_error E, ⟨it.iter.abandon C, it.at_start⟩) ∧
      iterate C end_it 1 it =
        some ([simdjson_result.of_error E], (it.operator_star C).2) := by
  have hstar : it.operator_star C =
      (simdjson_result.of_error E, ⟨it.iter.abandon C, it.at_start⟩) := by
    simp [object_iterator.operator_star, value_iterator.error, he, hE]
  have hclosed : C.is_open (it.iter.abandon C).state = false := habandon _
  refine ⟨hstar, ?_⟩
  simp only [iterate, object_iterator.operator_ne, value_iterator.is_open, ho, if_true]
  rw [hstar]
  simp [object_iterator.operator_inc, value_iterator.is_open, hclosed, iterate,
    object_iterator.operator_ne]

/-! ## The claims -/

/-- C1: for every well-formed object with the fields `fs` (possibly none), the loop
`while (it != end) { yield *it; ++it; }` started on a freshly constructed iterator
returns (with as many executions of the body as there are fields) and yields
exactly one successful field per field of the object, with the keys in source
order; it ends with the cursor closed, in the finished position, and with no
pending error. -/
theorem iterate_yields_fields_in_order (d : Int) (outer : List token)
    (fs : List (raw_json_string × json_value)) (end_it : object_iterator json_cursor)
    (fuel : Nat) (hfuel : fs.length ≤ fuel) :
    ∃ it, iterate json_ops end_it fuel (fresh d outer fs) =
        some (fs.map (fun f => simdjson_result.of_value (field.mk f.1)), it) ∧
      it.operator_ne json_ops end_it = false ∧
      it.iter.state = position.finished.cursor d outer ∧
      it.iter.error json_ops = error_code.SUCCESS := by
  refine ⟨⟨⟨position.finished.cursor d outer, [] ++ iterate_calls fs⟩, true⟩, ?_, ?_, rfl, rfl⟩
  · rw [fresh_eq]
    exact iterate_fields d outer end_it fs fuel [] hfuel
  · simp [object_iterator.operator_ne, value_iterator.is_open, json_ops, is_open_cursor,
      position.is_finished]

/-- The loop over `{"a":[1,{"c":2}],"b":2}`, whose first value is nested and is never read by
the caller. -/
theorem iterate_yields_fields_in_order_witness :
    fields_nested.length ≤ 2 ∧
      ∃ it, iterate json_ops (fresh 1 [] []) 2 (fresh 1 [] fields_nested) =
          some (fields_nested.map (fun f => simdjson_result.of_value (field.mk f.1)), it) ∧
        it.operator_ne json_ops (fresh 1 [] []) = false ∧
        it.iter.state = position.finished.cursor 1 [] ∧
        it.iter.error json_ops = error_code.SUCCESS :=
  ⟨by decide, iterate_yields_fields_in_order 1 [] fields_nested (fresh 1 [] []) 2 (by decide)⟩

/-- C2, as stated, fails: over `{"a":1,"b":2}`, after `find_field_raw("a")` and `++it`
the iterator is open and the field `"b"` is not scanned yet, but
`find_field_raw("b")` returns TAPE_ERROR: `at_start` is false, so the lookup asks
for a separator that `++it` has already consumed. -/
theorem find_field_raw_after_increment_fails :
    object_iterator.find_field_raw json_ops 2 (fresh 1 [] fields_ab) key_a =
        some (error_code.SUCCESS, iterator_after_find_a) ∧
      (object_iterator.operator_inc json_ops iterator_after_find_a).iter.is_open json_ops =
        true ∧
      (object_iterator.operator_inc json_ops iterator_after_find_a).iter.state =
        (position.key (key_b, json_value.scalar 2) []).cursor 1 [] ∧
      (object_iterator.find_field_raw json_ops 2
          (object_iterator.operator_inc json_ops iterator_after_find_a) key_b).map Prod.fst =
        some error_code.TAPE_ERROR := by
  decide

/-- C2, amended: for an iterator in a live state over a well-formed object (at the
key of the first unscanned field with `at_start` set, or, with `at_start` false,
at, in or after a value that was handed out: the caller has read nothing, any
part or all of it, and may have stopped at a key of an object in it) and every
key `k`,
`find_field_raw` returns, and it returns SUCCESS exactly when some field not yet
scanned has the key `k`; then the cursor stands at the unread value of the first
such field, the last two calls are `field_key` and `field_value`, `skip_child` was
called once for each field before it only, `abandon` was not called and the cursor
is open. -/
theorem find_field_raw_finds_first_match (d : Int) (outer : List token)
    (it : object_iterator json_cursor) (fs : List (raw_json_string × json_value))
    (k : raw_json_string) (fuel : Nat) (hlive : live_over d outer it fs)
    (hfuel : fs.length ≤ fuel) :
    ∃ e it1,
      object_iterator.find_field_raw json_ops fuel it k = some (e, it1) ∧
      (e = error_code.SUCCESS ↔ ∃ f ∈ fs, f.1 = k) ∧
      (e = error_code.SUCCESS →
        ∃ pre v rest cs, fs = pre ++ (k, v) :: rest ∧ (∀ f ∈ pre, f.1 ≠ k) ∧
          it1.iter.state = (position.value v rest).cursor d outer ∧
          it1.iter.calls =
            it.iter.calls ++ cs ++ [cursor_call.field_key, cursor_call.field_value] ∧
          cs.count cursor_call.skip_child = pre.length ∧
          cursor_call.abandon ∉ cs ∧
          it1.iter.is_open json_ops = true) := by
  -- both live states lead to the same scan, after different entry calls
  have hscan : ∃ entry : List cursor_call,
      object_iterator.find_field_raw json_ops fuel it k =
        some (scan_result d outer k (it.iter.calls ++ entry) fs) ∧
      cursor_call.abandon ∉ entry ∧ entry.count cursor_call.skip_child = 0 := by
    rcases hlive with ⟨hs, f, rest, hfs, hst⟩ | ⟨hs, v, pre, suf, hsplit, hst⟩
    · refine ⟨[], ?_, by simp, by simp⟩
      obtain ⟨⟨st, log⟩, b⟩ := it
      simp only at hs hst
      subst hs hst hfs
      simpa [position.start_flag, position.entry_calls, position.unscanned] using
        find_field_raw_at_position d outer k (position.key f rest) fuel log hfuel
    · obtain ⟨ho, hf⟩ := finish_child_live d outer it.iter.state fs v pre suf hsplit hst
      exact ⟨[cursor_call.finish_child, cursor_call.has_next_field],
        find_field_raw_after_value d outer k it fs fuel hs ho hf hfuel, by simp, by simp⟩
  obtain ⟨entry, hfind, hentry1, hentry2⟩ := hscan
  refine ⟨_, _, hfind, ?_, ?_⟩
  · cases hl : lookup_from k fs with
    | none =>
      have := (lookup_from_none k fs).mp hl
      simp only [false_iff, not_exists, not_and, reduceCtorEq]
      exact fun f hf => this f hf
    | some r =>
      obtain ⟨pre, cs, h1, _⟩ := lookup_from_some k fs r hl
      simp only [true_iff]
      exact ⟨(k, r.1), by rw [h1]; simp, rfl⟩
  · cases hl : lookup_from k fs with
    | none => simp
    | some r =>
      obtain ⟨pre, cs, h1, h2, h3, h4, h5, _⟩ := lookup_from_some k fs r hl
      intro _
      refine ⟨pre, r.1, r.2, entry ++ cs, h1, h2, rfl, ?_, ?_, ?_, ?_⟩
      · simp [h3]
      · simp [List.count_append, hentry2, h5]
      · simp [hentry1, h4]
      · simp [value_iterator.is_open, json_ops, is_open_cursor, position.is_finished]

/-- The lookup of `"b"` over `{"a":{"c":2,"e":3},"b":2}` after `find_field_raw("a")`, when
the caller has opened the nested object with `start_object` and stopped at its
key `"c"`. -/
theorem find_field_raw_finds_first_match_witness :
    cursor_at_nested_key =
      { tokens := [token.string key_c, token.colon, token.scalar 2, token.comma,
          token.string key_e, token.colon, token.scalar 3, token.rbrace, token.comma,
          token.string key_b, token.colon, token.scalar 2, token.rbrace],
        depth := 2, iter_depth := 1, error := error_code.SUCCESS } ∧
    (object_iterator.find_field_raw json_ops 1 iterator_at_nested_key key_b).map
        (fun r => (r.1, r.2.iter.state)) =
      some (error_code.SUCCESS, (position.value (json_value.scalar 2) []).cursor 1 []) ∧
    live_over 1 [] iterator_at_nested_key [(key_b, json_value.scalar 2)] ∧
    [(key_b, json_value.scalar 2)].length ≤ 1 ∧
    ∃ e it1,
      object_iterator.find_field_raw json_ops 1 iterator_at_nested_key key_b = some (e, it1) ∧
      (e = error_code.SUCCESS ↔ ∃ f ∈ [(key_b, json_value.scalar 2)], f.1 = key_b) ∧
      (e = error_code.SUCCESS →
        ∃ pre v rest cs, [(key_b, json_value.scalar 2)] = pre ++ (key_b, v) :: rest ∧
          (∀ f ∈ pre, f.1 ≠ key_b) ∧
          it1.iter.state = (position.value v rest).cursor 1 [] ∧
          it1.iter.calls = iterator_at_nested_key.iter.calls ++ cs ++
            [cursor_call.field_key, cursor_call.field_value] ∧
          cs.count cursor_call.skip_child = pre.length ∧
          cursor_call.abandon ∉ cs ∧
          it1.iter.is_open json_ops = true) :=
  ⟨by decide, by decide,
    Or.inr ⟨by decide, nested_object, [token.lbrace],
      [token.string key_c, token.colon, token.scalar 2, token.comma, token.string key_e,
        token.colon, token.scalar 3, token.rbrace], by decide, by decide⟩,
    by decide,
    find_field_raw_finds_first_match 1 [] iterator_at_nested_key [(key_b, json_value.scalar 2)]
      key_b 1
      (Or.inr ⟨by decide, nested_object, [token.lbrace],
        [token.string key_c, token.colon, token.scalar 2, token.comma, token.string key_e,
          token.colon, token.scalar 3, token.rbrace], by decide, by decide⟩)
      (by decide)⟩

/-- C3: for every cursor and every cursor state, `operator*` returns the pending
error of the cursor when there is one, calling only `abandon` (no `field::start`);
otherwise it returns exactly the result of `field::start`.  Whenever the returned
result is an error the cursor was abandoned last and is closed afterwards (given
that `abandon` closes the cursor); when it is a success, `field::start` is the only
call: the cursor is the one `field::start` left, not abandoned. -/
theorem operator_star_spec {σ φ : Type} [Inhabited φ] (C : cursor_ops σ φ)
    (self : object_iterator σ) (habandon : ∀ s, C.is_open (C.abandon s) = false) :
    (self.iter.error C ≠ error_code.SUCCESS →
      (self.operator_star C).1 = simdjson_result.of_error (self.iter.error C) ∧
      (self.operator_star C).2.iter.calls = self.iter.calls ++ [cursor_call.abandon]) ∧
    (self.iter.error C = error_code.SUCCESS →
      (self.operator_star C).1 = (C.field_start self.iter.state).1) ∧
    ((self.operator_star C).1.error ≠ error_code.SUCCESS →
      (self.operator_star C).2.iter.is_open C = false ∧
      ∃ cs, (self.operator_star C).2.iter.calls = cs ++ [cursor_call.abandon]) ∧
    ((self.operator_star C).1.error = error_code.SUCCESS →
      (self.operator_star C).2.iter.state = (C.field_start self.iter.state).2 ∧
      (self.operator_star C).2.iter.calls = self.iter.calls ++ [cursor_call.field_start]) := by
  by_cases he : self.iter.error C = error_code.SUCCESS
  · by_cases hr : (C.field_start self.iter.state).1.error = error_code.SUCCESS
    · simp [object_iterator.operator_star, he, hr, value_iterator.field_start]
    · simp [object_iterator.operator_star, he, hr, value_iterator.field_start,
        value_iterator.abandon, value_iterator.is_open, habandon]
      exact ⟨self.iter.calls ++ [cursor_call.field_start], by simp⟩
  · simp [object_iterator.operator_star, he, value_iterator.abandon, value_iterator.is_open,
      habandon, simdjson_result.of_error, simdjson_result.error]

/-- The dereference over `{1:2}`: the key is not a string, and the cursor is closed afterwards. -/
theorem operator_star_spec_witness :
    (∀ s, json_ops.is_open (json_ops.abandon s) = false) ∧
    ((object_iterator.operator_star json_ops (iterator_over [token.scalar 1, token.colon,
        token.scalar 2, token.rbrace])).1.error = error_code.INCORRECT_TYPE ∧
      (object_iterator.operator_star json_ops (iterator_over [token.scalar 1, token.colon,
        token.scalar 2, token.rbrace])).2.iter.is_open json_ops = false) :=
  ⟨json_ops_contract.abandon_closes,
    by decide,
    ((operator_star_spec json_ops (iterator_over [token.scalar 1, token.colon,
        token.scalar 2, token.rbrace]) json_ops_contract.abandon_closes).2.2.1 (by decide)).1⟩

/-- C4: for every cursor that meets the contract and every open iterator, if
`finish_child` or `has_next_field` fails with `E` during `operator++`, then
`operator++` stops there (after a failing `finish_child` no `has_next_field` is
called) without calling `abandon`, and `it != end` is still true; the next
`operator*` returns exactly `E`, calling only `abandon`, after which `it != end` is
false.  So the loop `while (it != end) { *it; ++it; }` yields `E` exactly once. -/
theorem operator_inc_error_yielded_once {σ φ : Type} [Inhabited φ] (C : cursor_ops σ φ)
    (hC : cursor_contract C) (self end_it : object_iterator σ) (E : error_code)
    (hopen : self.iter.is_open C = true) (hE : E ≠ error_code.SUCCESS)
    (hfail : (C.finish_child self.iter.state).1 = E ∨
      ((C.finish_child self.iter.state).1 = error_code.SUCCESS ∧
        (C.has_next_field (C.finish_child self.iter.state).2).1.error = E)) :
    ((C.finish_child self.iter.state).1 = E →
      (self.operator_inc C).iter.calls = self.iter.calls ++ [cursor_call.finish_child]) ∧
    ((C.finish_child self.iter.state).1 = error_code.SUCCESS →
      (self.operator_inc C).iter.calls =
        self.iter.calls ++ [cursor_call.finish_child, cursor_call.has_next_field]) ∧
    (self.operator_inc C).operator_ne C end_it = true ∧
    ((self.operator_inc C).operator_star C).1 = simdjson_result.of_error E ∧
    ((self.operator_inc C).operator_star C).2.iter.calls =
      (self.operator_inc C).iter.calls ++ [cursor_call.abandon] ∧
    ((self.operator_inc C).operator_star C).2.operator_ne C end_it = false ∧
    iterate C end_it 1 (self.operator_inc C) =
      some ([simdjson_result.of_error E], ((self.operator_inc C).operator_star C).2) := by
  have hopen1 : C.is_open self.iter.state = true := hopen
  -- the state `operator++` leaves: open, carrying `E`
  have key : C.is_open (self.operator_inc C).iter.state = true ∧
      C.error (self.operator_inc C).iter.state = E := by
    rcases hfail with hf | ⟨hf, hn⟩
    · have hne : (C.finish_child self.iter.state).1 ≠ error_code.SUCCESS := by rw [hf]; exact hE
      have h1 := hC.finish_child_records _ hne
      have h2 := hC.finish_child_open _ hopen1
      simp only [object_iterator.operator_inc, value_iterator.is_open, hopen1,
        value_iterator.finish_child, hne]
      rw [hf] at h1
      simp [h1, h2, hf, hE]
    · have hne : (C.has_next_field (C.finish_child self.iter.state).2).1.error ≠
          error_code.SUCCESS := by rw [hn]; exact hE
      have h2 := hC.finish_child_open _ hopen1
      have h3 := hC.has_next_field_records _ hne
      have h4 := hC.has_next_field_open _ h2 hne
      simp only [object_iterator.operator_inc, value_iterator.is_open, hopen1,
        value_iterator.finish_child, value_iterator.has_next_field]
      rw [hn] at h3
      simp [hf, h3, h4, hn, hE]
  obtain ⟨ko, ke⟩ := key
  obtain ⟨hstar, hloop⟩ :=
    pending_error_yielded_once C hC.abandon_closes (self.operator_inc C) end_it E ko ke hE
  have hclosed : C.is_open ((self.operator_inc C).iter.abandon C).state = false :=
    hC.abandon_closes _
  refine ⟨?_, ?_, ko, ?_, ?_, ?_, hloop⟩
  · intro hf
    have hne : (C.finish_child self.iter.state).1 ≠ error_code.SUCCESS := by rw [hf]; exact hE
    simp [object_iterator.operator_inc, value_iterator.is_open, hopen1,
      value_iterator.finish_child, hne]
  · intro hf
    simp [object_iterator.operator_inc, value_iterator.is_open, hopen1,
      value_iterator.finish_child, value_iterator.has_next_field, hf]
  · rw [hstar]
  · rw [hstar]; rfl
  · rw [hstar]; exact hclosed

/-- The increment over `{"a":1 "b":2}` after the first dereference: `has_next_field` finds no
comma. -/
theorem operator_inc_error_yielded_once_witness :
    (object_iterator.operator_star json_ops (iterator_over tokens_missing_comma)).2.iter.is_open
        json_ops = true ∧
    error_code.TAPE_ERROR ≠ error_code.SUCCESS ∧
    ((object_iterator.operator_star json_ops (iterator_over tokens_missing_comma)).2.operator_inc
        json_ops).operator_ne json_ops (iterator_over []) = true ∧
    iterate json_ops (iterator_over []) 1
        ((object_iterator.operator_star json_ops
          (iterator_over tokens_missing_comma)).2.operator_inc json_ops) =
      some ([simdjson_result.of_error error_code.TAPE_ERROR],
        (((object_iterator.operator_star json_ops
          (iterator_over tokens_missing_comma)).2.operator_inc json_ops).operator_star
            json_ops).2) :=
  ⟨by decide, by decide,
    (operator_inc_error_yielded_once json_ops json_ops_contract
      (object_iterator.operator_star json_ops (iterator_over tokens_missing_comma)).2
      (iterator_over []) error_code.TAPE_ERROR (by decide) (by decide)
      (Or.inr ⟨by decide, by decide⟩)).2.2.1,
    (operator_inc_error_yielded_once json_ops json_ops_contract
      (object_iterator.operator_star json_ops (iterator_over tokens_missing_comma)).2
      (iterator_over []) error_code.TAPE_ERROR (by decide) (by decide)
      (Or.inr ⟨by decide, by decide⟩)).2.2.2.2.2.2⟩

/-- C5, the code at a chained error: `operator*` on a result that carries
NO_SUCH_FIELD returns a result whose error is SUCCESS, not NO_SUCH_FIELD, because
`second = SUCCESS` runs before `error()` is read for the return value; the
adaptor carries SUCCESS afterwards. -/
theorem result_operator_star_loses_error :
    (simdjson_result.operator_star json_ops (chained_error error_code.NO_SUCH_FIELD)).1.error =
        error_code.SUCCESS ∧
      (simdjson_result.operator_star json_ops (chained_error error_code.NO_SUCH_FIELD)).1 =
        simdjson_result.of_error error_code.SUCCESS ∧
      (simdjson_result.operator_star json_ops
        (chained_error error_code.NO_SUCH_FIELD)).2.error = error_code.SUCCESS := by
  decide

/-- C6, the code at a chained error: a result that carries NO_SUCH_FIELD and was
neither dereferenced nor advanced compares equal to the end (`operator!=` is
false, `operator==` is true), so a loop over it yields nothing. -/
theorem result_operator_ne_false_on_error :
    simdjson_result.operator_ne json_ops (chained_error error_code.NO_SUCH_FIELD)
        (chained_error error_code.SUCCESS) = false ∧
      simdjson_result.operator_eq json_ops (chained_error error_code.NO_SUCH_FIELD)
        (chained_error error_code.SUCCESS) = true := by
  decide

/-- C7, the code at a failing `skip_child`: over the truncated document `{"a":[1`
the lookup of `"b"` reads the key `"a"` and its colon, and `skip_child` fails at
the end of the input; `find_field_raw` returns that TAPE_ERROR with `skip_child`
as the last call, without `abandon`, and the cursor is still open. -/
theorem find_field_raw_skip_child_error_not_abandoned :
    (object_iterator.find_field_raw json_ops 1 (iterator_over tokens_unclosed_array) key_b).map
        (fun r => (r.1, r.2.iter.calls, r.2.iter.is_open json_ops)) =
      some (error_code.TAPE_ERROR,
        [cursor_call.field_key, cursor_call.field_value, cursor_call.skip_child], true) := by
  decide

/-- C8, as stated, fails: over `{"a":1 "b":2}`, after `*it; ++it; *it` the cursor is
abandoned with the pending error TAPE_ERROR, and `find_field_raw` on it returns
NO_SUCH_FIELD, not TAPE_ERROR. -/
theorem find_field_raw_on_abandoned_cursor :
    iterator_after_missing_comma.iter.is_open json_ops = false ∧
      iterator_after_missing_comma.iter.error json_ops = error_code.TAPE_ERROR ∧
      object_iterator.find_field_raw json_ops 0 iterator_after_missing_comma key_b =
        some (error_code.NO_SUCH_FIELD, iterator_after_missing_comma) := by
  decide

/-- C8, amended: once the cursor is closed with the pending error `E`, `operator*`
returns `E` and calls only `abandon`, which leaves the cursor closed and carrying
`E`; `operator++` changes nothing; `find_field_raw` with any key returns
NO_SUCH_FIELD and changes nothing.  None of them calls `finish_child`,
`has_next_field`, `field_key`, `field_value`, `skip_child` or `field::start`. -/
theorem closed_cursor_short_circuits {σ φ : Type} [Inhabited φ] (C : cursor_ops σ φ)
    (self : object_iterator σ) (E : error_code)
    (habandon : ∀ s, C.is_open (C.abandon s) = false)
    (hkeep : ∀ s, C.error (C.abandon s) = C.error s)
    (hclosed : self.iter.is_open C = false) (herr : self.iter.error C = E)
    (hE : E ≠ error_code.SUCCESS) :
    ((self.operator_star C).1 = simdjson_result.of_error E ∧
      (self.operator_star C).2.iter.calls = self.iter.calls ++ [cursor_call.abandon] ∧
      (self.operator_star C).2.iter.is_open C = false ∧
      (self.operator_star C).2.iter.error C = E) ∧
    self.operator_inc C = self ∧
    ∀ (fuel : Nat) (key : raw_json_string),
      self.find_field_raw C fuel key = some (error_code.NO_SUCH_FIELD, self) := by
  have hclosed1 : C.is_open self.iter.state = false := hclosed
  have herr1 : C.error self.iter.state = E := herr
  refine ⟨?_, ?_, ?_⟩
  · simp [object_iterator.operator_star, value_iterator.error, herr1, hE,
      value_iterator.abandon, value_iterator.is_open, habandon, hkeep]
  · simp [object_iterator.operator_inc, value_iterator.is_open, hclosed1]
  · intro fuel key
    simp [object_iterator.find_field_raw, value_iterator.is_open, hclosed1]

/-- The operations on the cursor abandoned over `{"a":1 "b":2}`. -/
theorem closed_cursor_short_circuits_witness :
    (∀ s, json_ops.is_open (json_ops.abandon s) = false) ∧
    (∀ s, json_ops.error (json_ops.abandon s) = json_ops.error s) ∧
    iterator_after_missing_comma.iter.is_open json_ops = false ∧
    iterator_after_missing_comma.iter.error json_ops = error_code.TAPE_ERROR ∧
    error_code.TAPE_ERROR ≠ error_code.SUCCESS ∧
    ((iterator_after_missing_comma.operator_star json_ops).1 =
        simdjson_result.of_error error_code.TAPE_ERROR ∧
      (iterator_after_missing_comma.operator_star json_ops).2.iter.calls =
        iterator_after_missing_comma.iter.calls ++ [cursor_call.abandon] ∧
      (iterator_after_missing_comma.operator_star json_ops).2.iter.is_open json_ops = false ∧
      (iterator_after_missing_comma.operator_star json_ops).2.iter.error json_ops =
        error_code.TAPE_ERROR) ∧
    iterator_after_missing_comma.operator_inc json_ops = iterator_after_missing_comma ∧
    ∀ (fuel : Nat) (key : raw_json_string),
      iterator_after_missing_comma.find_field_raw json_ops fuel key =
        some (error_code.NO_SUCH_FIELD, iterator_after_missing_comma) :=
  ⟨json_ops_contract.abandon_closes, json_ops_contract.abandon_keeps_error, by decide,
    by decide, by decide,
    closed_cursor_short_circuits json_ops iterator_after_missing_comma error_code.TAPE_ERROR
      json_ops_contract.abandon_closes json_ops_contract.abandon_keeps_error (by decide)
      (by decide) (by decide)⟩

/-- C9, as stated, fails: over `{"a":1,"b":2,"a":3}` the key `"a"` occurs before the
scan position reached by `find_field_raw("b")`, and the next `find_field_raw("a")`
returns SUCCESS, at the third field. -/
theorem find_field_raw_finds_later_duplicate :
    object_iterator.find_field_raw json_ops 3 (fresh 1 [] fields_aba) key_b =
        some (error_code.SUCCESS, iterator_after_find_b) ∧
      (object_iterator.find_field_raw json_ops 3 iterator_after_find_b key_a).map
          (fun r => (r.1, r.2.iter.state)) =
        some (error_code.SUCCESS, (position.value (json_value.scalar 3) []).cursor 1 []) := by
  decide

/-- C9, amended: over a well-formed object, after any sequence of lookups on a
freshly constructed iterator (the caller reading a matched value or not),
`find_field_raw(k)` with a key `k` that no field after the scan position has (in
particular a key that occurs only before it) returns NO_SUCH_FIELD; it reads
exactly the keys of the fields not scanned before, once each. -/
theorem find_field_raw_no_rescan (d : Int) (outer : List token)
    (fs : List (raw_json_string × json_value)) (qs : List (raw_json_string × Bool))
    (k : raw_json_string) (fuel : Nat) (hfuel : fs.length ≤ fuel)
    (hk : ∀ f ∈ unscanned_after fs (qs.map Prod.fst), f.1 ≠ k) :
    ∃ es it it1 cs, lookups fuel qs (fresh d outer fs) = some (es, it) ∧
      object_iterator.find_field_raw json_ops fuel it k = some (error_code.NO_SUCH_FIELD, it1) ∧
      it1.iter.calls = it.iter.calls ++ cs ∧
      cs.count cursor_call.field_key = (unscanned_after fs (qs.map Prod.fst)).length ∧
      cursor_call.abandon ∉ cs := by
  obtain ⟨h0, hu, _⟩ := fresh_at_position d outer fs
  obtain ⟨es, it, p, h1, h2, h3⟩ :=
    lookups_at_position d outer fuel qs (fresh d outer fs) (position.of_fields fs) h0
      (by rw [hu]; exact hfuel)
  rw [hu] at h3
  have hlen : p.unscanned.length ≤ fuel := by
    rw [h3]
    exact le_trans (unscanned_after_length _ fs) hfuel
  obtain ⟨it1, h4, _, h6⟩ := find_field_raw_step d outer k it p fuel h2 hlen
  have hnone : lookup_from k p.unscanned = none := by
    rw [lookup_from_none, h3]
    exact hk
  have hcalls := scan_calls_none k p.unscanned hnone
  refine ⟨es, it, it1, p.entry_calls ++ scan_calls k p.unscanned, h1, ?_, h6, ?_, ?_⟩
  · simpa [lookup_code, hnone] using h4
  · rw [← h3, List.count_append, hcalls.1]
    cases p <;> simp [position.entry_calls, List.count_cons]
  · cases p <;> simp [position.entry_calls, hcalls.2]

/-- The lookup of `"a"` after the lookup of `"b"` over `{"a":1,"b":2}`. -/
theorem find_field_raw_no_rescan_witness :
    fields_ab.length ≤ 2 ∧
    (∀ f ∈ unscanned_after fields_ab (List.map Prod.fst [(key_b, false)]), f.1 ≠ key_a) ∧
    ∃ es it it1 cs, lookups 2 [(key_b, false)] (fresh 1 [] fields_ab) = some (es, it) ∧
      object_iterator.find_field_raw json_ops 2 it key_a =
        some (error_code.NO_SUCH_FIELD, it1) ∧
      it1.iter.calls = it.iter.calls ++ cs ∧
      cs.count cursor_call.field_key =
        (unscanned_after fields_ab (List.map Prod.fst [(key_b, false)])).length ∧
      cursor_call.abandon ∉ cs :=
  ⟨by decide, by simp [unscanned_after, drop_through, lookup_from, fields_ab, key_a, key_b],
    find_field_raw_no_rescan 1 [] fields_ab [(key_b, false)] key_a 2 (by decide)
      (by simp [unscanned_after, drop_through, lookup_from, fields_ab, key_a, key_b])⟩

/-- C10: over a well-formed object in which a field with the key `k1` precedes a
field with a different key `k2`, `find_field_raw(k1)` and then `find_field_raw(k2)`
on a freshly constructed iterator both return SUCCESS, whether or not the caller
read the value matched first; the second lookup starts with `finish_child` and
`has_next_field`. -/
theorem find_field_raw_twice_in_order (d : Int) (outer : List token)
    (pre mid post : List (raw_json_string × json_value)) (k1 k2 : raw_json_string)
    (v1 v2 : json_value) (consume : Bool) (fuel : Nat)
    (hfuel : (pre ++ (k1, v1) :: (mid ++ (k2, v2) :: post)).length ≤ fuel) :
    ∃ it1 it2 cs,
      object_iterator.find_field_raw json_ops fuel
          (fresh d outer (pre ++ (k1, v1) :: (mid ++ (k2, v2) :: post))) k1 =
        some (error_code.SUCCESS, it1) ∧
      object_iterator.find_field_raw json_ops fuel
          (if consume = true then caller_reads_value it1 else it1) k2 =
        some (error_code.SUCCESS, it2) ∧
      it2.iter.calls =
        it1.iter.calls ++ [cursor_call.finish_child, cursor_call.has_next_field] ++ cs := by
  obtain ⟨h0, hu, _⟩ :=
    fresh_at_position d outer (pre ++ (k1, v1) :: (mid ++ (k2, v2) :: post))
  obtain ⟨r, pre1, hr, hr2⟩ := lookup_from_of_mem k1 v1 (mid ++ (k2, v2) :: post) pre
  obtain ⟨it1, h1, h2, _⟩ :=
    find_field_raw_step d outer k1 _ _ fuel h0 (by rw [hu]; exact hfuel)
  rw [hu] at h1 h2
  have hlen : r.2.length ≤ fuel :=
    le_trans (lookup_from_length k1 _ r hr) hfuel
  have hv : at_position d outer it1 (position.value r.1 r.2) := by
    simpa [position_after_lookup, hr] using h2
  obtain ⟨r2, _, hr2b, _⟩ := lookup_from_of_mem k2 v2 post (pre1 ++ mid)
  have hr3 : lookup_from k2 r.2 = some r2 := by
    rw [hr2]
    simpa using hr2b
  have hcode : lookup_code k2 r.2 = error_code.SUCCESS := by simp [lookup_code, hr3]
  cases consume with
  | false =>
    obtain ⟨it2, h4, _, h6⟩ :=
      find_field_raw_step d outer k2 it1 (position.value r.1 r.2) fuel hv hlen
    refine ⟨it1, it2, scan_calls k2 r.2, ?_, ?_, ?_⟩
    · simpa [lookup_code, hr] using h1
    · simpa [position.unscanned, hcode] using h4
    · simpa [position.entry_calls, position.unscanned] using h6
  | true =>
    obtain ⟨hn, hc⟩ := caller_reads_value_at_value d outer it1 r.1 r.2 hv
    obtain ⟨it2, h4, _, h6⟩ :=
      find_field_raw_step d outer k2 (caller_reads_value it1) (position.next r.2) fuel hn hlen
    refine ⟨it1, it2, scan_calls k2 r.2, ?_, ?_, ?_⟩
    · simpa [lookup_code, hr] using h1
    · simpa [position.unscanned, hcode] using h4
    · rw [hc] at h6
      simpa [position.entry_calls, position.unscanned] using h6

/-- The lookups of `"a"` and `"b"` over `{"a":[1],"c":7,"b":2}`, the array left unread. -/
theorem find_field_raw_twice_in_order_witness :
    ([] ++ (key_a, json_value.array [json_value.scalar 1]) ::
        ([(key_c, json_value.scalar 7)] ++ (key_b, json_value.scalar 2) :: [])).length ≤ 3 ∧
    ∃ it1 it2 cs,
      object_iterator.find_field_raw json_ops 3
          (fresh 1 [] ([] ++ (key_a, json_value.array [json_value.scalar 1]) ::
            ([(key_c, json_value.scalar 7)] ++ (key_b, json_value.scalar 2) :: []))) key_a =
        some (error_code.SUCCESS, it1) ∧
      object_iterator.find_field_raw json_ops 3
          (if false = true then caller_reads_value it1 else it1) key_b =
        some (error_code.SUCCESS, it2) ∧
      it2.iter.calls =
        it1.iter.calls ++ [cursor_call.finish_child, cursor_call.has_next_field] ++ cs :=
  ⟨by decide,
    find_field_raw_twice_in_order 1 [] [] [(key_c, json_value.scalar 7)] [] key_a key_b
      (json_value.array [json_value.scalar 1]) (json_value.scalar 2) false 3 (by decide)⟩

/-! ### The flag `at_start` and the call log along a lookup -/

theorem find_field_raw_loop_log {σ φ : Type} (C : cursor_ops σ φ) (key : raw_json_string) :
    ∀ (fuel : Nat) (hv : Bool) (self : object_iterator σ) (e : error_code)
      (it1 : object_iterator σ),
      object_iterator.find_field_raw_loop C key fuel hv self = some (e, it1) →
      it1.at_start = self.at_start ∧ ∃ cs, it1.iter.calls = self.iter.calls ++ cs
  | 0, false, self, e, it1, h => by
    simp only [object_iterator.find_field_raw_loop, Option.some.injEq, Prod.mk.injEq] at h
    obtain ⟨_, rfl⟩ := h
    exact ⟨rfl, [], by simp⟩
  | 0, true, self, e, it1, h => by simp [object_iterator.find_field_raw_loop] at h
  | fuel + 1, false, self, e, it1, h => by
    simp only [object_iterator.find_field_raw_loop, Option.some.injEq, Prod.mk.injEq] at h
    obtain ⟨_, rfl⟩ := h
    exact ⟨rfl, [], by simp⟩
  | fuel + 1, true, self, e, it1, h => by
    simp only [object_iterator.find_field_raw_loop] at h
    split at h
    · simp only [Option.some.injEq, Prod.mk.injEq] at h
      obtain ⟨_, rfl⟩ := h
      exact ⟨rfl, _, by simp [value_iterator.abandon, value_iterator.field_key]; rfl⟩
    · split at h
      · simp only [Option.some.injEq, Prod.mk.injEq] at h
        obtain ⟨_, rfl⟩ := h
        exact ⟨rfl, _, by
          simp [value_iterator.abandon, value_iterator.field_key, value_iterator.field_value]
          rfl⟩
      · split at h
        · simp only [Option.some.injEq, Prod.mk.injEq] at h
          obtain ⟨_, rfl⟩ := h
          exact ⟨rfl, _, by
            simp [value_iterator.field_key, value_iterator.field_value]
            rfl⟩
        · split at h
          · simp only [Option.some.injEq, Prod.mk.injEq] at h
            obtain ⟨_, rfl⟩ := h
            exact ⟨rfl, _, by
              simp [value_iterator.field_key, value_iterator.field_value,
                value_iterator.skip_child]
              rfl⟩
          · split at h
            · simp only [Option.some.injEq, Prod.mk.injEq] at h
              obtain ⟨_, rfl⟩ := h
              exact ⟨rfl, _, by
                simp [value_iterator.abandon, value_iterator.field_key,
                  value_iterator.field_value, value_iterator.skip_child,
                  value_iterator.has_next_field]
                rfl⟩
            · obtain ⟨h1, cs, h2⟩ := find_field_raw_loop_log C key fuel _ _ e it1 h
              refine ⟨h1, [cursor_call.field_key, cursor_call.field_value,
                cursor_call.skip_child, cursor_call.has_next_field] ++ cs, ?_⟩
              rw [h2]
              simp [value_iterator.field_key, value_iterator.field_value,
                value_iterator.skip_child, value_iterator.has_next_field]

theorem find_field_raw_loop_first_call {σ φ : Type} (C : cursor_ops σ φ) (key : raw_json_string)
    (fuel : Nat) (self : object_iterator σ) (e : error_code) (it1 : object_iterator σ)
    (h : object_iterator.find_field_raw_loop C key fuel true self = some (e, it1)) :
    ∃ cs, it1.iter.calls = self.iter.calls ++ cursor_call.field_key :: cs := by
  cases fuel with
  | zero => simp [object_iterator.find_field_raw_loop] at h
  | succ fuel =>
    simp only [object_iterator.find_field_raw_loop] at h
    split at h
    · simp only [Option.some.injEq, Prod.mk.injEq] at h
      obtain ⟨_, rfl⟩ := h
      exact ⟨[cursor_call.abandon], by simp [value_iterator.abandon, value_iterator.field_key]⟩
    · split at h
      · simp only [Option.some.injEq, Prod.mk.injEq] at h
        obtain ⟨_, rfl⟩ := h
        exact ⟨[cursor_call.field_value, cursor_call.abandon], by
          simp [value_iterator.abandon, value_iterator.field_key, value_iterator.field_value]⟩
      · split at h
        · simp only [Option.some.injEq, Prod.mk.injEq] at h
          obtain ⟨_, rfl⟩ := h
          exact ⟨[cursor_call.field_value], by
            simp [value_iterator.field_key, value_iterator.field_value]⟩
        · split at h
          · simp only [Option.some.injEq, Prod.mk.injEq] at h
            obtain ⟨_, rfl⟩ := h
            exact ⟨[cursor_call.field_value, cursor_call.skip_child], by
              simp [value_iterator.field_key, value_iterator.field_value,
                value_iterator.skip_child]⟩
          · split at h
            · simp only [Option.some.injEq, Prod.mk.injEq] at h
              obtain ⟨_, rfl⟩ := h
              exact ⟨[cursor_call.field_value, cursor_call.skip_child,
                cursor_call.has_next_field, cursor_call.abandon], by
                simp [value_iterator.abandon, value_iterator.field_key,
                  value_iterator.field_value, value_iterator.skip_child,
                  value_iterator.has_next_field]⟩
            · obtain ⟨_, cs, h2⟩ := find_field_raw_loop_log C key fuel _ _ e it1 h
              refine ⟨[cursor_call.field_value, cursor_call.skip_child,
                cursor_call.has_next_field] ++ cs, ?_⟩
              rw [h2]
              simp [value_iterator.field_key, value_iterator.field_value,
                value_iterator.skip_child, value_iterator.has_next_field]

theorem find_field_raw_at_start_false {σ φ : Type} (C : cursor_ops σ φ) (key : raw_json_string)
    (fuel : Nat) (self : object_iterator σ) (e : error_code) (it1 : object_iterator σ)
    (ho : self.iter.is_open C = true)
    (h : self.find_field_raw C fuel key = some (e, it1)) : it1.at_start = false := by
  have ho1 : C.is_open self.iter.state = true := ho
  simp only [object_iterator.find_field_raw, value_iterator.is_open, ho1, Bool.not_true,
    Bool.false_eq_true, if_false] at h
  by_cases hs : self.at_start = true
  · simp only [hs, if_true] at h
    exact (find_field_raw_loop_log C key fuel true _ e it1 h).1
  · have hs0 : self.at_start = false := by simpa using hs
    simp only [hs0, Bool.false_eq_true, if_false] at h
    split at h
    · simp only [Option.some.injEq, Prod.mk.injEq] at h
      obtain ⟨_, rfl⟩ := h
      rfl
    · split at h
      · simp only [Option.some.injEq, Prod.mk.injEq] at h
        obtain ⟨_, rfl⟩ := h
        rfl
      · exact (find_field_raw_loop_log C key fuel _ _ e it1 h).1

theorem operator_inc_at_start {σ φ : Type} (C : cursor_ops σ φ) (self : object_iterator σ) :
    (self.operator_inc C).at_start = self.at_start := by
  unfold object_iterator.operator_inc
  simp only []
  split
  · rfl
  · split
    · rfl
    · split <;> rfl

theorem operator_star_at_start {σ φ : Type} [Inhabited φ] (C : cursor_ops σ φ)
    (self : object_iterator σ) : (self.operator_star C).2.at_start = self.at_start := by
  unfold object_iterator.operator_star
  simp only []
  split
  · rfl
  · split <;> rfl

theorem loop_steps_at_start {σ φ : Type} [Inhabited φ] (C : cursor_ops σ φ) :
    ∀ (ops : List Bool) (self : object_iterator σ),
      (loop_steps C ops self).at_start = self.at_start
  | [], self => rfl
  | true :: ops, self => by
    rw [loop_steps, loop_steps_at_start C ops, operator_star_at_start]
  | false :: ops, self => by
    rw [loop_steps, loop_steps_at_start C ops, operator_inc_at_start]

/-- C13: for every cursor, `operator++` on an iterator whose cursor is closed
returns the iterator as it is (cursor state, with depth, error and openness, call
log and `at_start` unchanged, so no cursor operation is called), and so does any
number of applications; `operator++` on a `simdjson_result<object_iterator>` that
carries an error returns it as it is, too. -/
theorem operator_inc_closed_noop {σ φ : Type} (C : cursor_ops σ φ)
    (self : object_iterator σ) (r : simdjson_result (object_iterator σ)) (n : Nat) :
    (self.iter.is_open C = false →
      self.operator_inc C = self ∧ (object_iterator.operator_inc C)^[n] self = self) ∧
    (r.error ≠ error_code.SUCCESS →
      simdjson_result.operator_inc C r = r ∧ (simdjson_result.operator_inc C)^[n] r = r) := by
  constructor
  · intro h
    have h1 : self.operator_inc C = self := by
      simp [object_iterator.operator_inc, h]
    exact ⟨h1, Function.iterate_fixed h1 n⟩
  · intro h
    have h1 : simdjson_result.operator_inc C r = r := by
      simp [simdjson_result.operator_inc, h]
    exact ⟨h1, Function.iterate_fixed h1 n⟩

/-- The increment on the cursor abandoned over `{"a":1 "b":2}` and on a chained error. -/
theorem operator_inc_closed_noop_witness :
    iterator_after_missing_comma.iter.is_open json_ops = false ∧
    (chained_error error_code.NO_SUCH_FIELD).error ≠ error_code.SUCCESS ∧
    (iterator_after_missing_comma.operator_inc json_ops = iterator_after_missing_comma ∧
      (object_iterator.operator_inc json_ops)^[3] iterator_after_missing_comma =
        iterator_after_missing_comma) ∧
    (simdjson_result.operator_inc json_ops (chained_error error_code.NO_SUCH_FIELD) =
        chained_error error_code.NO_SUCH_FIELD ∧
      (simdjson_result.operator_inc json_ops)^[3] (chained_error error_code.NO_SUCH_FIELD) =
        chained_error error_code.NO_SUCH_FIELD) :=
  ⟨by decide, by decide,
    (operator_inc_closed_noop json_ops iterator_after_missing_comma
      (chained_error error_code.NO_SUCH_FIELD) 3).1 (by decide),
    (operator_inc_closed_noop json_ops iterator_after_missing_comma
      (chained_error error_code.NO_SUCH_FIELD) 3).2 (by decide)⟩

/-- C17: for all iterators `a` and `b`, `a != b` is `is_open()` of the cursor of
`a`, whatever `b` is, and `a == b` is its negation; for all results `ra` and `rb`,
`ra == rb` is the negation of `ra != rb`, and when `ra` carries no error both
agree with the comparison of the wrapped iterators. -/
theorem comparison_spec {σ φ : Type} (C : cursor_ops σ φ) (a b : object_iterator σ)
    (ra rb : simdjson_result (object_iterator σ)) :
    a.operator_ne C b = a.iter.is_open C ∧
    a.operator_eq C b = !(a.operator_ne C b) ∧
    simdjson_result.operator_eq C ra rb = !(simdjson_result.operator_ne C ra rb) ∧
    (ra.error = error_code.SUCCESS →
      simdjson_result.operator_ne C ra rb = ra.first.operator_ne C rb.first ∧
      simdjson_result.operator_eq C ra rb = ra.first.operator_eq C rb.first) := by
  refine ⟨rfl, rfl, ?_, ?_⟩
  · by_cases h : ra.error = error_code.SUCCESS <;>
      simp [simdjson_result.operator_eq, simdjson_result.operator_ne, h,
        object_iterator.operator_eq]
  · intro h
    simp [simdjson_result.operator_eq, simdjson_result.operator_ne, h]

/-- The comparisons of a freshly constructed iterator over `{"a":1,"b":2}`, wrapped in a result
without error. -/
theorem comparison_spec_witness :
    (simdjson_result.of_value (fresh 1 [] fields_ab)).error = error_code.SUCCESS ∧
    simdjson_result.operator_ne json_ops (simdjson_result.of_value (fresh 1 [] fields_ab))
        (chained_error error_code.SUCCESS) =
      (fresh 1 [] fields_ab).operator_ne json_ops (chained_error error_code.SUCCESS).first ∧
    simdjson_result.operator_eq json_ops (simdjson_result.of_value (fresh 1 [] fields_ab))
        (chained_error error_code.SUCCESS) =
      (fresh 1 [] fields_ab).operator_eq json_ops (chained_error error_code.SUCCESS).first :=
  ⟨rfl,
    (comparison_spec json_ops (fresh 1 [] fields_ab) (fresh 1 [] fields_ab)
      (simdjson_result.of_value (fresh 1 [] fields_ab))
      (chained_error error_code.SUCCESS)).2.2.2 rfl⟩

/-- C19: for every cursor, `at_start` is true after construction; `operator*` and
`operator++` leave it unchanged (`operator==` and `operator!=` are read-only), and
so does `find_field_raw` on a closed cursor, which returns the iterator as it is;
`find_field_raw` on an open cursor returns with `at_start` false; no operation
sets it back from false to true.  So an iterator that was only dereferenced and
advanced with `operator++` since construction still has `at_start` set, and
`find_field_raw` on it, if the cursor is open, calls `field_key` first, with no
`finish_child` or `has_next_field` before it. -/
theorem at_start_spec {σ φ : Type} [Inhabited φ] (C : cursor_ops σ φ)
    (c : value_iterator σ) (self : object_iterator σ) (key : raw_json_string)
    (fuel : Nat) (ops : List Bool) :
    (object_iterator.ctor c).at_start = true ∧
    (self.operator_star C).2.at_start = self.at_start ∧
    (self.operator_inc C).at_start = self.at_start ∧
    (self.iter.is_open C = false →
      self.find_field_raw C fuel key = some (error_code.NO_SUCH_FIELD, self)) ∧
    (self.iter.is_open C = true → ∀ e it1,
      self.find_field_raw C fuel key = some (e, it1) → it1.at_start = false) ∧
    (self.at_start = false → ∀ e it1,
      self.find_field_raw C fuel key = some (e, it1) → it1.at_start = false) ∧
    (loop_steps C ops (object_iterator.ctor c)).at_start = true ∧
    ((loop_steps C ops (object_iterator.ctor c)).iter.is_open C = true →
      ∀ e it1,
        (loop_steps C ops (object_iterator.ctor c)).find_field_raw C fuel key = some (e, it1) →
        ∃ cs, it1.iter.calls =
          (loop_steps C ops (object_iterator.ctor c)).iter.calls ++
            cursor_call.field_key :: cs) := by
  have hn : (loop_steps C ops (object_iterator.ctor c)).at_start = true :=
    loop_steps_at_start C ops _
  refine ⟨rfl, operator_star_at_start C self, operator_inc_at_start C self, ?_, ?_, ?_, hn, ?_⟩
  · intro h
    simp [object_iterator.find_field_raw, h]
  · intro ho e it1 h
    exact find_field_raw_at_start_false C key fuel self e it1 ho h
  · intro hs e it1 h
    by_cases ho : self.iter.is_open C = true
    · exact find_field_raw_at_start_false C key fuel self e it1 ho h
    · have ho0 : self.iter.is_open C = false := by simpa using ho
      simp only [object_iterator.find_field_raw, ho0, Bool.not_false, if_true,
        Option.some.injEq, Prod.mk.injEq] at h
      obtain ⟨_, rfl⟩ := h
      exact hs
  · intro ho e it1 h
    have ho1 : C.is_open (loop_steps C ops (object_iterator.ctor c)).iter.state = true := ho
    simp only [object_iterator.find_field_raw, value_iterator.is_open, ho1, Bool.not_true,
      Bool.false_eq_true, if_false, hn, if_true] at h
    exact find_field_raw_loop_first_call C key fuel
      ⟨(loop_steps C ops (object_iterator.ctor c)).iter, false⟩ e it1 h

/-- The lookup of `"b"` over `{"a":1,"b":2}` after `*it; ++it` on a freshly
constructed iterator: it returns SUCCESS and its first call is `field_key`. -/
theorem at_start_spec_witness :
    (loop_steps json_ops [true, false] (object_iterator.ctor (fresh 1 [] fields_ab).iter)).iter.is_open
        json_ops = true ∧
    ((loop_steps json_ops [true, false]
        (object_iterator.ctor (fresh 1 [] fields_ab).iter)).find_field_raw json_ops 2 key_b).map
      Prod.fst = some error_code.SUCCESS ∧
    (∀ e it1,
      (loop_steps json_ops [true, false]
        (object_iterator.ctor (fresh 1 [] fields_ab).iter)).find_field_raw json_ops 2 key_b =
          some (e, it1) →
      ∃ cs, it1.iter.calls =
        (loop_steps json_ops [true, false]
          (object_iterator.ctor (fresh 1 [] fields_ab).iter)).iter.calls ++
            cursor_call.field_key :: cs) :=
  ⟨by decide, by decide,
    (at_start_spec json_ops (fresh 1 [] fields_ab).iter (fresh 1 [] fields_ab) key_b 2
      [true, false]).2.2.2.2.2.2.2 (by decide)⟩

/-! ### A missing comma -/

theorem loop_steps_abandoned (c : json_cursor) (E : error_code)
    (hc : c.is_open = false) (he : c.error = E) (hE : E ≠ error_code.SUCCESS)
    (hab : c.abandon = c) :
    ∀ (ops : List Bool) (it : object_iterator json_cursor), it.iter.state = c →
      (loop_steps json_ops ops it).iter.state = c
  | [], it, h => h
  | true :: ops, it, h => by
    rw [loop_steps]
    apply loop_steps_abandoned c E hc he hE hab ops
    have hce : ¬ c.error = error_code.SUCCESS := by rw [he]; exact hE
    simp [object_iterator.operator_star, value_iterator.error, json_ops, hce,
      value_iterator.abandon, h, hab]
  | false :: ops, it, h => by
    rw [loop_steps]
    apply loop_steps_abandoned c E hc he hE hab ops
    simp [object_iterator.operator_inc, value_iterator.is_open, json_ops, hc, h]

/-- C14, as stated, fails: over `{"a":1 "b":2}` the tape error is there after the
first advance (`++it` after the first dereference records it on the cursor); the
second advance comes after the error was yielded and changes nothing. -/
theorem missing_comma_error_before_second_increment :
    ((object_iterator.operator_star json_ops
        (iterator_over tokens_missing_comma)).2.operator_inc json_ops).iter.error json_ops =
      error_code.TAPE_ERROR ∧
    (object_iterator.operator_star json_ops
        ((object_iterator.operator_star json_ops
          (iterator_over tokens_missing_comma)).2.operator_inc json_ops)).1 =
      simdjson_result.of_error error_code.TAPE_ERROR ∧
    iterator_after_missing_comma.operator_inc json_ops = iterator_after_missing_comma := by
  decide

/-- C14, amended: for an object whose first field is followed by a second key with
no comma in between, iterating from a freshly constructed iterator yields the
first field; the first advance finds the missing comma and records TAPE_ERROR on
the cursor, without returning it, abandoning or closing the cursor; the second
dereference yields TAPE_ERROR and closes the cursor; the second advance changes
nothing, so the loop stops after these two values; every further dereference,
after any dereferences and advances, returns TAPE_ERROR again, with the cursor
closed. -/
theorem missing_comma_found_by_first_increment (d : Int) (k1 : raw_json_string)
    (v1 : json_value) (k2 : raw_json_string) (rest : List token)
    (end_it : object_iterator json_cursor) (fuel : Nat) (ops : List Bool) :
    (object_iterator.operator_star json_ops
        (object_iterator.ctor ⟨missing_comma_cursor d k1 v1 k2 rest, []⟩)).1 =
      simdjson_result.of_value (field.mk k1) ∧
    (object_iterator.operator_star json_ops
        (object_iterator.ctor ⟨missing_comma_cursor d k1 v1 k2 rest, []⟩)).2.operator_inc
        json_ops =
      ⟨⟨missing_comma_pending d rest,
        [cursor_call.field_start, cursor_call.finish_child, cursor_call.has_next_field]⟩,
        true⟩ ∧
    (missing_comma_pending d rest).is_open = true ∧
    object_iterator.operator_star json_ops
        ⟨⟨missing_comma_pending d rest,
          [cursor_call.field_start, cursor_call.finish_child, cursor_call.has_next_field]⟩,
          true⟩ =
      (simdjson_result.of_error error_code.TAPE_ERROR,
        ⟨⟨(missing_comma_pending d rest).abandon,
          [cursor_call.field_start, cursor_call.finish_child, cursor_call.has_next_field,
            cursor_call.abandon]⟩, true⟩) ∧
    (missing_comma_pending d rest).abandon.is_open = false ∧
    iterate json_ops end_it (fuel + 2)
        (object_iterator.ctor ⟨missing_comma_cursor d k1 v1 k2 rest, []⟩) =
      some ([simdjson_result.of_value (field.mk k1),
          simdjson_result.of_error error_code.TAPE_ERROR],
        ⟨⟨(missing_comma_pending d rest).abandon,
          [cursor_call.field_start, cursor_call.finish_child, cursor_call.has_next_field,
            cursor_call.abandon]⟩, true⟩) ∧
    (object_iterator.operator_star json_ops
        (loop_steps json_ops ops
          ⟨⟨(missing_comma_pending d rest).abandon,
            [cursor_call.field_start, cursor_call.finish_child, cursor_call.has_next_field,
              cursor_call.abandon]⟩, true⟩)).1 =
      simdjson_result.of_error error_code.TAPE_ERROR ∧
    (loop_steps json_ops ops
        ⟨⟨(missing_comma_pending d rest).abandon,
          [cursor_call.field_start, cursor_call.finish_child, cursor_call.has_next_field,
            cursor_call.abandon]⟩, true⟩).iter.is_open json_ops = false := by
  have hstart : json_cursor.field_start (missing_comma_cursor d k1 v1 k2 rest) =
      (simdjson_result.of_value (field.mk k1),
        { tokens := v1.tokens ++ token.string k2 :: rest, depth := d + 1, iter_depth := d,
          error := error_code.SUCCESS }) := by
    simp [missing_comma_cursor, json_cursor.field_start, json_cursor.field_key,
      json_cursor.field_value, simdjson_result.of_value, simdjson_result.error]
  have hfinish : json_cursor.finish_child
      { tokens := v1.tokens ++ token.string k2 :: rest, depth := d + 1, iter_depth := d,
        error := error_code.SUCCESS } =
      (error_code.SUCCESS,
        { tokens := token.string k2 :: rest, depth := d, iter_depth := d,
          error := error_code.SUCCESS }) := by
    have hk : json_cursor.at_key (v1.tokens ++ token.string k2 :: rest) = false :=
      at_key_value v1 _ (fun s _ => by simp [json_cursor.at_key])
    simp [json_cursor.finish_child, skip_value d v1 _ hk]
  have hnext : json_cursor.has_next_field
      { tokens := token.string k2 :: rest, depth := d, iter_depth := d,
        error := error_code.SUCCESS } =
      (simdjson_result.of_error error_code.TAPE_ERROR, missing_comma_pending d rest) := by
    simp [json_cursor.has_next_field, json_cursor.report_error, missing_comma_pending]
  have hopen0 : (missing_comma_cursor d k1 v1 k2 rest).is_open = true := by
    simp [missing_comma_cursor, json_cursor.is_open]
  have hopen1 : json_cursor.is_open
      { tokens := v1.tokens ++ token.string k2 :: rest, depth := d + 1, iter_depth := d,
        error := error_code.SUCCESS } = true := by
    simp [json_cursor.is_open]
  have hopen2 : (missing_comma_pending d rest).is_open = true := by
    simp [missing_comma_pending, json_cursor.is_open]
  have hclosed : (missing_comma_pending d rest).abandon.is_open = false := by
    simp [missing_comma_pending, json_cursor.abandon, json_cursor.is_open]
  have hstar0 : object_iterator.operator_star json_ops
      (object_iterator.ctor ⟨missing_comma_cursor d k1 v1 k2 rest, []⟩) =
      (simdjson_result.of_value (field.mk k1),
        ⟨⟨{ tokens := v1.tokens ++ token.string k2 :: rest, depth := d + 1, iter_depth := d,
            error := error_code.SUCCESS }, [cursor_call.field_start]⟩, true⟩) := by
    have herr0 : (missing_comma_cursor d k1 v1 k2 rest).error = error_code.SUCCESS := rfl
    simp [object_iterator.operator_star, object_iterator.ctor, value_iterator.error,
      value_iterator.field_start, json_ops, hstart, simdjson_result.of_value,
      simdjson_result.error, herr0]
  have hinc : object_iterator.operator_inc json_ops
      ⟨⟨{ tokens := v1.tokens ++ token.string k2 :: rest, depth := d + 1, iter_depth := d,
          error := error_code.SUCCESS }, [cursor_call.field_start]⟩, true⟩ =
      ⟨⟨missing_comma_pending d rest,
        [cursor_call.field_start, cursor_call.finish_child, cursor_call.has_next_field]⟩,
        true⟩ := by
    simp [object_iterator.operator_inc, value_iterator.is_open, value_iterator.finish_child,
      value_iterator.has_next_field, json_ops, hopen1, hfinish, hnext,
      simdjson_result.of_error, simdjson_result.error]
  have hstar1 : object_iterator.operator_star json_ops
      ⟨⟨missing_comma_pending d rest,
        [cursor_call.field_start, cursor_call.finish_child, cursor_call.has_next_field]⟩,
        true⟩ =
      (simdjson_result.of_error error_code.TAPE_ERROR,
        ⟨⟨(missing_comma_pending d rest).abandon,
          [cursor_call.field_start, cursor_call.finish_child, cursor_call.has_next_field,
            cursor_call.abandon]⟩, true⟩) := by
    simp [object_iterator.operator_star, value_iterator.error, value_iterator.abandon,
      json_ops, missing_comma_pending]
  have hstate := loop_steps_abandoned (missing_comma_pending d rest).abandon
    error_code.TAPE_ERROR hclosed rfl (by decide)
    (by simp [missing_comma_pending, json_cursor.abandon]) ops
    ⟨⟨(missing_comma_pending d rest).abandon,
      [cursor_call.field_start, cursor_call.finish_child, cursor_call.has_next_field,
        cursor_call.abandon]⟩, true⟩ rfl
  refine ⟨?_, ?_, hopen2, hstar1, hclosed, ?_, ?_, ?_⟩
  · rw [hstar0]
  · rw [hstar0]
    exact hinc
  · have hne0 : object_iterator.operator_ne json_ops
        (object_iterator.ctor ⟨missing_comma_cursor d k1 v1 k2 rest, []⟩) end_it = true :=
      hopen0
    have hne1 : object_iterator.operator_ne json_ops
        ⟨⟨missing_comma_pending d rest,
          [cursor_call.field_start, cursor_call.finish_child, cursor_call.has_next_field]⟩,
          true⟩ end_it = true := hopen2
    have hne2 : object_iterator.operator_ne json_ops
        ⟨⟨(missing_comma_pending d rest).abandon,
          [cursor_call.field_start, cursor_call.finish_child, cursor_call.has_next_field,
            cursor_call.abandon]⟩, true⟩ end_it = false := hclosed
    have hinc2 : object_iterator.operator_inc json_ops
        ⟨⟨(missing_comma_pending d rest).abandon,
          [cursor_call.field_start, cursor_call.finish_child, cursor_call.has_next_field,
            cursor_call.abandon]⟩, true⟩ =
        ⟨⟨(missing_comma_pending d rest).abandon,
          [cursor_call.field_start, cursor_call.finish_child, cursor_call.has_next_field,
            cursor_call.abandon]⟩, true⟩ := by
      simp [object_iterator.operator_inc, value_iterator.is_open, json_ops, hclosed]
    have hend : iterate json_ops end_it fuel
        ⟨⟨(missing_comma_pending d rest).abandon,
          [cursor_call.field_start, cursor_call.finish_child, cursor_call.has_next_field,
            cursor_call.abandon]⟩, true⟩ =
        some ([], ⟨⟨(missing_comma_pending d rest).abandon,
          [cursor_call.field_start, cursor_call.finish_child, cursor_call.has_next_field,
            cursor_call.abandon]⟩, true⟩) := by
      cases fuel <;> simp [iterate, hne2]
    rw [iterate, if_pos hne0, hstar0]
    simp only []
    rw [hinc, iterate, if_pos hne1, hstar1]
    simp only []
    rw [hinc2, hend]
    rfl
  · have he : json_cursor.error (loop_steps json_ops ops
        ⟨⟨(missing_comma_pending d rest).abandon,
          [cursor_call.field_start, cursor_call.finish_child, cursor_call.has_next_field,
            cursor_call.abandon]⟩, true⟩).iter.state = error_code.TAPE_ERROR := by
      rw [hstate]; rfl
    have hgen : ∀ it : object_iterator json_cursor,
        json_cursor.error it.iter.state = error_code.TAPE_ERROR →
        (object_iterator.operator_star json_ops it).1 =
          simdjson_result.of_error error_code.TAPE_ERROR := by
      intro it h
      simp [object_iterator.operator_star, value_iterator.error, json_ops, h]
    exact hgen _ he
  · show json_cursor.is_open _ = false
    rw [hstate]
    exact hclosed

/-- C16, the code at `{"a":1}`: the loop `while (it != end) { *it; ++it; }` on a
freshly constructed iterator yields the one field and ends in the finished state
(all tokens consumed, cursor depth below the depth of the iterator, no pending
error) with `at_start` still true. -/
theorem iterate_finishes_with_at_start_set :
    (iterate json_ops (fresh 1 [] []) 1 (fresh 1 [] [(key_a, json_value.scalar 1)])).map
        (fun r => (r.1, r.2.iter.state, r.2.at_start)) =
      some ([simdjson_result.of_value (field.mk key_a)], position.finished.cursor 1 [], true) ∧
    (position.finished.cursor 1 []).depth < (position.finished.cursor 1 []).iter_depth := by
  decide

/-! ### The call sequence of a lookup -/

theorem skipped_fields_calls_count :
    ∀ (m : Nat), (skipped_fields_calls m).count cursor_call.field_key = m ∧
      (skipped_fields_calls m).count cursor_call.skip_child = m ∧
      (skipped_fields_calls m).count cursor_call.field_value = m ∧
      (skipped_fields_calls m).count cursor_call.has_next_field = m ∧
      cursor_call.abandon ∉ skipped_fields_calls m ∧
      cursor_call.finish_child ∉ skipped_fields_calls m
  | 0 => by simp [skipped_fields_calls]
  | m + 1 => by
    obtain ⟨h1, h2, h3, h4, h5, h6⟩ := skipped_fields_calls_count m
    simp [skipped_fields_calls, List.count_cons, h1, h2, h3, h4, h5, h6]

theorem skipped_fields_calls_last :
    ∀ (m : Nat), (skipped_fields_calls (m + 1)).getLast? = some cursor_call.has_next_field
  | 0 => by simp [skipped_fields_calls]
  | m + 1 => by
    have ih := skipped_fields_calls_last m
    rw [skipped_fields_calls, List.getLast?_append, ih]
    rfl

theorem scan_calls_of_none (k : raw_json_string) :
    ∀ (fs : List (raw_json_string × json_value)), lookup_from k fs = none →
      scan_calls k fs = skipped_fields_calls fs.length
  | [], _ => rfl
  | f :: fs, h => by
    by_cases hk : f.1 = k
    · simp [lookup_from, hk] at h
    · simp only [lookup_from, hk, if_false] at h
      simp [scan_calls, hk, skipped_fields_calls, scan_calls_of_none k fs h]

theorem scan_calls_of_some (k : raw_json_string) :
    ∀ (fs pre : List (raw_json_string × json_value)) (v : json_value)
      (rest : List (raw_json_string × json_value)),
      fs = pre ++ (k, v) :: rest → (∀ f ∈ pre, f.1 ≠ k) →
      scan_calls k fs =
        skipped_fields_calls pre.length ++ [cursor_call.field_key, cursor_call.field_value]
  | _, [], v, rest, rfl, _ => by simp [scan_calls, skipped_fields_calls]
  | _, f :: pre, v, rest, rfl, h => by
    have hk : f.1 ≠ k := h f (by simp)
    have ih := scan_calls_of_some k (pre ++ (k, v) :: rest) pre v rest rfl
      (fun g hg => h g (by simp [hg]))
    simp [scan_calls, hk, skipped_fields_calls, ih]

theorem find_field_raw_live (d : Int) (outer : List token) (k : raw_json_string)
    (it : object_iterator json_cursor) (fs : List (raw_json_string × json_value)) (fuel : Nat)
    (hlive : live_over d outer it fs) (hfuel : fs.length ≤ fuel) :
    object_iterator.find_field_raw json_ops fuel it k =
      some (scan_result d outer k
        (it.iter.calls ++ lookup_calls it.at_start 0 false) fs) ∧
    (it.at_start = true → fs ≠ []) := by
  rcases hlive with ⟨hs, f, rest, hfs, hst⟩ | ⟨hs, v, pre, suf, hsplit, hst⟩
  · obtain ⟨⟨st, log⟩, b⟩ := it
    simp only at hs hst
    subst hs hst hfs
    refine ⟨?_, fun _ => by simp⟩
    simpa [position.start_flag, position.entry_calls, position.unscanned, lookup_calls,
      skipped_fields_calls] using
      find_field_raw_at_position d outer k (position.key f rest) fuel log hfuel
  · obtain ⟨ho, hf⟩ := finish_child_live d outer it.iter.state fs v pre suf hsplit hst
    refine ⟨?_, fun h => by rw [hs] at h; cases h⟩
    rw [find_field_raw_after_value d outer k it fs fuel hs ho hf hfuel, hs]
    simp [lookup_calls, skipped_fields_calls]

/-- C11, as stated, fails: over `{"a":1,"b":2}`, after `find_field_raw("a")` and `++it`
the iterator is open, at the key `"b"`, and no key is `"c"`, but
`find_field_raw("c")` returns TAPE_ERROR and abandons the cursor: `at_start` is
false, so the lookup asks for a separator that `++it` has already consumed. -/
theorem find_field_raw_missing_key_after_increment :
    (object_iterator.operator_inc json_ops iterator_after_find_a).iter.is_open json_ops =
      true ∧
    (object_iterator.operator_inc json_ops iterator_after_find_a).iter.state =
      (position.key (key_b, json_value.scalar 2) []).cursor 1 [] ∧
    ((object_iterator.operator_inc json_ops iterator_after_find_a).find_field_raw json_ops
        2 key_c).map (fun r => (r.1, r.2.iter.calls, r.2.iter.is_open json_ops)) =
      some (error_code.TAPE_ERROR,
        [cursor_call.field_key, cursor_call.field_value, cursor_call.finish_child,
          cursor_call.has_next_field, cursor_call.finish_child, cursor_call.has_next_field,
          cursor_call.abandon], false) := by
  decide

/-- C11, amended: for an iterator in a live state over a well-formed object whose
fields `fs` are not scanned yet (at the key of the first of them with `at_start`
set, or, with `at_start` false, at, in or after a value that was handed out: the
caller has read nothing, any part or all of it, and may have stopped at a key of
an object in it), and a key `k` that none of them has,
`find_field_raw(k)` returns NO_SUCH_FIELD; after `finish_child` and
`has_next_field` (only if `at_start` was false) it calls `field_key`,
`field_value`, `skip_child` and `has_next_field` once for each field of `fs`, in
that order, and never `abandon`; the last call is the `has_next_field` that
consumes the closing brace, the cursor ends in the finished state with no pending
error, and every later `find_field_raw` returns NO_SUCH_FIELD and changes
nothing. -/
theorem find_field_raw_exhausts_object (d : Int) (outer : List token)
    (it : object_iterator json_cursor) (fs : List (raw_json_string × json_value))
    (k : raw_json_string) (fuel : Nat) (hlive : live_over d outer it fs)
    (hk : ∀ f ∈ fs, f.1 ≠ k) (hfuel : fs.length ≤ fuel) :
    ∃ it1,
      object_iterator.find_field_raw json_ops fuel it k =
        some (error_code.NO_SUCH_FIELD, it1) ∧
      it1.iter.calls = it.iter.calls ++ lookup_calls it.at_start fs.length false ∧
      (lookup_calls it.at_start fs.length false).count cursor_call.field_key = fs.length ∧
      (lookup_calls it.at_start fs.length false).count cursor_call.skip_child = fs.length ∧
      cursor_call.abandon ∉ lookup_calls it.at_start fs.length false ∧
      (lookup_calls it.at_start fs.length false).getLast? = some cursor_call.has_next_field ∧
      it1.iter.state = position.finished.cursor d outer ∧
      it1.iter.error json_ops = error_code.SUCCESS ∧
      ∀ (fuel2 : Nat) (k2 : raw_json_string),
        object_iterator.find_field_raw json_ops fuel2 it1 k2 =
          some (error_code.NO_SUCH_FIELD, it1) := by
  obtain ⟨hfind, hne⟩ := find_field_raw_live d outer k it fs fuel hlive hfuel
  have hnone : lookup_from k fs = none := (lookup_from_none k fs).mpr hk
  obtain ⟨c1, c2, _, _, c5, _⟩ := skipped_fields_calls_count fs.length
  refine ⟨⟨⟨position.finished.cursor d outer,
      it.iter.calls ++ lookup_calls it.at_start 0 false ++ scan_calls k fs⟩, false⟩,
    by rw [hfind]; simp [scan_result, hnone], ?_, ?_, ?_, ?_, ?_, rfl, rfl, ?_⟩
  · simp [scan_calls_of_none k fs hnone, lookup_calls, skipped_fields_calls]
  · cases it.at_start <;> simp [lookup_calls, List.count_cons, c1]
  · cases it.at_start <;> simp [lookup_calls, List.count_cons, c2]
  · cases it.at_start <;> simp [lookup_calls, c5]
  · cases hs : it.at_start with
    | false =>
      cases hl : fs.length with
      | zero => simp [lookup_calls, skipped_fields_calls]
      | succ m =>
        have := skipped_fields_calls_last m
        simp only [lookup_calls, Bool.false_eq_true, if_false, List.append_nil,
          List.cons_append, List.nil_append, skipped_fields_calls,
          List.getLast?_cons_cons] at this ⊢
        exact this
    | true =>
      have hfs := hne hs
      cases hl : fs.length with
      | zero => exact absurd (List.length_eq_zero.mp hl) hfs
      | succ m =>
        have := skipped_fields_calls_last m
        simp [lookup_calls, this]
  · intro fuel2 k2
    exact find_field_raw_finished d outer k2 fuel2 _ _

/-- The lookup of `"c"` over `{"a":1,"b":2}` on a freshly constructed iterator, and the
lookup of `"c"` over `{"a":{"c":2,"e":3},"b":2}` after `find_field_raw("a")`, when the
caller has read the first field of the nested object and stopped at its key
`"e"`: the key `"c"` inside the nested object is not a key of the object. -/
theorem find_field_raw_exhausts_object_witness :
    (live_over 1 [] (fresh 1 [] fields_ab) fields_ab ∧
      (∀ f ∈ fields_ab, f.1 ≠ key_c) ∧
      fields_ab.length ≤ 2 ∧
      ∃ it1,
        object_iterator.find_field_raw json_ops 2 (fresh 1 [] fields_ab) key_c =
          some (error_code.NO_SUCH_FIELD, it1) ∧
        it1.iter.calls =
          (fresh 1 [] fields_ab).iter.calls ++
            lookup_calls (fresh 1 [] fields_ab).at_start fields_ab.length false ∧
        (lookup_calls (fresh 1 [] fields_ab).at_start fields_ab.length false).count
          cursor_call.field_key = fields_ab.length ∧
        (lookup_calls (fresh 1 [] fields_ab).at_start fields_ab.length false).count
          cursor_call.skip_child = fields_ab.length ∧
        cursor_call.abandon ∉
          lookup_calls (fresh 1 [] fields_ab).at_start fields_ab.length false ∧
        (lookup_calls (fresh 1 [] fields_ab).at_start fields_ab.length false).getLast? =
          some cursor_call.has_next_field ∧
        it1.iter.state = position.finished.cursor 1 [] ∧
        it1.iter.error json_ops = error_code.SUCCESS ∧
        ∀ (fuel2 : Nat) (k2 : raw_json_string),
          object_iterator.find_field_raw json_ops fuel2 it1 k2 =
            some (error_code.NO_SUCH_FIELD, it1)) ∧
    (live_over 1 [] iterator_at_second_nested_key [(key_b, json_value.scalar 2)] ∧
      (∀ f ∈ [(key_b, json_value.scalar 2)], f.1 ≠ key_c) ∧
      [(key_b, json_value.scalar 2)].length ≤ 1 ∧
      ∃ it1,
        object_iterator.find_field_raw json_ops 1 iterator_at_second_nested_key key_c =
          some (error_code.NO_SUCH_FIELD, it1) ∧
        it1.iter.calls =
          iterator_at_second_nested_key.iter.calls ++
            lookup_calls iterator_at_second_nested_key.at_start
              [(key_b, json_value.scalar 2)].length false ∧
        (lookup_calls iterator_at_second_nested_key.at_start
          [(key_b, json_value.scalar 2)].length false).count cursor_call.field_key =
            [(key_b, json_value.scalar 2)].length ∧
        (lookup_calls iterator_at_second_nested_key.at_start
          [(key_b, json_value.scalar 2)].length false).count cursor_call.skip_child =
            [(key_b, json_value.scalar 2)].length ∧
        cursor_call.abandon ∉ lookup_calls iterator_at_second_nested_key.at_start
          [(key_b, json_value.scalar 2)].length false ∧
        (lookup_calls iterator_at_second_nested_key.at_start
          [(key_b, json_value.scalar 2)].length false).getLast? =
            some cursor_call.has_next_field ∧
        it1.iter.state = position.finished.cursor 1 [] ∧
        it1.iter.error json_ops = error_code.SUCCESS ∧
        ∀ (fuel2 : Nat) (k2 : raw_json_string),
          object_iterator.find_field_raw json_ops fuel2 it1 k2 =
            some (error_code.NO_SUCH_FIELD, it1)) :=
  ⟨⟨Or.inl ⟨by decide, _, _, rfl, by decide⟩,
      by simp [fields_ab, key_a, key_b, key_c], by decide,
      find_field_raw_exhausts_object 1 [] (fresh 1 [] fields_ab) fields_ab key_c 2
        (Or.inl ⟨by decide, _, _, rfl, by decide⟩)
        (by simp [fields_ab, key_a, key_b, key_c]) (by decide)⟩,
    ⟨Or.inr ⟨by decide, nested_object,
        [token.lbrace, token.string key_c, token.colon, token.scalar 2, token.comma],
        [token.string key_e, token.colon, token.scalar 3, token.rbrace], by decide, by decide⟩,
      by simp [key_b, key_c], by decide,
      find_field_raw_exhausts_object 1 [] iterator_at_second_nested_key
        [(key_b, json_value.scalar 2)] key_c 1
        (Or.inr ⟨by decide, nested_object,
          [token.lbrace, token.string key_c, token.colon, token.scalar 2, token.comma],
          [token.string key_e, token.colon, token.scalar 3, token.rbrace], by decide,
          by decide⟩)
        (by simp [key_b, key_c]) (by decide)⟩⟩

theorem json_ops_never_reports_no_such_field : cursor_never_reports_no_such_field json_ops := by
  intro s
  refine ⟨?_, ?_, ?_, ?_, ?_⟩
  · simp only [json_ops, json_cursor.finish_child]
    split <;> simp
  · simp only [json_ops, json_cursor.has_next_field]
    split <;> simp [simdjson_result.of_value, simdjson_result.of_error, simdjson_result.error]
  · simp only [json_ops, json_cursor.field_key]
    split <;> simp [simdjson_result.of_value, simdjson_result.of_error, simdjson_result.error]
  · simp only [json_ops, json_cursor.field_value]
    split <;> simp
  · simp only [json_ops, json_cursor.skip_child]
    split <;> simp

theorem find_field_raw_loop_keys {σ φ : Type} (C : cursor_ops σ φ) (key : raw_json_string)
    (hclean : cursor_never_reports_no_such_field C) :
    ∀ (fuel : Nat) (hv : Bool) (self : object_iterator σ) (e : error_code)
      (it1 : object_iterator σ),
      object_iterator.find_field_raw_loop C key fuel hv self = some (e, it1) →
      (e = error_code.SUCCESS → ∃ m,
        it1.iter.calls = self.iter.calls ++ skipped_fields_calls m ++
          [cursor_call.field_key, cursor_call.field_value] ∧
        (∀ i, i < m → scanned_key C self.iter.state i ≠ key) ∧
        scanned_key C self.iter.state m = key ∧
        it1.iter.state =
          (C.field_value (C.field_key (pass_fields C m self.iter.state)).2).2) ∧
      (e = error_code.NO_SUCH_FIELD → ∃ m,
        it1.iter.calls = self.iter.calls ++ skipped_fields_calls m ∧
        (∀ i, i < m → scanned_key C self.iter.state i ≠ key) ∧
        it1.iter.state = pass_fields C m self.iter.state)
  | 0, false, self, e, it1, h => by
    simp only [object_iterator.find_field_raw_loop, Option.some.injEq, Prod.mk.injEq] at h
    obtain ⟨rfl, rfl⟩ := h
    exact ⟨fun h => (by cases h),
      fun _ => ⟨0, by simp [skipped_fields_calls], fun i hi => absurd hi (Nat.not_lt_zero i), rfl⟩⟩
  | 0, true, self, e, it1, h => by simp [object_iterator.find_field_raw_loop] at h
  | fuel + 1, false, self, e, it1, h => by
    simp only [object_iterator.find_field_raw_loop, Option.some.injEq, Prod.mk.injEq] at h
    obtain ⟨rfl, rfl⟩ := h
    exact ⟨fun h => (by cases h),
      fun _ => ⟨0, by simp [skipped_fields_calls], fun i hi => absurd hi (Nat.not_lt_zero i), rfl⟩⟩
  | fuel + 1, true, self, e, it1, h => by
    simp only [object_iterator.find_field_raw_loop] at h
    split at h
    · rename_i hfail
      simp only [Option.some.injEq, Prod.mk.injEq] at h
      obtain ⟨rfl, rfl⟩ := h
      exact ⟨fun h => absurd h hfail, fun h => absurd h (hclean _).2.2.1⟩
    · split at h
      · rename_i hfail
        simp only [Option.some.injEq, Prod.mk.injEq] at h
        obtain ⟨rfl, rfl⟩ := h
        exact ⟨fun h => absurd h hfail, fun h => absurd h (hclean _).2.2.2.1⟩
      · split at h
        · rename_i hmatch
          simp only [Option.some.injEq, Prod.mk.injEq] at h
          obtain ⟨rfl, rfl⟩ := h
          refine ⟨fun _ => ⟨0, ?_, fun i hi => absurd hi (Nat.not_lt_zero i), hmatch, rfl⟩,
            fun h => (by cases h)⟩
          simp [skipped_fields_calls, value_iterator.field_key, value_iterator.field_value]
        · rename_i hne
          split at h
          · rename_i hfail
            simp only [Option.some.injEq, Prod.mk.injEq] at h
            obtain ⟨rfl, rfl⟩ := h
            exact ⟨fun h => absurd h hfail, fun h => absurd h (hclean _).2.2.2.2⟩
          · split at h
            · rename_i hfail
              simp only [Option.some.injEq, Prod.mk.injEq] at h
              obtain ⟨rfl, rfl⟩ := h
              exact ⟨fun h => absurd h hfail, fun h => absurd h (hclean _).2.1⟩
            · obtain ⟨h1, h2⟩ := find_field_raw_loop_keys C key hclean fuel _ _ e it1 h
              have hkeys : ∀ (m : Nat),
                  (∀ i, i < m → scanned_key C (pass_field C self.iter.state) i ≠ key) →
                  ∀ i, i < m + 1 → scanned_key C self.iter.state i ≠ key := by
                intro m hm i hi
                cases i with
                | zero => exact hne
                | succ j => exact hm j (by omega)
              constructor
              · intro he
                obtain ⟨m, hm, hk, hkm, hst⟩ := h1 he
                refine ⟨m + 1, ?_, hkeys m hk, hkm, hst⟩
                rw [hm]
                simp [skipped_fields_calls, value_iterator.field_key,
                  value_iterator.field_value, value_iterator.skip_child,
                  value_iterator.has_next_field]
              · intro he
                obtain ⟨m, hm, hk, hst⟩ := h2 he
                refine ⟨m + 1, ?_, hkeys m hk, hst⟩
                rw [hm]
                simp [skipped_fields_calls, value_iterator.field_key,
                  value_iterator.field_value, value_iterator.skip_child,
                  value_iterator.has_next_field]

/-- C18: for every cursor none of whose operations reports NO_SUCH_FIELD, every
open iterator and every key, when `find_field_raw` returns and no operation has
failed (the result is SUCCESS or NO_SUCH_FIELD), the calls it issued are: nothing
before the first key if `at_start` was true, otherwise `finish_child` then
`has_next_field`; then `field_key`, `field_value`, `skip_child`, `has_next_field`
for each of the first `m` fields it reached, and the key that `field_key` read
for each of them differs from the key looked up; then, if the result is SUCCESS,
`field_key` and `field_value` and nothing more for the next field, whose key is
the key looked up, and the cursor is the one `field_value` left at its value; if
the result is NO_SUCH_FIELD, nothing more.  So `skip_child` is called once per
non-matching field, before the next `has_next_field`, and never for the matching
field, and `abandon` is not called. -/
theorem find_field_raw_call_sequence {σ φ : Type} (C : cursor_ops σ φ)
    (self : object_iterator σ) (key : raw_json_string) (fuel : Nat) (e : error_code)
    (it1 : object_iterator σ) (hclean : cursor_never_reports_no_such_field C)
    (hopen : self.iter.is_open C = true)
    (hret : self.find_field_raw C fuel key = some (e, it1))
    (hok : e = error_code.SUCCESS ∨ e = error_code.NO_SUCH_FIELD) :
    ∃ m, it1.iter.calls =
        self.iter.calls ++ lookup_calls self.at_start m (decide (e = error_code.SUCCESS)) ∧
      (∀ i, i < m → scanned_key C (self.scan_start C) i ≠ key) ∧
      (e = error_code.SUCCESS →
        scanned_key C (self.scan_start C) m = key ∧
        it1.iter.state =
          (C.field_value (C.field_key (pass_fields C m (self.scan_start C))).2).2) ∧
      (e = error_code.NO_SUCH_FIELD →
        it1.iter.state = pass_fields C m (self.scan_start C)) ∧
      (lookup_calls self.at_start m (decide (e = error_code.SUCCESS))).count
        cursor_call.skip_child = m ∧
      cursor_call.abandon ∉ lookup_calls self.at_start m (decide (e = error_code.SUCCESS)) := by
  have hshape : ∃ m, it1.iter.calls =
        self.iter.calls ++ lookup_calls self.at_start m (decide (e = error_code.SUCCESS)) ∧
      (∀ i, i < m → scanned_key C (self.scan_start C) i ≠ key) ∧
      (e = error_code.SUCCESS →
        scanned_key C (self.scan_start C) m = key ∧
        it1.iter.state =
          (C.field_value (C.field_key (pass_fields C m (self.scan_start C))).2).2) ∧
      (e = error_code.NO_SUCH_FIELD →
        it1.iter.state = pass_fields C m (self.scan_start C)) := by
    have ho1 : C.is_open self.iter.state = true := hopen
    simp only [object_iterator.find_field_raw, value_iterator.is_open, ho1, Bool.not_true,
      Bool.false_eq_true, if_false] at hret
    by_cases hs : self.at_start = true
    · simp only [hs, if_true] at hret
      have hstart : self.scan_start C = self.iter.state := by
        simp [object_iterator.scan_start, hs]
      rw [hstart]
      obtain ⟨h1, h2⟩ := find_field_raw_loop_keys C key hclean fuel true _ e it1 hret
      rcases hok with he | he
      · obtain ⟨m, hm, hk, hkm, hst⟩ := h1 he
        refine ⟨m, by rw [hm, hs, he]; simp [lookup_calls], hk, fun _ => ⟨hkm, hst⟩, ?_⟩
        intro h2
        rw [he] at h2
        cases h2
      · obtain ⟨m, hm, hk, hst⟩ := h2 he
        refine ⟨m, by rw [hm, hs, he]; simp [lookup_calls], hk, ?_, fun _ => hst⟩
        intro h1
        rw [he] at h1
        cases h1
    · have hs0 : self.at_start = false := by simpa using hs
      simp only [hs0, Bool.false_eq_true, if_false] at hret
      have hstart : self.scan_start C =
          (C.has_next_field (C.finish_child self.iter.state).2).2 := by
        simp [object_iterator.scan_start, hs0]
      rw [hstart]
      split at hret
      · rename_i hfail
        simp only [Option.some.injEq, Prod.mk.injEq] at hret
        obtain ⟨rfl, rfl⟩ := hret
        rcases hok with he | he
        · exact absurd he hfail
        · exact absurd he (hclean _).1
      · split at hret
        · rename_i hfail
          simp only [Option.some.injEq, Prod.mk.injEq] at hret
          obtain ⟨rfl, rfl⟩ := hret
          rcases hok with he | he
          · exact absurd he hfail
          · exact absurd he (hclean _).2.1
        · obtain ⟨h1, h2⟩ := find_field_raw_loop_keys C key hclean fuel _ _ e it1 hret
          rcases hok with he | he
          · obtain ⟨m, hm, hk, hkm, hst⟩ := h1 he
            refine ⟨m, ?_, hk, fun _ => ⟨hkm, hst⟩, ?_⟩
            · rw [hm, hs0, he]
              simp [lookup_calls, value_iterator.finish_child, value_iterator.has_next_field]
            · intro h2
              rw [he] at h2
              cases h2
          · obtain ⟨m, hm, hk, hst⟩ := h2 he
            refine ⟨m, ?_, hk, ?_, fun _ => hst⟩
            · rw [hm, hs0, he]
              simp [lookup_calls, value_iterator.finish_child, value_iterator.has_next_field]
            · intro h1
              rw [he] at h1
              cases h1
  obtain ⟨m, hm, hk, hs, hn⟩ := hshape
  obtain ⟨_, c2, _, _, c5, _⟩ := skipped_fields_calls_count m
  refine ⟨m, hm, hk, hs, hn, ?_, ?_⟩
  · cases self.at_start <;> cases decide (e = error_code.SUCCESS) <;>
      simp [lookup_calls, List.count_cons, c2]
  · cases self.at_start <;> cases decide (e = error_code.SUCCESS) <;>
      simp [lookup_calls, c5]

/-- The lookup of `"b"` over `{"a":1,"b":2}` on a freshly constructed iterator: the
field `"a"` is read and skipped, the field `"b"` is read and its value is left
unread. -/
theorem find_field_raw_call_sequence_witness :
    cursor_never_reports_no_such_field json_ops ∧
    (fresh 1 [] fields_ab).iter.is_open json_ops = true ∧
    (fresh 1 [] fields_ab).find_field_raw json_ops 2 key_b =
      some (error_code.SUCCESS,
        ⟨⟨(position.value (json_value.scalar 2) []).cursor 1 [],
          [cursor_call.field_key, cursor_call.field_value, cursor_call.skip_child,
            cursor_call.has_next_field, cursor_call.field_key, cursor_call.field_value]⟩,
          false⟩) ∧
    scanned_key json_ops ((fresh 1 [] fields_ab).scan_start json_ops) 0 = key_a ∧
    scanned_key json_ops ((fresh 1 [] fields_ab).scan_start json_ops) 1 = key_b ∧
    ∃ m,
      [cursor_call.field_key, cursor_call.field_value, cursor_call.skip_child,
          cursor_call.has_next_field, cursor_call.field_key, cursor_call.field_value] =
        (fresh 1 [] fields_ab).iter.calls ++
          lookup_calls (fresh 1 [] fields_ab).at_start m
            (decide (error_code.SUCCESS = error_code.SUCCESS)) ∧
      (∀ i, i < m →
        scanned_key json_ops ((fresh 1 [] fields_ab).scan_start json_ops) i ≠ key_b) ∧
      (error_code.SUCCESS = error_code.SUCCESS →
        scanned_key json_ops ((fresh 1 [] fields_ab).scan_start json_ops) m = key_b ∧
        (position.value (json_value.scalar 2) []).cursor 1 [] =
          (json_ops.field_value (json_ops.field_key
            (pass_fields json_ops m ((fresh 1 [] fields_ab).scan_start json_ops))).2).2) ∧
      (error_code.SUCCESS = error_code.NO_SUCH_FIELD →
        (position.value (json_value.scalar 2) []).cursor 1 [] =
          pass_fields json_ops m ((fresh 1 [] fields_ab).scan_start json_ops)) ∧
      (lookup_calls (fresh 1 [] fields_ab).at_start m
        (decide (error_code.SUCCESS = error_code.SUCCESS))).count cursor_call.skip_child = m ∧
      cursor_call.abandon ∉ lookup_calls (fresh 1 [] fields_ab).at_start m
        (decide (error_code.SUCCESS = error_code.SUCCESS)) :=
  ⟨json_ops_never_reports_no_such_field, by decide, by decide, by decide, by decide,
    find_field_raw_call_sequence json_ops (fresh 1 [] fields_ab) key_b 2
      error_code.SUCCESS
      ⟨⟨(position.value (json_value.scalar 2) []).cursor 1 [],
        [cursor_call.field_key, cursor_call.field_value, cursor_call.skip_child,
          cursor_call.has_next_field, cursor_call.field_key, cursor_call.field_value]⟩,
        false⟩
      json_ops_never_reports_no_such_field (by decide) (by decide) (Or.inl rfl)⟩

/-! ### Termination on every finite input -/

theorem colons_cons_le (t : token) (ts : List token) : colons ts ≤ colons (t :: ts) := by
  cases t <;> simp [colons]

theorem skip_loop_colons (p : Int) :
    ∀ (ts : List token) (d : Int), colons (json_cursor.skip_loop p ts d).2.1 ≤ colons ts
  | [], d => by simp [json_cursor.skip_loop]
  | token.lbrace :: ts, d => by
    simp only [json_cursor.skip_loop]
    exact le_trans (skip_loop_colons p ts _) (colons_cons_le _ ts)
  | token.lbracket :: ts, d => by
    simp only [json_cursor.skip_loop]
    exact le_trans (skip_loop_colons p ts _) (colons_cons_le _ ts)
  | token.rbrace :: ts, d => by
    simp only [json_cursor.skip_loop]
    split
    · exact colons_cons_le _ ts
    · exact le_trans (skip_loop_colons p ts _) (colons_cons_le _ ts)
  | token.rbracket :: ts, d => by
    simp only [json_cursor.skip_loop]
    split
    · exact colons_cons_le _ ts
    · exact le_trans (skip_loop_colons p ts _) (colons_cons_le _ ts)
  | token.colon :: ts, d => by
    simp only [json_cursor.skip_loop]
    exact le_trans (skip_loop_colons p ts _) (colons_cons_le _ ts)
  | token.comma :: ts, d => by
    simp only [json_cursor.skip_loop]
    exact le_trans (skip_loop_colons p ts _) (colons_cons_le _ ts)
  | token.string _ :: ts, d => by
    simp only [json_cursor.skip_loop]
    exact le_trans (skip_loop_colons p ts _) (colons_cons_le _ ts)
  | token.scalar _ :: ts, d => by
    simp only [json_cursor.skip_loop]
    exact le_trans (skip_loop_colons p ts _) (colons_cons_le _ ts)

theorem skip_colons (p : Int) (ts : List token) (d : Int) :
    colons (json_cursor.skip p ts d).2.1 ≤ colons ts := by
  unfold json_cursor.skip
  split
  · exact le_refl _
  · split
    · exact skip_loop_colons p ts d
    · cases ts with
      | nil => exact le_refl _
      | cons t ts1 =>
        cases t <;> simp only []
        case lbrace => exact le_trans (skip_loop_colons p ts1 _) (colons_cons_le _ ts1)
        case lbracket => exact le_trans (skip_loop_colons p ts1 _) (colons_cons_le _ ts1)
        case colon => exact le_trans (skip_loop_colons p ts1 _) (colons_cons_le _ ts1)
        case comma => exact le_trans (skip_loop_colons p ts1 _) (colons_cons_le _ ts1)
        case rbrace =>
          split
          · exact colons_cons_le _ ts1
          · exact le_trans (skip_loop_colons p ts1 _) (colons_cons_le _ ts1)
        case rbracket =>
          split
          · exact colons_cons_le _ ts1
          · exact le_trans (skip_loop_colons p ts1 _) (colons_cons_le _ ts1)
        case string =>
          split
          · exact colons_cons_le _ ts1
          · exact le_trans (skip_loop_colons p ts1 _) (colons_cons_le _ ts1)
        case scalar =>
          split
          · exact colons_cons_le _ ts1
          · exact le_trans (skip_loop_colons p ts1 _) (colons_cons_le _ ts1)

theorem finish_child_colons (c : json_cursor) :
    colons c.finish_child.2.tokens ≤ colons c.tokens := by
  have := skip_colons c.iter_depth c.tokens c.depth
  unfold json_cursor.finish_child
  simp only []
  split <;> simpa [json_cursor.report_error] using this

theorem skip_child_colons (c : json_cursor) :
    colons c.skip_child.2.tokens ≤ colons c.tokens := by
  have := skip_colons c.iter_depth c.tokens c.depth
  unfold json_cursor.skip_child
  simp only []
  split <;> simpa [json_cursor.report_error] using this

theorem has_next_field_colons (c : json_cursor) :
    colons c.has_next_field.2.tokens ≤ colons c.tokens := by
  unfold json_cursor.has_next_field
  split <;> simp_all [json_cursor.report_error, colons_cons_le]

theorem field_key_colons (c : json_cursor) :
    colons c.field_key.2.tokens ≤ colons c.tokens := by
  unfold json_cursor.field_key
  split <;> simp_all [json_cursor.report_error, colons_cons_le]

theorem field_value_colons (c : json_cursor) (h : c.field_value.1 = error_code.SUCCESS) :
    colons c.field_value.2.tokens + 1 ≤ colons c.tokens := by
  unfold json_cursor.field_value at h ⊢
  split at h <;> simp_all [colons]

theorem field_start_colons (c : json_cursor)
    (h : c.field_start.1.error = error_code.SUCCESS) :
    colons c.field_start.2.tokens + 1 ≤ colons c.tokens := by
  unfold json_cursor.field_start at h ⊢
  simp only [] at h ⊢
  split at h
  · rename_i hk
    simp [simdjson_result.of_error, simdjson_result.error] at h hk
    exact absurd h hk
  · split at h
    · rename_i hk hv
      simp [simdjson_result.of_error, simdjson_result.error] at h
      exact absurd h hv
    · rename_i hk hv
      rw [if_neg hk, if_neg hv]
      have h1 := field_value_colons c.field_key.2 (by simpa using hv)
      have h2 := field_key_colons c
      simp only []
      omega

theorem operator_inc_closed (it : object_iterator json_cursor)
    (h : it.iter.state.is_open = false) : it.operator_inc json_ops = it := by
  simp [object_iterator.operator_inc, value_iterator.is_open, json_ops, h]

theorem iterate_closed (end_it it : object_iterator json_cursor) (fuel : Nat)
    (h : it.iter.state.is_open = false) :
    iterate json_ops end_it fuel it = some ([], it) := by
  have hne : object_iterator.operator_ne json_ops it end_it = false := h
  cases fuel <;> simp [iterate, hne]

theorem iterate_terminates (end_it : object_iterator json_cursor) :
    ∀ (fuel : Nat) (it : object_iterator json_cursor), colons it.iter.state.tokens < fuel →
      ∃ rs it1, iterate json_ops end_it fuel it = some (rs, it1) ∧
        it1.iter.is_open json_ops = false ∧ rs.length ≤ fuel
  | 0, it, h => by simp at h
  | fuel + 1, it, h => by
    by_cases ho : it.iter.state.is_open = true
    · have hne : object_iterator.operator_ne json_ops it end_it = true := ho
      -- the iterator after the body of the loop: closed, or with fewer colons ahead
      have hbody : ((it.operator_star json_ops).2.operator_inc json_ops).iter.state.is_open =
            false ∨
          colons ((it.operator_star json_ops).2.operator_inc json_ops).iter.state.tokens <
            fuel := by
        by_cases he : it.iter.state.error = error_code.SUCCESS
        · by_cases hs : it.iter.state.field_start.1.error = error_code.SUCCESS
          · right
            have h1 := field_start_colons it.iter.state hs
            have hstar : (it.operator_star json_ops).2.iter.state =
                it.iter.state.field_start.2 := by
              simp [object_iterator.operator_star, value_iterator.error,
                value_iterator.field_start, json_ops, he, hs]
            have hinc : colons ((it.operator_star json_ops).2.operator_inc
                json_ops).iter.state.tokens ≤
                colons (it.operator_star json_ops).2.iter.state.tokens := by
              generalize (it.operator_star json_ops).2 = it2
              unfold object_iterator.operator_inc
              simp only []
              split
              · exact le_refl _
              · split
                · exact finish_child_colons _
                · have a1 := finish_child_colons it2.iter.state
                  have a2 := has_next_field_colons it2.iter.state.finish_child.2
                  split <;> exact le_trans a2 a1
            rw [hstar] at hinc
            omega
          · left
            have hstar : (it.operator_star json_ops).2.iter.state.is_open = false := by
              simp [object_iterator.operator_star, value_iterator.error,
                value_iterator.field_start, value_iterator.abandon, json_ops, he, hs,
                json_cursor.abandon, json_cursor.is_open]
            rw [operator_inc_closed _ hstar]
            exact hstar
        · left
          have hstar : (it.operator_star json_ops).2.iter.state.is_open = false := by
            simp [object_iterator.operator_star, value_iterator.error,
              value_iterator.abandon, json_ops, he, json_cursor.abandon, json_cursor.is_open]
          rw [operator_inc_closed _ hstar]
          exact hstar
      rw [iterate, if_pos hne]
      rcases hbody with hc | hlt
      · rw [iterate_closed end_it _ fuel hc]
        exact ⟨_, _, rfl, hc, by simp⟩
      · obtain ⟨rs, it1, h1, h2, h3⟩ := iterate_terminates end_it fuel _ hlt
        rw [h1]
        exact ⟨_, _, rfl, h2, by simp; omega⟩
    · have hc : it.iter.state.is_open = false := by simpa using ho
      rw [iterate_closed end_it it _ hc]
      exact ⟨_, _, rfl, hc, by simp⟩

theorem find_field_raw_loop_terminates (key : raw_json_string) :
    ∀ (fuel : Nat) (hv : Bool) (it : object_iterator json_cursor),
      colons it.iter.state.tokens < fuel →
      ∃ r, object_iterator.find_field_raw_loop json_ops key fuel hv it = some r
  | 0, hv, it, h => by simp at h
  | fuel + 1, false, it, _ => ⟨_, rfl⟩
  | fuel + 1, true, it, h => by
    simp only [object_iterator.find_field_raw_loop]
    split
    · exact ⟨_, rfl⟩
    · split
      · exact ⟨_, rfl⟩
      · rename_i hk hv
        split
        · exact ⟨_, rfl⟩
        · split
          · exact ⟨_, rfl⟩
          · split
            · exact ⟨_, rfl⟩
            · apply find_field_raw_loop_terminates key fuel
              have a1 := field_key_colons it.iter.state
              have a2 := field_value_colons it.iter.state.field_key.2
                (by simpa [value_iterator.field_value, value_iterator.field_key, json_ops]
                  using hv)
              have a3 := skip_child_colons it.iter.state.field_key.2.field_value.2
              have a4 := has_next_field_colons
                it.iter.state.field_key.2.field_value.2.skip_child.2
              simp only [value_iterator.has_next_field, value_iterator.skip_child,
                value_iterator.field_value, value_iterator.field_key, json_ops]
              omega

theorem find_field_raw_terminates (key : raw_json_string) (fuel : Nat)
    (it : object_iterator json_cursor) (h : colons it.iter.state.tokens < fuel) :
    ∃ r, object_iterator.find_field_raw json_ops fuel it key = some r := by
  unfold object_iterator.find_field_raw
  split
  · exact ⟨_, rfl⟩
  · split
    · exact find_field_raw_loop_terminates key fuel true _ h
    · simp only []
      split
      · exact ⟨_, rfl⟩
      · split
        · exact ⟨_, rfl⟩
        · apply find_field_raw_loop_terminates key fuel
          have a1 := finish_child_colons it.iter.state
          have a2 := has_next_field_colons it.iter.state.finish_child.2
          simp only [value_iterator.has_next_field, value_iterator.finish_child, json_ops]
          omega

/-! ### Objects that are malformed after some fields -/

theorem skip_loop_closes (p : Int) (tail : List token) :
    ∀ (ts : List token) (L : Int), closes ts L = true →
      json_cursor.skip_loop p (ts ++ tail) (p + L) = (true, tail, p)
  | [], L, h => by simp [closes] at h
  | t :: ts, L, h => by
    cases ts with
    | nil =>
      have hL : L = 1 ∧ t.delta = -1 := by simpa [closes] using h
      obtain ⟨rfl, ht⟩ := hL
      cases t <;> simp [token.delta] at ht <;> simp [json_cursor.skip_loop]
    | cons t2 ts2 =>
      have h1 : 0 < L + t.delta ∧ closes (t2 :: ts2) (L + t.delta) = true := by
        simpa [closes] using h
      have ih := skip_loop_closes p tail (t2 :: ts2) (L + t.delta) h1.2
      rw [List.cons_append]
      cases t <;> simp only [token.delta] at h1 ih <;> simp only [json_cursor.skip_loop]
      case lbrace => rw [← ih]; congr 1; omega
      case lbracket => rw [← ih]; congr 1; omega
      case rbrace =>
        rw [if_neg (by omega), ← ih]; congr 1; omega
      case rbracket =>
        rw [if_neg (by omega), ← ih]; congr 1; omega
      all_goals (rw [← ih]; congr 1; omega)

theorem skip_balanced (p : Int) (w tail : List token) (hb : balanced w = true)
    (hk : json_cursor.at_key (w ++ tail) = false) :
    json_cursor.skip p (w ++ tail) (p + 1) = (true, tail, p) := by
  have h0 : ¬ (p + 1 ≤ p) := by omega
  unfold json_cursor.skip
  rw [if_neg h0, hk]
  cases w with
  | nil => simp [balanced] at hb
  | cons t ts =>
    cases t
    case lbrace =>
      have hc : closes ts 1 = true := by simpa [balanced] using hb
      simpa using skip_loop_closes p tail ts 1 hc
    case lbracket =>
      have hc : closes ts 1 = true := by simpa [balanced] using hb
      simpa using skip_loop_closes p tail ts 1 hc
    case scalar n =>
      cases ts with
      | nil => simp
      | cons t2 ts2 => simp [balanced] at hb
    case string s =>
      cases ts with
      | nil => simp
      | cons t2 ts2 => simp [balanced] at hb
    all_goals simp [balanced] at hb

theorem closes_cons (t : token) (rest : List token) (L : Int) (hr : rest ≠ []) :
    closes (t :: rest) L = (decide (0 < L + t.delta) && closes rest (L + t.delta)) := by
  cases rest with
  | nil => exact absurd rfl hr
  | cons t2 ts2 => simp [closes]

mutual
theorem closes_value :
    ∀ (v : json_value) (rest : List token) (L : Int), 0 < L → rest ≠ [] →
      closes (v.tokens ++ rest) L = closes rest L
  | .scalar n, rest, L, h, hr => by
    simp [json_value.tokens, closes_cons _ rest L hr, token.delta, h]
  | .string s, rest, L, h, hr => by
    simp [json_value.tokens, closes_cons _ rest L hr, token.delta, h]
  | .array xs, rest, L, h, hr => by
    have h1 : (0 : Int) < L + 1 := by omega
    simp only [json_value.tokens, List.cons_append, List.append_assoc]
    rw [closes_cons _ _ L (by simp), closes_elements xs _ _ (by simpa [token.delta] using h1)
      (by simp)]
    simp [closes_cons _ rest _ hr, token.delta, h1, h]
  | .object fs, rest, L, h, hr => by
    have h1 : (0 : Int) < L + 1 := by omega
    simp only [json_value.tokens, List.cons_append, List.append_assoc]
    rw [closes_cons _ _ L (by simp), closes_fields fs _ _ (by simpa [token.delta] using h1)
      (by simp)]
    simp [closes_cons _ rest _ hr, token.delta, h1, h]
theorem closes_elements :
    ∀ (xs : List json_value) (rest : List token) (L : Int), 0 < L → rest ≠ [] →
      closes (elements_tokens xs ++ rest) L = closes rest L
  | [], rest, L, _, _ => by simp [elements_tokens]
  | x :: xs, rest, L, h, hr => by
    simp only [elements_tokens, List.append_assoc]
    by_cases hm : more_elements_tokens xs ++ rest = []
    · simp at hm
      exact absurd hm.2 hr
    · rw [closes_value x _ L h hm, closes_more_elements xs rest L h hr]
theorem closes_more_elements :
    ∀ (xs : List json_value) (rest : List token) (L : Int), 0 < L → rest ≠ [] →
      closes (more_elements_tokens xs ++ rest) L = closes rest L
  | [], rest, L, _, _ => by simp [more_elements_tokens]
  | x :: xs, rest, L, h, hr => by
    simp only [more_elements_tokens, List.cons_append, List.append_assoc]
    have hm : more_elements_tokens xs ++ rest ≠ [] := by
      intro hm
      simp at hm
      exact hr hm.2
    rw [closes_cons _ _ L (by cases x <;> simp [json_value.tokens]), closes_value x _ _
      (by simpa [token.delta] using h) hm, closes_more_elements xs rest _
      (by simpa [token.delta] using h) hr]
    simp [token.delta, h]
theorem closes_fields :
    ∀ (fs : List (raw_json_string × json_value)) (rest : List token) (L : Int), 0 < L →
      rest ≠ [] → closes (fields_tokens fs ++ rest) L = closes rest L
  | [], rest, L, _, _ => by simp [fields_tokens]
  | f :: fs, rest, L, h, hr => by
    simp only [fields_tokens, List.cons_append, List.append_assoc]
    have hm : more_fields_tokens fs ++ rest ≠ [] := by
      intro hm
      simp at hm
      exact hr hm.2
    rw [closes_cons _ _ L (by simp), closes_cons _ _ _ (by cases f.2 <;> simp [json_value.tokens]),
      closes_value f.2 _ _ (by simpa [token.delta] using h) hm, closes_more_fields fs rest _
      (by simpa [token.delta] using h) hr]
    simp [token.delta, h]
theorem closes_more_fields :
    ∀ (fs : List (raw_json_string × json_value)) (rest : List token) (L : Int), 0 < L →
      rest ≠ [] → closes (more_fields_tokens fs ++ rest) L = closes rest L
  | [], rest, L, _, _ => by simp [more_fields_tokens]
  | f :: fs, rest, L, h, hr => by
    simp only [more_fields_tokens, List.cons_append, List.append_assoc]
    have hm : more_fields_tokens fs ++ rest ≠ [] := by
      intro hm
      simp at hm
      exact hr hm.2
    rw [closes_cons _ _ L (by simp), closes_cons _ _ _ (by simp),
      closes_cons _ _ _ (by cases f.2 <;> simp [json_value.tokens]),
      closes_value f.2 _ _ (by simpa [token.delta] using h) hm, closes_more_fields fs rest _
      (by simpa [token.delta] using h) hr]
    simp [token.delta, h]
end

theorem balanced_value (v : json_value) : balanced v.tokens = true := by
  cases v with
  | scalar n => rfl
  | string s => rfl
  | array xs =>
    simp only [json_value.tokens, balanced]
    rw [closes_elements xs _ 1 (by omega) (by simp)]
    simp [closes, token.delta]
  | object fs =>
    simp only [json_value.tokens, balanced]
    rw [closes_fields fs _ 1 (by omega) (by simp)]
    simp [closes, token.delta]

theorem field_start_not_at_key (c : json_cursor) (h : json_cursor.at_key c.tokens = false) :
    c.field_start.1.error ≠ error_code.SUCCESS := by
  obtain ⟨ts, dp, idp, er⟩ := c
  simp only at h
  cases ts with
  | nil => simp [json_cursor.field_start, json_cursor.field_key, simdjson_result.of_error,
      simdjson_result.error]
  | cons t ts1 =>
    cases t <;> try (simp [json_cursor.field_start, json_cursor.field_key,
      simdjson_result.of_error, simdjson_result.error])
    case string s =>
      cases ts1 with
      | nil => simp [json_cursor.field_value, simdjson_result.of_value, simdjson_result.of_error,
          simdjson_result.error]
      | cons t2 ts2 =>
        cases t2 <;> simp [json_cursor.at_key] at h <;>
          simp [json_cursor.field_value, simdjson_result.of_value, simdjson_result.of_error,
            simdjson_result.error]

theorem iterate_pending_error (end_it : object_iterator json_cursor) (c : json_cursor)
    (log : List cursor_call) (b : Bool) (fuel : Nat) (ho : c.is_open = true)
    (he : c.error ≠ error_code.SUCCESS) :
    ∃ it1, iterate json_ops end_it (fuel + 1) ⟨⟨c, log⟩, b⟩ =
        some ([simdjson_result.of_error c.error], it1) ∧
      it1.iter.state.is_open = false := by
  have hclosed : c.abandon.is_open = false := by
    simp [json_cursor.abandon, json_cursor.is_open]
  refine ⟨⟨⟨c.abandon, log ++ [cursor_call.abandon]⟩, b⟩, ?_, hclosed⟩
  have hne : object_iterator.operator_ne json_ops ⟨⟨c, log⟩, b⟩ end_it = true := ho
  have hstar : object_iterator.operator_star json_ops ⟨⟨c, log⟩, b⟩ =
      (simdjson_result.of_error c.error, ⟨⟨c.abandon, log ++ [cursor_call.abandon]⟩, b⟩) := by
    simp [object_iterator.operator_star, value_iterator.error, value_iterator.abandon, json_ops,
      he]
  rw [iterate, if_pos hne, hstar]
  simp only []
  rw [operator_inc_closed _ hclosed, iterate_closed end_it _ fuel hclosed]
  rfl

theorem iterate_field_start_error (end_it : object_iterator json_cursor) (c : json_cursor)
    (log : List cursor_call) (b : Bool) (fuel : Nat) (ho : c.is_open = true)
    (he : c.error = error_code.SUCCESS)
    (hs : c.field_start.1.error ≠ error_code.SUCCESS) :
    ∃ it1, iterate json_ops end_it (fuel + 1) ⟨⟨c, log⟩, b⟩ = some ([c.field_start.1], it1) ∧
      it1.iter.state.is_open = false := by
  have hclosed : c.field_start.2.abandon.is_open = false := by
    simp [json_cursor.abandon, json_cursor.is_open]
  refine ⟨⟨⟨c.field_start.2.abandon,
    log ++ [cursor_call.field_start] ++ [cursor_call.abandon]⟩, b⟩, ?_, hclosed⟩
  have hne : object_iterator.operator_ne json_ops ⟨⟨c, log⟩, b⟩ end_it = true := ho
  have hstar : object_iterator.operator_star json_ops ⟨⟨c, log⟩, b⟩ =
      (c.field_start.1, ⟨⟨c.field_start.2.abandon,
        log ++ [cursor_call.field_start] ++ [cursor_call.abandon]⟩, b⟩) := by
    simp [object_iterator.operator_star, value_iterator.error, value_iterator.abandon,
      value_iterator.field_start, json_ops, he, hs]
  rw [iterate, if_pos hne, hstar]
  simp only []
  rw [operator_inc_closed _ hclosed, iterate_closed end_it _ fuel hclosed]
  rfl

theorem find_field_raw_loop_not_at_key (key : raw_json_string) (c : json_cursor)
    (log : List cursor_call) (b : Bool) (fuel : Nat)
    (h : json_cursor.at_key c.tokens = false) :
    ∃ r, object_iterator.find_field_raw_loop json_ops key (fuel + 1) true ⟨⟨c, log⟩, b⟩ =
      some r := by
  simp only [object_iterator.find_field_raw_loop]
  split
  · exact ⟨_, rfl⟩
  · split
    · exact ⟨_, rfl⟩
    · rename_i h1 h2
      exfalso
      apply field_start_not_at_key c h
      simp only [value_iterator.field_key, value_iterator.field_value, json_ops, ne_eq,
        not_not, simdjson_result.error] at h1 h2
      simp [json_cursor.field_start, h1, h2, simdjson_result.of_value, simdjson_result.error]

theorem raw_more_fields_tokens (fs : List (raw_json_string × json_value)) :
    more_raw_fields_tokens (raw_fields fs) = more_fields_tokens fs := by
  induction fs with
  | nil => simp [raw_fields, more_raw_fields_tokens, more_fields_tokens]
  | cons f fs ih =>
    simp only [raw_fields, List.map_cons, more_raw_fields_tokens, more_fields_tokens] at ih ⊢
    rw [ih]

theorem raw_fields_tokens_eq (fs : List (raw_json_string × json_value)) :
    raw_fields_tokens (raw_fields fs) = fields_tokens fs := by
  cases fs with
  | nil => simp [raw_fields, raw_fields_tokens, fields_tokens]
  | cons f fs =>
    have := raw_more_fields_tokens fs
    simp only [raw_fields, List.map_cons, raw_fields_tokens, fields_tokens] at this ⊢
    rw [this]

theorem fresh_then_closing (d : Int) (outer : List token)
    (fs : List (raw_json_string × json_value)) :
    fresh_then d (raw_fields fs) (token.rbrace :: outer) = fresh d outer fs := by
  simp [fresh_then, fresh, fields_cursor, object_cursor, json_value.tokens,
    raw_fields_tokens_eq]

theorem at_key_balanced (w after : List token) (hb : balanced w = true)
    (h : ∀ s, w = [token.string s] → json_cursor.at_key (token.string s :: after) = false) :
    json_cursor.at_key (w ++ after) = false := by
  cases w with
  | nil => simp [balanced] at hb
  | cons t ts =>
    cases t <;> try (simp [json_cursor.at_key])
    case string s =>
      cases ts with
      | nil => simpa using h s rfl
      | cons t2 ts2 => simp [balanced] at hb

theorem at_key_balanced_then (w : List token) (fs : List (raw_json_string × List token))
    (after : List token) (hb : balanced w = true)
    (h : ∀ ts, after ≠ token.colon :: ts) :
    json_cursor.at_key (w ++ (more_raw_fields_tokens fs ++ after)) = false := by
  apply at_key_balanced w _ hb
  intro s _
  cases fs with
  | nil =>
    cases after with
    | nil => simp [more_raw_fields_tokens, json_cursor.at_key]
    | cons t ts =>
      cases t <;> simp [more_raw_fields_tokens, json_cursor.at_key]
      exact h ts rfl
  | cons f2 fs2 => simp [more_raw_fields_tokens, json_cursor.at_key]

theorem not_colon_of_ends_fields (f : raw_json_string × List token)
    (fs : List (raw_json_string × List token)) (rest : List token)
    (h : ends_fields (f :: fs) rest = true) : ∀ ts, rest ≠ token.colon :: ts := by
  intro ts hts
  subst hts
  simp [ends_fields] at h

theorem iterate_step_field (d : Int) (end_it : object_iterator json_cursor)
    (f : raw_json_string × List token) (after : List token) (log : List cursor_call)
    (b : Bool) (fuel : Nat) (hb : balanced f.2 = true)
    (hk : json_cursor.at_key (f.2 ++ after) = false) :
    iterate json_ops end_it (fuel + 1)
        ⟨⟨{ tokens := token.string f.1 :: token.colon :: (f.2 ++ after), depth := d,
            iter_depth := d, error := error_code.SUCCESS }, log⟩, b⟩ =
      (iterate json_ops end_it fuel
        ⟨⟨(json_cursor.has_next_field
          { tokens := after, depth := d, iter_depth := d, error := error_code.SUCCESS }).2,
          log ++ [cursor_call.field_start, cursor_call.finish_child,
            cursor_call.has_next_field]⟩, b⟩).map
        (fun r => (simdjson_result.of_value (field.mk f.1) :: r.1, r.2)) := by
  have hskip := skip_balanced d f.2 after hb hk
  simp [iterate, object_iterator.operator_ne, object_iterator.operator_star,
    object_iterator.operator_inc, value_iterator.is_open, value_iterator.error,
    value_iterator.field_start, value_iterator.finish_child, value_iterator.has_next_field,
    json_ops, json_cursor.is_open, json_cursor.field_start, json_cursor.field_key,
    json_cursor.field_value, json_cursor.finish_child, hskip,
    simdjson_result.of_value, simdjson_result.error]

theorem iterate_balanced_fields (d : Int) (end_it : object_iterator json_cursor)
    (after : List token) (hafter : ∀ ts, after ≠ token.colon :: ts) :
    ∀ (fs : List (raw_json_string × List token)) (f : raw_json_string × List token)
      (log : List cursor_call) (b : Bool) (fuel : Nat),
      (∀ g ∈ f :: fs, balanced g.2 = true) →
      ∃ log2,
        iterate json_ops end_it (fuel + (f :: fs).length)
            ⟨⟨{ tokens := raw_fields_tokens (f :: fs) ++ after, depth := d, iter_depth := d,
                error := error_code.SUCCESS }, log⟩, b⟩ =
          (iterate json_ops end_it fuel
            ⟨⟨(json_cursor.has_next_field
              { tokens := after, depth := d, iter_depth := d,
                error := error_code.SUCCESS }).2, log2⟩, b⟩).map
            (fun r =>
              ((f :: fs).map (fun g => simdjson_result.of_value (field.mk g.1)) ++ r.1, r.2))
  | [], f, log, b, fuel, hbal => by
    have hb : balanced f.2 = true := hbal f (by simp)
    refine ⟨log ++ [cursor_call.field_start, cursor_call.finish_child,
      cursor_call.has_next_field], ?_⟩
    have := iterate_step_field d end_it f after log b fuel hb
      (by simpa [more_raw_fields_tokens] using at_key_balanced_then f.2 [] after hb hafter)
    simpa [raw_fields_tokens, more_raw_fields_tokens] using this
  | g :: fs, f, log, b, fuel, hbal => by
    have hb : balanced f.2 = true := hbal f (by simp)
    obtain ⟨log2, ih⟩ := iterate_balanced_fields d end_it after hafter fs g
      (log ++ [cursor_call.field_start, cursor_call.finish_child, cursor_call.has_next_field])
      b fuel (fun x hx => hbal x (by simp [hx]))
    refine ⟨log2, ?_⟩
    have hstep := iterate_step_field d end_it f (more_raw_fields_tokens (g :: fs) ++ after) log b
      (fuel + (g :: fs).length) hb (at_key_balanced_then f.2 (g :: fs) after hb hafter)
    have hnext : (json_cursor.has_next_field
        { tokens := more_raw_fields_tokens (g :: fs) ++ after, depth := d, iter_depth := d,
          error := error_code.SUCCESS }).2 =
        { tokens := raw_fields_tokens (g :: fs) ++ after, depth := d, iter_depth := d,
          error := error_code.SUCCESS } := by
      simp [more_raw_fields_tokens, raw_fields_tokens, json_cursor.has_next_field]
    rw [hnext, ih] at hstep
    have hlen : fuel + (f :: g :: fs).length = fuel + (g :: fs).length + 1 := by
      simp only [List.length_cons]
      omega
    rw [hlen]
    have htok : raw_fields_tokens (f :: g :: fs) ++ after =
        token.string f.1 :: token.colon :: (f.2 ++ (more_raw_fields_tokens (g :: fs) ++ after)) := by
      simp [raw_fields_tokens]
    rw [htok, hstep]
    generalize iterate json_ops end_it fuel _ = o
    cases o <;> rfl

theorem iterate_after_fields (d : Int) (end_it : object_iterator json_cursor)
    (f : raw_json_string × List token) (fs : List (raw_json_string × List token))
    (rest : List token) (log : List cursor_call) (b : Bool)
    (h : ends_fields (f :: fs) rest = true) :
    ∃ rs it1,
      iterate json_ops end_it (error_steps rest)
          ⟨⟨(json_cursor.has_next_field
            { tokens := rest, depth := d, iter_depth := d, error := error_code.SUCCESS }).2,
            log⟩, b⟩ = some (rs, it1) ∧
        rs.length = error_steps rest ∧ it1.iter.state.is_open = false := by
  cases rest with
  | nil =>
    obtain ⟨it1, h1, h2⟩ := iterate_pending_error end_it
      (json_cursor.has_next_field
        { tokens := [], depth := d, iter_depth := d, error := error_code.SUCCESS }).2
      log b 0 (by simp [json_cursor.has_next_field, json_cursor.report_error,
        json_cursor.is_open])
      (by simp [json_cursor.has_next_field, json_cursor.report_error])
    exact ⟨_, it1, h1, by simp [error_steps], h2⟩
  | cons t ts =>
    cases t
    case rbrace =>
      refine ⟨[], _, iterate_closed end_it _ _ ?_, by simp [error_steps], ?_⟩ <;>
        simp [json_cursor.has_next_field, json_cursor.is_open]
    case comma =>
      have hk : json_cursor.at_key ts = false := by simpa [ends_fields] using h
      obtain ⟨it1, h1, h2⟩ := iterate_field_start_error end_it
        (json_cursor.has_next_field
          { tokens := token.comma :: ts, depth := d, iter_depth := d,
            error := error_code.SUCCESS }).2
        log b 0 (by simp [json_cursor.has_next_field, json_cursor.is_open])
        (by simp [json_cursor.has_next_field])
        (field_start_not_at_key _ (by simpa [json_cursor.has_next_field] using hk))
      exact ⟨_, it1, h1, by simp [error_steps], h2⟩
    case colon => simp [ends_fields] at h
    all_goals
      show ∃ rs it1,
        iterate json_ops end_it 1
            ⟨⟨{ tokens := ts, depth := d, iter_depth := d, error := error_code.TAPE_ERROR },
              log⟩, b⟩ = some (rs, it1) ∧
          rs.length = 1 ∧ it1.iter.state.is_open = false
      obtain ⟨it1, h1, h2⟩ := iterate_pending_error end_it
        { tokens := ts, depth := d, iter_depth := d, error := error_code.TAPE_ERROR }
        log b 0 (by simp [json_cursor.is_open]) (by simp)
      exact ⟨_, it1, h1, by simp, h2⟩

theorem skip_loop_stays_open (p : Int) :
    ∀ (ts : List token) (L : Int), stays_open ts L = true →
      (json_cursor.skip_loop p ts (p + L)).1 = false
  | [], L, _ => by simp [json_cursor.skip_loop]
  | t :: ts, L, h => by
    have h1 : 0 < L + t.delta ∧ stays_open ts (L + t.delta) = true := by
      simpa [stays_open] using h
    have ih := skip_loop_stays_open p ts (L + t.delta) h1.2
    cases t <;> simp only [token.delta] at h1 ih <;> simp only [json_cursor.skip_loop]
    case lbrace => rw [← ih]; congr 2; omega
    case lbracket => rw [← ih]; congr 2; omega
    case rbrace => rw [if_neg (by omega), ← ih]; congr 2; omega
    case rbracket => rw [if_neg (by omega), ← ih]; congr 2; omega
    all_goals (rw [← ih]; congr 2; omega)

theorem skip_cut_off (p : Int) (pre : List token) (h : cut_off pre = true) :
    (json_cursor.skip p pre (p + 1)).1 = false := by
  have h0 : ¬ (p + 1 ≤ p) := by omega
  unfold json_cursor.skip
  rw [if_neg h0]
  cases pre with
  | nil => simp [json_cursor.at_key]
  | cons t ts =>
    cases t <;> simp [cut_off] at h <;> simp [json_cursor.at_key]
    all_goals exact skip_loop_stays_open p ts 1 h

theorem iterate_cut_off (d : Int) (end_it : object_iterator json_cursor)
    (k : raw_json_string) (pre : List token) (log : List cursor_call) (b : Bool)
    (h : cut_off pre = true) :
    ∃ rs it1,
      iterate json_ops end_it 2
          ⟨⟨{ tokens := token.string k :: token.colon :: pre, depth := d, iter_depth := d,
              error := error_code.SUCCESS }, log⟩, b⟩ = some (rs, it1) ∧
        rs = [simdjson_result.of_value (field.mk k),
          simdjson_result.of_error error_code.TAPE_ERROR] ∧
        it1.iter.state.is_open = false := by
  have hskip := skip_cut_off d pre h
  have hdepth := skip_depth d pre (d + 1) (by omega)
  have hfin : json_cursor.finish_child
      { tokens := pre, depth := d + 1, iter_depth := d, error := error_code.SUCCESS } =
      (error_code.TAPE_ERROR,
        { tokens := (json_cursor.skip d pre (d + 1)).2.1,
          depth := (json_cursor.skip d pre (d + 1)).2.2, iter_depth := d,
          error := error_code.TAPE_ERROR }) := by
    simp [json_cursor.finish_child, hskip, json_cursor.report_error]
  obtain ⟨it1, h1, h2⟩ := iterate_pending_error end_it
    { tokens := (json_cursor.skip d pre (d + 1)).2.1,
      depth := (json_cursor.skip d pre (d + 1)).2.2, iter_depth := d,
      error := error_code.TAPE_ERROR }
    (log ++ [cursor_call.field_start] ++ [cursor_call.finish_child]) b 0
    (by simpa [json_cursor.is_open] using hdepth) (by simp)
  have hstep : iterate json_ops end_it 2
      ⟨⟨{ tokens := token.string k :: token.colon :: pre, depth := d, iter_depth := d,
          error := error_code.SUCCESS }, log⟩, b⟩ =
      (iterate json_ops end_it (0 + 1)
        ⟨⟨{ tokens := (json_cursor.skip d pre (d + 1)).2.1,
            depth := (json_cursor.skip d pre (d + 1)).2.2, iter_depth := d,
            error := error_code.TAPE_ERROR },
          log ++ [cursor_call.field_start] ++ [cursor_call.finish_child]⟩, b⟩).map
        (fun r => (simdjson_result.of_value (field.mk k) :: r.1, r.2)) := by
    rw [show (2 : Nat) = 1 + 1 from rfl, iterate]
    simp [object_iterator.operator_ne, object_iterator.operator_star,
      object_iterator.operator_inc, value_iterator.is_open, value_iterator.error,
      value_iterator.field_start, value_iterator.finish_child, json_ops, json_cursor.is_open,
      json_cursor.field_start, json_cursor.field_key, json_cursor.field_value, hfin,
      simdjson_result.of_value, simdjson_result.error]
  rw [hstep, h1]
  exact ⟨_, it1, rfl, rfl, h2⟩

theorem find_field_raw_loop_step (d : Int) (key : raw_json_string)
    (f : raw_json_string × List token) (after : List token) (log : List cursor_call)
    (fuel : Nat) (hb : balanced f.2 = true)
    (hk : json_cursor.at_key (f.2 ++ after) = false) (hne : f.1 ≠ key) :
    object_iterator.find_field_raw_loop json_ops key (fuel + 1) true
        ⟨⟨{ tokens := token.string f.1 :: token.colon :: (f.2 ++ after), depth := d,
            iter_depth := d, error := error_code.SUCCESS }, log⟩, false⟩ =
      if (json_cursor.has_next_field
          { tokens := after, depth := d, iter_depth := d,
            error := error_code.SUCCESS }).1.error ≠ error_code.SUCCESS then
        some ((json_cursor.has_next_field
            { tokens := after, depth := d, iter_depth := d,
              error := error_code.SUCCESS }).1.error,
          ⟨⟨(json_cursor.has_next_field
              { tokens := after, depth := d, iter_depth := d,
                error := error_code.SUCCESS }).2.abandon,
            log ++ [cursor_call.field_key, cursor_call.field_value, cursor_call.skip_child,
              cursor_call.has_next_field, cursor_call.abandon]⟩, false⟩)
      else
        object_iterator.find_field_raw_loop json_ops key fuel
          (json_cursor.has_next_field
            { tokens := after, depth := d, iter_depth := d,
              error := error_code.SUCCESS }).1.first
          ⟨⟨(json_cursor.has_next_field
              { tokens := after, depth := d, iter_depth := d,
                error := error_code.SUCCESS }).2,
            log ++ [cursor_call.field_key, cursor_call.field_value, cursor_call.skip_child,
              cursor_call.has_next_field]⟩, false⟩ := by
  have hskip := skip_balanced d f.2 after hb hk
  simp [object_iterator.find_field_raw_loop, value_iterator.field_key,
    value_iterator.field_value, value_iterator.skip_child, value_iterator.has_next_field,
    value_iterator.abandon, json_ops, json_cursor.field_key, json_cursor.field_value,
    json_cursor.skip_child, hskip, hne, simdjson_result.of_value,
    simdjson_result.error]

theorem find_field_raw_loop_match (d : Int) (key : raw_json_string)
    (f : raw_json_string × List token) (after : List token) (log : List cursor_call)
    (fuel : Nat) (hkey : f.1 = key) :
    ∃ r, object_iterator.find_field_raw_loop json_ops key (fuel + 1) true
        ⟨⟨{ tokens := token.string f.1 :: token.colon :: after, depth := d,
            iter_depth := d, error := error_code.SUCCESS }, log⟩, false⟩ = some r := by
  simp [object_iterator.find_field_raw_loop, value_iterator.field_key,
    value_iterator.field_value, json_ops, json_cursor.field_key, json_cursor.field_value,
    hkey, simdjson_result.of_value, simdjson_result.error]

theorem find_field_raw_loop_balanced_fields (d : Int) (key : raw_json_string)
    (after : List token) (hafter : ∀ ts, after ≠ token.colon :: ts) (fuel : Nat)
    (hend : ∀ log2,
      (json_cursor.has_next_field
        { tokens := after, depth := d, iter_depth := d,
          error := error_code.SUCCESS }).1.error = error_code.SUCCESS →
      ∃ r, object_iterator.find_field_raw_loop json_ops key fuel
          (json_cursor.has_next_field
            { tokens := after, depth := d, iter_depth := d,
              error := error_code.SUCCESS }).1.first
          ⟨⟨(json_cursor.has_next_field
              { tokens := after, depth := d, iter_depth := d,
                error := error_code.SUCCESS }).2, log2⟩, false⟩ = some r) :
    ∀ (fs : List (raw_json_string × List token)) (f : raw_json_string × List token)
      (log : List cursor_call),
      (∀ g ∈ f :: fs, balanced g.2 = true) →
      ∃ r, object_iterator.find_field_raw_loop json_ops key (fuel + (f :: fs).length) true
          ⟨⟨{ tokens := raw_fields_tokens (f :: fs) ++ after, depth := d, iter_depth := d,
              error := error_code.SUCCESS }, log⟩, false⟩ = some r
  | [], f, log, hbal => by
    have hb : balanced f.2 = true := hbal f (by simp)
    by_cases hkey : f.1 = key
    · simpa [raw_fields_tokens, more_raw_fields_tokens] using
        find_field_raw_loop_match d key f (f.2 ++ after) log fuel hkey
    · have hstep := find_field_raw_loop_step d key f after log fuel hb
        (by simpa [more_raw_fields_tokens] using at_key_balanced_then f.2 [] after hb hafter)
        hkey
      simp only [raw_fields_tokens, more_raw_fields_tokens, List.append_nil, List.cons_append,
        List.append_assoc, List.length_cons, List.length_nil, Nat.zero_add]
      rw [hstep]
      split
      · exact ⟨_, rfl⟩
      · rename_i he
        exact hend _ (by simpa using he)
  | g :: fs, f, log, hbal => by
    have hb : balanced f.2 = true := hbal f (by simp)
    have hlen : fuel + (f :: g :: fs).length = fuel + (g :: fs).length + 1 := by
      simp only [List.length_cons]
      omega
    have htok : raw_fields_tokens (f :: g :: fs) ++ after =
        token.string f.1 :: token.colon :: (f.2 ++ (more_raw_fields_tokens (g :: fs) ++ after)) := by
      simp [raw_fields_tokens]
    rw [hlen, htok]
    by_cases hkey : f.1 = key
    · exact find_field_raw_loop_match d key f _ log _ hkey
    · rw [find_field_raw_loop_step d key f (more_raw_fields_tokens (g :: fs) ++ after) log _ hb
        (at_key_balanced_then f.2 (g :: fs) after hb hafter) hkey]
      have hnext : json_cursor.has_next_field
          { tokens := more_raw_fields_tokens (g :: fs) ++ after, depth := d, iter_depth := d,
            error := error_code.SUCCESS } =
          (simdjson_result.of_value true,
            { tokens := raw_fields_tokens (g :: fs) ++ after, depth := d, iter_depth := d,
              error := error_code.SUCCESS }) := by
        simp [more_raw_fields_tokens, raw_fields_tokens, json_cursor.has_next_field]
      rw [hnext]
      simp only [simdjson_result.of_value, simdjson_result.error, ne_eq, not_true_eq_false,
        if_false]
      exact find_field_raw_loop_balanced_fields d key after hafter fuel hend fs g _
        (fun x hx => hbal x (by simp [hx]))

theorem find_field_raw_loop_after_fields (d : Int) (key : raw_json_string)
    (f : raw_json_string × List token) (fs : List (raw_json_string × List token))
    (rest : List token) (log : List cursor_call) (h : ends_fields (f :: fs) rest = true)
    (he : (json_cursor.has_next_field
        { tokens := rest, depth := d, iter_depth := d,
          error := error_code.SUCCESS }).1.error = error_code.SUCCESS) :
    ∃ r, object_iterator.find_field_raw_loop json_ops key (extra_iterations (f :: fs) rest)
        (json_cursor.has_next_field
          { tokens := rest, depth := d, iter_depth := d,
            error := error_code.SUCCESS }).1.first
        ⟨⟨(json_cursor.has_next_field
            { tokens := rest, depth := d, iter_depth := d,
              error := error_code.SUCCESS }).2, log⟩, false⟩ = some r := by
  cases rest with
  | nil => simp [json_cursor.has_next_field, simdjson_result.of_error, simdjson_result.error] at he
  | cons t ts =>
    cases t with
    | comma =>
      have hk : json_cursor.at_key ts = false := by simpa [ends_fields] using h
      exact find_field_raw_loop_not_at_key key _ _ _ 0
        (by simpa [json_cursor.has_next_field] using hk)
    | rbrace => exact ⟨_, rfl⟩
    | _ => simp [json_cursor.has_next_field, simdjson_result.of_error, simdjson_result.error] at he

theorem find_field_raw_loop_cut_off (d : Int) (key k : raw_json_string) (pre : List token)
    (log : List cursor_call) (h : cut_off pre = true) :
    ∃ r, object_iterator.find_field_raw_loop json_ops key 1 true
        ⟨⟨{ tokens := token.string k :: token.colon :: pre, depth := d, iter_depth := d,
            error := error_code.SUCCESS }, log⟩, false⟩ = some r := by
  by_cases hkey : k = key
  · exact find_field_raw_loop_match d key (k, pre) pre log 0 hkey
  · have hskip := skip_cut_off d pre h
    simp [object_iterator.find_field_raw_loop, value_iterator.field_key,
      value_iterator.field_value, value_iterator.skip_child, json_ops, json_cursor.field_key,
      json_cursor.field_value, json_cursor.skip_child, hskip, hkey, simdjson_result.of_value,
      simdjson_result.error]

theorem fresh_then_nil (d : Int) (rest : List token)
    (hb : ¬ ∃ ts, rest = token.rbrace :: ts) :
    fresh_then d [] rest =
      ⟨⟨{ tokens := rest, depth := d, iter_depth := d, error := error_code.SUCCESS }, []⟩,
        true⟩ := by
  cases rest with
  | nil => simp [fresh_then, fields_cursor, object_iterator.ctor, json_cursor.start_object,
      raw_fields_tokens]
  | cons t ts =>
    cases t <;> simp [fresh_then, fields_cursor, object_iterator.ctor,
      json_cursor.start_object, raw_fields_tokens]
    exact hb ⟨ts, rfl⟩

theorem fresh_then_cons (d : Int) (f : raw_json_string × List token)
    (fs : List (raw_json_string × List token)) (rest : List token) :
    fresh_then d (f :: fs) rest =
      ⟨⟨{ tokens := raw_fields_tokens (f :: fs) ++ rest, depth := d, iter_depth := d,
          error := error_code.SUCCESS }, []⟩, true⟩ := by
  simp [fresh_then, fields_cursor, object_iterator.ctor, json_cursor.start_object,
    raw_fields_tokens]

theorem error_steps_open (rest : List token) (hb : ¬ ∃ ts, rest = token.rbrace :: ts) :
    error_steps rest = 1 := by
  cases rest with
  | nil => rfl
  | cons t ts =>
    cases t <;> first | rfl | exact absurd ⟨ts, rfl⟩ hb

theorem iterate_fresh_then (d : Int) (end_it : object_iterator json_cursor)
    (fs : List (raw_json_string × List token)) (rest : List token)
    (hbal : ∀ g ∈ fs, balanced g.2 = true) (h : ends_fields fs rest = true) :
    ∃ rs it1,
      iterate json_ops end_it (fs.length + error_steps rest) (fresh_then d fs rest) =
          some (rs, it1) ∧
        rs.length = fs.length + error_steps rest ∧
        rs.take fs.length = fs.map (fun g => simdjson_result.of_value (field.mk g.1)) ∧
        it1.iter.is_open json_ops = false := by
  cases fs with
  | nil =>
    have hk : json_cursor.at_key rest = false := by simpa [ends_fields] using h
    by_cases hb : ∃ ts, rest = token.rbrace :: ts
    · obtain ⟨ts, rfl⟩ := hb
      refine ⟨[], _, iterate_closed end_it _ _ ?_, by simp [error_steps], by simp, ?_⟩ <;>
        simp [fresh_then, fields_cursor, object_iterator.ctor, json_cursor.start_object,
          raw_fields_tokens, json_cursor.is_open, value_iterator.is_open, json_ops]
    · obtain ⟨it1, h1, h2⟩ := iterate_field_start_error end_it
        { tokens := rest, depth := d, iter_depth := d, error := error_code.SUCCESS } [] true 0
        (by simp [json_cursor.is_open]) rfl (field_start_not_at_key _ hk)
      rw [fresh_then_nil d rest hb, error_steps_open rest hb]
      exact ⟨_, it1, h1, by simp, by simp, h2⟩
  | cons f fs =>
    obtain ⟨log2, hpeel⟩ := iterate_balanced_fields d end_it rest
      (not_colon_of_ends_fields f fs rest h) fs f [] true (error_steps rest) hbal
    obtain ⟨rs, it1, h1, h2, h3⟩ := iterate_after_fields d end_it f fs rest log2 true h
    rw [fresh_then_cons, Nat.add_comm, hpeel, h1]
    refine ⟨_, it1, rfl, ?_, ?_, h3⟩
    · simp only [List.length_append, List.length_map, h2]
      omega
    · simp

theorem find_field_raw_fresh_then (d : Int) (key : raw_json_string)
    (fs : List (raw_json_string × List token)) (rest : List token)
    (hbal : ∀ g ∈ fs, balanced g.2 = true) (h : ends_fields fs rest = true) :
    ∃ r, object_iterator.find_field_raw json_ops (fs.length + extra_iterations fs rest)
        (fresh_then d fs rest) key = some r := by
  cases fs with
  | nil =>
    have hk : json_cursor.at_key rest = false := by simpa [ends_fields] using h
    by_cases hb : ∃ ts, rest = token.rbrace :: ts
    · obtain ⟨ts, rfl⟩ := hb
      unfold object_iterator.find_field_raw
      split
      · exact ⟨_, rfl⟩
      · rename_i ho
        exfalso
        apply ho
        simp [fresh_then, fields_cursor, object_iterator.ctor, json_cursor.start_object,
          raw_fields_tokens, json_cursor.is_open, value_iterator.is_open, json_ops]
    · have hx : extra_iterations [] rest = 1 := by
        cases rest with
        | nil => rfl
        | cons t ts => cases t <;> first | rfl | exact absurd ⟨ts, rfl⟩ hb
      rw [fresh_then_nil d rest hb, hx]
      unfold object_iterator.find_field_raw
      split
      · exact ⟨_, rfl⟩
      · simp only [if_true]
        exact find_field_raw_loop_not_at_key key _ _ _ 0 hk
  | cons f fs =>
    rw [fresh_then_cons, Nat.add_comm]
    unfold object_iterator.find_field_raw
    split
    · exact ⟨_, rfl⟩
    · simp only [if_true]
      exact find_field_raw_loop_balanced_fields d key rest
        (not_colon_of_ends_fields f fs rest h) (extra_iterations (f :: fs) rest)
        (fun log2 he => find_field_raw_loop_after_fields d key f fs rest log2 h he) fs f [] hbal

theorem more_raw_fields_tokens_append (fs gs : List (raw_json_string × List token)) :
    more_raw_fields_tokens (fs ++ gs) =
      more_raw_fields_tokens fs ++ more_raw_fields_tokens gs := by
  induction fs with
  | nil => simp [more_raw_fields_tokens]
  | cons f fs ih => simp [more_raw_fields_tokens, ih]

theorem raw_fields_tokens_snoc (f : raw_json_string × List token)
    (fs : List (raw_json_string × List token)) (k : raw_json_string) (pre : List token) :
    raw_fields_tokens (f :: (fs ++ [(k, pre)])) ++ [] =
      raw_fields_tokens (f :: fs) ++ (token.comma :: token.string k :: token.colon :: pre) := by
  simp [raw_fields_tokens, more_raw_fields_tokens_append, more_raw_fields_tokens]

theorem iterate_fresh_cut_off (d : Int) (end_it : object_iterator json_cursor)
    (fs : List (raw_json_string × List token)) (k : raw_json_string) (pre : List token)
    (hbal : ∀ g ∈ fs, balanced g.2 = true) (h : cut_off pre = true) :
    ∃ rs it1,
      iterate json_ops end_it (fs.length + 2) (fresh_then d (fs ++ [(k, pre)]) []) =
          some (rs, it1) ∧
        rs = (fs ++ [(k, pre)]).map (fun g => simdjson_result.of_value (field.mk g.1)) ++
          [simdjson_result.of_error error_code.TAPE_ERROR] ∧
        it1.iter.is_open json_ops = false := by
  cases fs with
  | nil =>
    obtain ⟨rs, it1, h1, h2, h3⟩ := iterate_cut_off d end_it k pre [] true h
    refine ⟨rs, it1, ?_, by simpa using h2, h3⟩
    rw [← h1]
    simp [fresh_then_cons, raw_fields_tokens, more_raw_fields_tokens]
  | cons f fs =>
    obtain ⟨log2, hpeel⟩ := iterate_balanced_fields d end_it
      (token.comma :: token.string k :: token.colon :: pre) (by simp) fs f [] true 2 hbal
    obtain ⟨rs, it1, h1, h2, h3⟩ := iterate_cut_off d end_it k pre log2 true h
    have hnext : (json_cursor.has_next_field
        { tokens := token.comma :: token.string k :: token.colon :: pre, depth := d,
          iter_depth := d, error := error_code.SUCCESS }).2 =
        { tokens := token.string k :: token.colon :: pre, depth := d, iter_depth := d,
          error := error_code.SUCCESS } := by
      simp [json_cursor.has_next_field]
    rw [hnext, h1] at hpeel
    rw [List.cons_append, fresh_then_cons, raw_fields_tokens_snoc, Nat.add_comm, hpeel]
    refine ⟨_, it1, rfl, ?_, h3⟩
    simp [h2]

theorem find_field_raw_fresh_cut_off (d : Int) (key : raw_json_string)
    (fs : List (raw_json_string × List token)) (k : raw_json_string) (pre : List token)
    (hbal : ∀ g ∈ fs, balanced g.2 = true) (h : cut_off pre = true) :
    ∃ r, object_iterator.find_field_raw json_ops (fs.length + 1)
        (fresh_then d (fs ++ [(k, pre)]) []) key = some r := by
  cases fs with
  | nil =>
    have hst : fresh_then d ([] ++ [(k, pre)]) [] =
        ⟨⟨{ tokens := token.string k :: token.colon :: pre, depth := d, iter_depth := d,
            error := error_code.SUCCESS }, []⟩, true⟩ := by
      simp [fresh_then_cons, raw_fields_tokens, more_raw_fields_tokens]
    rw [hst]
    unfold object_iterator.find_field_raw
    split
    · exact ⟨_, rfl⟩
    · simp only [if_true]
      exact find_field_raw_loop_cut_off d key k pre [] h
  | cons f fs =>
    rw [List.cons_append, fresh_then_cons, raw_fields_tokens_snoc, Nat.add_comm]
    unfold object_iterator.find_field_raw
    split
    · exact ⟨_, rfl⟩
    · simp only [if_true]
      refine find_field_raw_loop_balanced_fields d key
        (token.comma :: token.string k :: token.colon :: pre) (by simp) 1 ?_ fs f [] hbal
      intro log2 _
      have := find_field_raw_loop_cut_off d key k pre log2 h
      simpa [json_cursor.has_next_field, simdjson_result.of_value] using this

/-- C15, as stated, fails on malformed objects.  Over `{"a":1,}`, an object with one
field and a trailing comma, one iteration of the scan loop of `find_field_raw` is
not enough: the loop starts a second iteration, which ends at the closing brace
with INCORRECT_TYPE.  Over the object `{"a":}` inside `{"o":{"a":},"b":1,"c":2}`,
an object with one field, whose value is missing, the loop `*it; ++it` has not
reached a closed cursor after two executions of its body: finishing the missing
value consumes the closing brace of the object, the loop goes on with the fields
`"b"` and `"c"` of the enclosing object and reaches a closed cursor after three
executions. -/
theorem termination_bounds_fail_on_malformed_input :
    object_iterator.find_field_raw json_ops 1 (iterator_over tokens_trailing_comma) key_b =
      none ∧
    (object_iterator.find_field_raw json_ops 2 (iterator_over tokens_trailing_comma)
        key_b).map (fun r => (r.1, r.2.iter.calls)) =
      some (error_code.INCORRECT_TYPE,
        [cursor_call.field_key, cursor_call.field_value, cursor_call.skip_child,
          cursor_call.has_next_field, cursor_call.field_key, cursor_call.abandon]) ∧
    iterate json_ops (fresh 1 [] []) 2 (iterator_over tokens_missing_value) = none ∧
    (iterate json_ops (fresh 1 [] []) 3 (iterator_over tokens_missing_value)).map
        (fun r => (r.1, r.2.iter.is_open json_ops)) =
      some ([simdjson_result.of_value (field.mk key_a), simdjson_result.of_value (field.mk key_b),
        simdjson_result.of_value (field.mk key_c)], false) := by
  decide

/-- C15, amended.  Over a well-formed object with the `n` fields `wf`, the loop
`while (it != end) { *it; ++it; }` on a freshly constructed iterator reaches a
closed cursor after `n` executions of its body, and the scan loop of
`find_field_raw` needs at most `n` iterations.  Over an object that starts with
the `m` fields `fs`, whose values are balanced (every well-formed value is) and
which are separated by commas and followed by anything but a further field
(`rest`: the closing brace, or a defect such as a missing or wrong separator, a
trailing comma, a key that is not a string, a missing colon or the end of the
input), the loop yields these fields and reaches a closed cursor after `m`
executions when the closing brace follows and after `m + 1` otherwise, and the
scan loop needs at most `m + 1` iterations, at most `m` unless a comma follows
the fields or there is neither a field nor a closing brace.  When the input ends
in the value of a further field `k` (the `n = m + 1` fields are `fs` and `k`), the
loop yields all `n` fields and then TAPE_ERROR, `n + 1` executions, and the scan
loop needs at most `n` iterations.  On every input and from every cursor state,
with `c` colons ahead, the loop reaches a closed cursor after at most `c + 1`
executions of its body and the scan loop returns within `c + 1` iterations:
every field that is read without error consumes its colon. -/
theorem iteration_and_lookup_terminate (d : Int) (outer : List token)
    (wf : List (raw_json_string × json_value))
    (fs : List (raw_json_string × List token)) (rest : List token)
    (k : raw_json_string) (pre : List token)
    (end_it it : object_iterator json_cursor) (key : raw_json_string)
    (hbal : ∀ g ∈ fs, balanced g.2 = true) (hrest : ends_fields fs rest = true)
    (hcut : cut_off pre = true) :
    (∃ rs it1, iterate json_ops end_it wf.length (fresh d outer wf) = some (rs, it1) ∧
      rs.length = wf.length ∧ it1.iter.is_open json_ops = false) ∧
    (∃ r, object_iterator.find_field_raw json_ops wf.length (fresh d outer wf) key = some r) ∧
    (fresh_then d (raw_fields wf) (token.rbrace :: outer) = fresh d outer wf ∧
      (∀ g ∈ raw_fields wf, balanced g.2 = true) ∧
      ends_fields (raw_fields wf) (token.rbrace :: outer) = true) ∧
    (∃ rs it1,
      iterate json_ops end_it (fs.length + error_steps rest) (fresh_then d fs rest) =
        some (rs, it1) ∧
      rs.length = fs.length + error_steps rest ∧
      rs.take fs.length = fs.map (fun g => simdjson_result.of_value (field.mk g.1)) ∧
      it1.iter.is_open json_ops = false) ∧
    (∃ r, object_iterator.find_field_raw json_ops (fs.length + extra_iterations fs rest)
      (fresh_then d fs rest) key = some r) ∧
    (error_steps rest ≤ 1 ∧ extra_iterations fs rest ≤ 1) ∧
    (∃ rs it1,
      iterate json_ops end_it (fs.length + 2) (fresh_then d (fs ++ [(k, pre)]) []) =
        some (rs, it1) ∧
      rs = (fs ++ [(k, pre)]).map (fun g => simdjson_result.of_value (field.mk g.1)) ++
        [simdjson_result.of_error error_code.TAPE_ERROR] ∧
      it1.iter.is_open json_ops = false) ∧
    (∃ r, object_iterator.find_field_raw json_ops (fs.length + 1)
      (fresh_then d (fs ++ [(k, pre)]) []) key = some r) ∧
    (∃ rs it1, iterate json_ops end_it (colons it.iter.state.tokens + 1) it = some (rs, it1) ∧
      rs.length ≤ colons it.iter.state.tokens + 1 ∧ it1.iter.is_open json_ops = false) ∧
    (∃ r, object_iterator.find_field_raw json_ops (colons it.iter.state.tokens + 1) it key =
      some r) := by
  refine ⟨?_, ?_, ⟨fresh_then_closing d outer wf, ?_, ?_⟩,
    iterate_fresh_then d end_it fs rest hbal hrest,
    find_field_raw_fresh_then d key fs rest hbal hrest, ⟨?_, ?_⟩,
    iterate_fresh_cut_off d end_it fs k pre hbal hcut,
    find_field_raw_fresh_cut_off d key fs k pre hbal hcut, ?_, ?_⟩
  · refine ⟨wf.map (fun f => simdjson_result.of_value (field.mk f.1)),
      ⟨⟨position.finished.cursor d outer, [] ++ iterate_calls wf⟩, true⟩, ?_, ?_, ?_⟩
    · rw [fresh_eq]
      exact iterate_fields d outer end_it wf wf.length [] (le_refl _)
    · simp
    · simp [value_iterator.is_open, json_ops, is_open_cursor, position.is_finished]
  · obtain ⟨h0, hu, _⟩ := fresh_at_position d outer wf
    obtain ⟨it1, h1, _⟩ :=
      find_field_raw_step d outer key (fresh d outer wf) (position.of_fields wf) wf.length h0
        (by rw [hu])
    exact ⟨_, h1⟩
  · intro g hg
    simp only [raw_fields, List.mem_map] at hg
    obtain ⟨f, _, rfl⟩ := hg
    exact balanced_value f.2
  · cases wf <;> simp [raw_fields, ends_fields, json_cursor.at_key]
  · cases rest with
    | nil => simp [error_steps]
    | cons t ts => cases t <;> simp [error_steps]
  · cases fs with
    | nil =>
      cases rest with
      | nil => simp [extra_iterations]
      | cons t ts => cases t <;> simp [extra_iterations]
    | cons f fs =>
      cases rest with
      | nil => simp [extra_iterations]
      | cons t ts => cases t <;> simp [extra_iterations]
  · obtain ⟨rs, it1, h1, h2, h3⟩ :=
      iterate_terminates end_it (colons it.iter.state.tokens + 1) it (Nat.lt_succ_self _)
    exact ⟨rs, it1, h1, h3, h2⟩
  · exact find_field_raw_terminates key _ it (Nat.lt_succ_self _)

/-- The loop over `{"a":{"x":1,"y":2,"z":3} "b":4}`, an object with two fields and no
comma between them: it yields the field `"a"` and TAPE_ERROR and is closed after
two executions of its body.  The loop over `{"a":{"x":1,"y":2,"z":3},"b":[1`, which
ends in the value of its second field: it yields both fields and TAPE_ERROR. -/
theorem iteration_and_lookup_terminate_witness :
    (∀ g ∈ raw_fields [(key_a, object_xyz)], balanced g.2 = true) ∧
    ends_fields (raw_fields [(key_a, object_xyz)])
        [token.string key_b, token.colon, token.scalar 4, token.rbrace] = true ∧
    cut_off [token.lbracket, token.scalar 1] = true ∧
    (iterate json_ops (fresh 1 [] []) 2
        (fresh_then 1 (raw_fields [(key_a, object_xyz)])
          [token.string key_b, token.colon, token.scalar 4, token.rbrace])).map
        (fun r => (r.1, r.2.iter.is_open json_ops)) =
      some ([simdjson_result.of_value (field.mk key_a),
        simdjson_result.of_error error_code.TAPE_ERROR], false) ∧
    (∃ rs it1,
      iterate json_ops (fresh 1 [] [])
          ((raw_fields [(key_a, object_xyz)]).length +
            error_steps [token.string key_b, token.colon, token.scalar 4, token.rbrace])
          (fresh_then 1 (raw_fields [(key_a, object_xyz)])
            [token.string key_b, token.colon, token.scalar 4, token.rbrace]) =
        some (rs, it1) ∧
      rs.length = (raw_fields [(key_a, object_xyz)]).length +
        error_steps [token.string key_b, token.colon, token.scalar 4, token.rbrace] ∧
      rs.take (raw_fields [(key_a, object_xyz)]).length =
        (raw_fields [(key_a, object_xyz)]).map
          (fun g => simdjson_result.of_value (field.mk g.1)) ∧
      it1.iter.is_open json_ops = false) ∧
    (∃ rs it1,
      iterate json_ops (fresh 1 [] []) ((raw_fields [(key_a, object_xyz)]).length + 2)
          (fresh_then 1
            (raw_fields [(key_a, object_xyz)] ++ [(key_b, [token.lbracket, token.scalar 1])])
            []) = some (rs, it1) ∧
      rs = (raw_fields [(key_a, object_xyz)] ++
            [(key_b, [token.lbracket, token.scalar 1])]).map
          (fun g => simdjson_result.of_value (field.mk g.1)) ++
        [simdjson_result.of_error error_code.TAPE_ERROR] ∧
      it1.iter.is_open json_ops = false) :=
  ⟨by decide, by decide, by decide, by decide,
    (iteration_and_lookup_terminate 1 [] fields_ab (raw_fields [(key_a, object_xyz)])
      [token.string key_b, token.colon, token.scalar 4, token.rbrace] key_b
      [token.lbracket, token.scalar 1] (fresh 1 [] [])
      (iterator_over tokens_trailing_comma) key_b (by decide) (by decide)
      (by decide)).2.2.2.1,
    (iteration_and_lookup_terminate 1 [] fields_ab (raw_fields [(key_a, object_xyz)])
      [token.string key_b, token.colon, token.scalar 4, token.rbrace] key_b
      [token.lbracket, token.scalar 1] (fresh 1 [] [])
      (iterator_over tokens_trailing_comma) key_b (by decide) (by decide)
      (by decide)).2.2.2.2.2.2.1⟩

/-! ### The increment after a value that is read in part -/

end simdjson
